import Mathlib

/-!
Verification development for the console-mermaid diagram renderer.

The Rust sources are shallowly embedded: strings are lists of characters
(`Str`), `i32` values are `Int`, Rust `HashMap`s are association lists with
overwriting insertion (`AList`), fallible functions return `Except Str`,
and unbounded loops take an explicit fuel argument.  Definition names follow
the Rust source (`src/lib.rs`, `src/diagram.rs`, `src/sequence.rs`,
`src/graph/mod.rs`).
-/

set_option maxHeartbeats 1000000

namespace ConsoleMermaid

/-- Characters strings are modelled as lists of characters. -/
abbrev Str := List Char

/-- Whitespace predicate modelling `char::is_whitespace` / regex `\s`
(restricted to the ASCII whitespace characters that occur in practice). -/
def isWS (c : Char) : Bool :=
  c = ' ' ∨ c = '\t' ∨ c = '\n' ∨ c = '\r' ∨ c = '\x0b' ∨ c = '\x0c'

/-- Model of `str::trim`: drop whitespace from both ends. -/
def trimStr (s : Str) : Str :=
  ((s.dropWhile isWS).reverse.dropWhile isWS).reverse

/-- Fuel-indexed decimal rendering; the fuel only drives structural
recursion and `n + 1` is always sufficient. -/
def natToStrAux : Nat → Nat → Str
  | 0, _ => []
  | fuel + 1, n =>
    if n < 10 then [Char.ofNat (48 + n)]
    else natToStrAux fuel (n / 10) ++ [Char.ofNat (48 + n % 10)]

/-- Decimal rendering of a natural number, modelling `format!("{}", n)`. -/
def natToStr (n : Nat) : Str := natToStrAux (n + 1) n

/-- An association list with overwriting insertion, modelling `HashMap`.
The entry list keeps one entry per key, in first-insertion order. -/
abbrev AList (α β : Type) := List (α × β)

/-- Lookup in an association list (`HashMap::get`). -/
def alookup {α β : Type} [DecidableEq α] (m : AList α β) (k : α) : Option β :=
  match m with
  | [] => none
  | (k', v) :: rest => if k' = k then some v else alookup rest k

/-- Key-membership test (`HashMap::contains_key`). -/
def acontains {α β : Type} [DecidableEq α] (m : AList α β) (k : α) : Bool :=
  (alookup m k).isSome

/-- Overwriting insertion (`HashMap::insert`): replace an existing entry in
place, otherwise append at the end. -/
def aupsert {α β : Type} [DecidableEq α] (m : AList α β) (k : α) (v : β) : AList α β :=
  match m with
  | [] => [(k, v)]
  | (k', v') :: rest => if k' = k then (k, v) :: rest else (k', v') :: aupsert rest k v

/-- Number of entries of an association list. -/
def asize {α β : Type} (m : AList α β) : Nat := List.length m

/-- Sum of all values of an `AList Int Int` (`HashMap::values().sum()`). -/
def avalsum (m : AList Int Int) : Int :=
  m.foldl (fun acc e => acc + e.2) 0

/-- Integer grid coordinate (`GridCoord` in `graph/mod.rs`). -/
structure GridCoord where
  x : Int
  y : Int
deriving DecidableEq

/-- Canvas coordinate in character cells (`DrawingCoord`). -/
structure DrawingCoord where
  x : Int
  y : Int
deriving DecidableEq

/-- A canvas: a list of columns, each a list of single-glyph cells
(`type Drawing = Vec<Vec<String>>`). -/
abbrev Drawing := List (List Str)

/-- Build a `(x+1) × (y+1)` canvas of spaces (`mk_drawing`). -/
def mk_drawing (x y : Int) : Drawing :=
  List.replicate (x + 1).toNat (List.replicate (y + 1).toNat " ".data)

/-- Size of a canvas as maximal coordinates (`get_drawing_size`). -/
def get_drawing_size (d : Drawing) : Int × Int :=
  if d.isEmpty then (0, 0)
  else ((d.length : Int) - 1, ((d.headD []).length : Int) - 1)

/-- Read the cell at column `x`, row `y`, defaulting to a space. -/
def dGet (d : Drawing) (x y : Nat) : Str :=
  (d.getD x []).getD y " ".data

/-- Write the cell at column `x`, row `y` (no-op out of bounds). -/
def dSet (d : Drawing) (x y : Nat) (v : Str) : Drawing :=
  d.set x ((d.getD x []).set y v)

/-- Grow a canvas to at least the given maximal coordinates, preserving
content (`increase_size`). -/
def increase_size (d : Drawing) (x y : Int) : Drawing :=
  let s := get_drawing_size d
  let new_x := max x s.1
  let new_y := max y s.2
  (List.range (new_x + 1).toNat).map (fun cx =>
    (List.range (new_y + 1).toNat).map (fun cy =>
      if cx < d.length ∧ cy < (d.headD []).length then dGet d cx cy else " ".data))

/-- A same-size blank canvas (`copy_canvas`). -/
def copy_canvas (d : Drawing) : Drawing :=
  let s := get_drawing_size d
  mk_drawing s.1 s.2

/-- Write a glyph at signed coordinates, ignoring negative coordinates and
growing the canvas as needed (`set_cell`). -/
def set_cell (d : Drawing) (x y : Int) (value : Str) : Drawing :=
  if x < 0 ∨ y < 0 then d
  else
    let s := get_drawing_size d
    let d' := if x > s.1 ∨ y > s.2 then increase_size d x y else d
    dSet d' x.toNat y.toNat value

/-- Serialize a canvas row by row, separating rows with `'\n'` and appending
no trailing newline (`drawing_to_string`). -/
def drawing_to_string (d : Drawing) : Str :=
  let s := get_drawing_size d
  let rows := (List.range (s.2 + 1).toNat).map (fun y =>
    ((List.range (s.1 + 1).toNat).map (fun x => dGet d x y)).foldl (· ++ ·) [])
  match rows with
  | [] => []
  | r :: rs => rs.foldl (fun acc row => acc ++ '\n' :: row) r

/-- The junction-merging table of `merge_junctions`: for a resident glyph
`c1` and an incoming glyph `c2`, return the merged glyph, defaulting to `c1`
when the pair is not in the table. -/
def merge_junctions (c1 c2 : Str) : Str :=
  let map : List (Str × List (Str × Str)) :=
    [ ("─".data, [("│".data, "┼".data), ("┌".data, "┬".data), ("┐".data, "┬".data),
        ("└".data, "┴".data), ("┘".data, "┴".data), ("├".data, "┼".data),
        ("┤".data, "┼".data), ("┬".data, "┬".data), ("┴".data, "┴".data)]),
      ("│".data, [("─".data, "┼".data), ("┌".data, "├".data), ("┐".data, "┤".data),
        ("└".data, "├".data), ("┘".data, "┤".data), ("├".data, "├".data),
        ("┤".data, "┤".data), ("┬".data, "┼".data), ("┴".data, "┼".data)]),
      ("┌".data, [("─".data, "┬".data), ("│".data, "├".data), ("┐".data, "┬".data),
        ("└".data, "├".data), ("┘".data, "┼".data), ("├".data, "├".data),
        ("┤".data, "┼".data), ("┬".data, "┬".data), ("┴".data, "┼".data)]),
      ("┐".data, [("─".data, "┬".data), ("│".data, "┤".data), ("┌".data, "┬".data),
        ("└".data, "┼".data), ("┘".data, "┤".data), ("├".data, "┼".data),
        ("┤".data, "┤".data), ("┬".data, "┬".data), ("┴".data, "┼".data)]),
      ("└".data, [("─".data, "┴".data), ("│".data, "├".data), ("┌".data, "├".data),
        ("┐".data, "┼".data), ("┘".data, "┴".data), ("├".data, "├".data),
        ("┤".data, "┼".data), ("┬".data, "┼".data), ("┴".data, "┴".data)]),
      ("┘".data, [("─".data, "┴".data), ("│".data, "┤".data), ("┌".data, "┼".data),
        ("┐".data, "┤".data), ("└".data, "┴".data), ("├".data, "┼".data),
        ("┤".data, "┤".data), ("┬".data, "┼".data), ("┴".data, "┴".data)]),
      ("├".data, [("─".data, "┼".data), ("│".data, "├".data), ("┌".data, "├".data),
        ("┐".data, "┼".data), ("└".data, "├".data), ("┘".data, "┼".data),
        ("┤".data, "┼".data), ("┬".data, "┼".data), ("┴".data, "┼".data)]),
      ("┤".data, [("─".data, "┼".data), ("│".data, "┤".data), ("┌".data, "┼".data),
        ("┐".data, "┤".data), ("└".data, "┼".data), ("┘".data, "┤".data),
        ("├".data, "┼".data), ("┬".data, "┼".data), ("┴".data, "┼".data)]),
      ("┬".data, [("─".data, "┬".data), ("│".data, "┼".data), ("┌".data, "┬".data),
        ("┐".data, "┬".data), ("└".data, "┼".data), ("┘".data, "┼".data),
        ("├".data, "┼".data), ("┤".data, "┼".data), ("┴".data, "┼".data)]),
      ("┴".data, [("─".data, "┴".data), ("│".data, "┼".data), ("┌".data, "┼".data),
        ("┐".data, "┼".data), ("└".data, "┴".data), ("┘".data, "┴".data),
        ("├".data, "┼".data), ("┤".data, "┼".data), ("┬".data, "┼".data)]) ]
  match map.find? (fun e => e.1 = c1) with
  | some (_, entries) =>
    match entries.find? (fun e => e.1 = c2) with
    | some (_, merged) => merged
    | none => c1
  | none => c1

/-- The glyphs treated as junction characters by the canvas merge
(`is_junction_char`). -/
def is_junction_char (c : Str) : Bool :=
  c = "─".data ∨ c = "│".data ∨ c = "┌".data ∨ c = "┐".data ∨ c = "└".data ∨
  c = "┘".data ∨ c = "├".data ∨ c = "┤".data ∨ c = "┬".data ∨ c = "┴".data ∨
  c = "┼".data ∨ c = "╴".data ∨ c = "╵".data ∨ c = "╶".data ∨ c = "╷".data

/-- Merge overlay canvases onto a base at an offset, blending junction
glyphs when not in ASCII mode (`merge_drawings`). -/
def merge_drawings (base : Drawing) (offset : DrawingCoord) (drawings : List Drawing)
    (use_ascii : Bool) : Drawing :=
  let sz := drawings.foldl
    (fun acc dr =>
      let s := get_drawing_size dr
      (max acc.1 (s.1 + offset.x), max acc.2 (s.2 + offset.y)))
    (get_drawing_size base)
  let merged0 : Drawing := (List.range (sz.1 + 1).toNat).map (fun cx =>
    (List.range (sz.2 + 1).toNat).map (fun cy =>
      if cx < base.length ∧ cy < (base.headD []).length then dGet base cx cy else " ".data))
  drawings.foldl
    (fun acc dr =>
      (List.range dr.length).foldl
        (fun acc2 x =>
          (List.range (dr.headD []).length).foldl
            (fun acc3 y =>
              let value := dGet dr x y
              if value ≠ " ".data then
                let tx := ((x : Int) + offset.x).toNat
                let ty := ((y : Int) + offset.y).toNat
                let current := dGet acc3 tx ty
                if ¬use_ascii ∧ is_junction_char value ∧ is_junction_char current then
                  dSet acc3 tx ty (merge_junctions current value)
                else
                  dSet acc3 tx ty value
              else acc3)
            acc2)
        acc)
    merged0

/-- Connection signature of a junction glyph: bit 3 = up, bit 2 = down,
bit 1 = left, bit 0 = right (used to state the glyph-merging law). -/
def charSig (c : Str) : Nat :=
  if c = "─".data then 3
  else if c = "│".data then 12
  else if c = "┌".data then 5
  else if c = "┐".data then 6
  else if c = "└".data then 9
  else if c = "┘".data then 10
  else if c = "├".data then 13
  else if c = "┤".data then 14
  else if c = "┬".data then 7
  else if c = "┴".data then 11
  else if c = "┼".data then 15
  else if c = "╴".data then 2
  else if c = "╵".data then 8
  else if c = "╶".data then 1
  else if c = "╷".data then 4
  else 0

/-- The ten two- and three-armed junction glyphs (the junction set without
the four-way cross and the single-arm stubs). -/
def junctionGlyphs10 : List Str :=
  ["─".data, "│".data, "┌".data, "┐".data, "└".data, "┘".data,
   "├".data, "┤".data, "┬".data, "┴".data]

/-- The secondary-axis shift applied by the placement loop in
`reserve_spot_in_grid`: `y + 4` for `LR` graphs, `x + 4` otherwise. -/
def reserve_shift (graph_direction : Str) (c : GridCoord) : GridCoord :=
  if graph_direction = "LR".data then ⟨c.x, c.y + 4⟩ else ⟨c.x + 4, c.y⟩

/-- Iterated secondary-axis shift. -/
def shiftIter (graph_direction : Str) (c : GridCoord) : Nat → GridCoord
  | 0 => c
  | k + 1 => shiftIter graph_direction (reserve_shift graph_direction c) k

/-- The search loop of `reserve_spot_in_grid`: shift along the secondary
axis by 4 while the requested origin cell is occupied.  The Rust loop is
unbounded; `fuel` bounds the model. -/
def reserve_origin (graph_direction : Str) (grid : AList GridCoord Nat) :
    Nat → GridCoord → Option GridCoord
  | 0, _ => none
  | fuel + 1, c =>
    if acontains grid c then
      reserve_origin graph_direction grid fuel (reserve_shift graph_direction c)
    else some c

/-- The 3×3 block of cells reserved for a node placed at origin `c`, in the
insertion order of the Rust loops (`for x in 0..3 { for y in 0..3 { … } }`). -/
def blockCells (c : GridCoord) : List GridCoord :=
  [⟨c.x, c.y⟩, ⟨c.x, c.y + 1⟩, ⟨c.x, c.y + 2⟩,
   ⟨c.x + 1, c.y⟩, ⟨c.x + 1, c.y + 1⟩, ⟨c.x + 1, c.y + 2⟩,
   ⟨c.x + 2, c.y⟩, ⟨c.x + 2, c.y + 1⟩, ⟨c.x + 2, c.y + 2⟩]

/-- Placement of a node in the occupancy grid (`reserve_spot_in_grid`):
find a free origin by shifting along the secondary axis, then mark all nine
cells of the 3×3 block as owned by the node. -/
def reserve_spot_in_grid (graph_direction : Str) (grid : AList GridCoord Nat)
    (node_idx : Nat) (requested : GridCoord) (fuel : Nat) :
    Option (GridCoord × AList GridCoord Nat) :=
  match reserve_origin graph_direction grid fuel requested with
  | none => none
  | some c => some (c, (blockCells c).foldl (fun g cell => aupsert g cell node_idx) grid)

/-- A grid origin aligned to the 4-cell placement pitch. -/
def alignedCoord (c : GridCoord) : Prop := c.x % 4 = 0 ∧ c.y % 4 = 0

instance (c : GridCoord) : Decidable (alignedCoord c) := by
  unfold alignedCoord; infer_instance

/-- The occupancy invariant maintained by `create_mapping`: every occupied
cell belongs to the 3×3 block of some occupied, pitch-aligned origin. -/
def alignedBlocks (grid : AList GridCoord Nat) : Prop :=
  ∀ e ∈ grid, ∃ o, o ∈ grid.map Prod.fst ∧ alignedCoord o ∧ e.1 ∈ blockCells o

instance (grid : AList GridCoord Nat) : Decidable (alignedBlocks grid) := by
  unfold alignedBlocks; infer_instance

/-- Manhattan-distance heuristic with a +1 penalty when both axes are
non-zero (`heuristic`). -/
def heuristic (a b : GridCoord) : Int :=
  let abs_x := |a.x - b.x|
  let abs_y := |a.y - b.y|
  if abs_x = 0 ∨ abs_y = 0 then abs_x + abs_y else abs_x + abs_y + 1

/-- A cell is traversable iff it has non-negative coordinates and is not
owned in the occupancy grid (`is_free_in_grid`). -/
def is_free_in_grid (grid : AList GridCoord Nat) (coord : GridCoord) : Bool :=
  if coord.x < 0 ∨ coord.y < 0 then false else ¬acontains grid coord

/-- The four axis-aligned neighbor steps of the A* search, in source
order. -/
def astarDirs : List GridCoord := [⟨1, 0⟩, ⟨-1, 0⟩, ⟨0, 1⟩, ⟨0, -1⟩]

/-- Working state of the A* search: the priority queue (`BinaryHeap`), the
`cost_so_far` map and the `came_from` map. -/
structure AState where
  pq : List (GridCoord × Int)
  cost : AList GridCoord Int
  came : AList GridCoord (Option GridCoord)

/-- Remove an item of minimal priority from the queue, modelling
`BinaryHeap::pop` under the reversed `Ord` of `QueueItem` (ties go to the
earliest-listed item). -/
def popMin : List (GridCoord × Int) → Option ((GridCoord × Int) × List (GridCoord × Int))
  | [] => none
  | q :: qs =>
    match popMin qs with
    | none => some (q, [])
    | some (m, rest) => if q.2 ≤ m.2 then some (q, qs) else some (m, q :: rest)

/-- One neighbor step of the A* expansion: skip untraversable non-target
cells, otherwise relax the cost and record the parent link. -/
def astarNext (current dir : GridCoord) : GridCoord :=
  ⟨current.x + dir.x, current.y + dir.y⟩

/-- The cost-relaxation test of the A* expansion: the neighbor is new, or
the tentative cost improves on the stored one. -/
def astarBetter (s : AState) (current next : GridCoord) : Bool :=
  match alookup s.cost next with
  | none => true
  | some old => decide ((alookup s.cost current).getD 0 + 1 < old)

def astarStep (grid : AList GridCoord Nat) (tgt current : GridCoord)
    (s : AState) (dir : GridCoord) : AState :=
  if is_free_in_grid grid (astarNext current dir) = true ∨ astarNext current dir = tgt then
    if astarBetter s current (astarNext current dir) then
      { pq := s.pq ++ [(astarNext current dir,
          (alookup s.cost current).getD 0 + 1 + heuristic (astarNext current dir) tgt)],
        cost := aupsert s.cost (astarNext current dir) ((alookup s.cost current).getD 0 + 1),
        came := aupsert s.came (astarNext current dir) (some current) }
    else s
  else s

/-- Expansion of the four neighbors of `current` in the A* main loop. -/
def astarExpand (grid : AList GridCoord Nat) (tgt current : GridCoord)
    (st : AState) : AState :=
  astarDirs.foldl (astarStep grid tgt current) st

/-- Path reconstruction by walking `came_from` parent links, prepending
each visited coordinate (the `while let Some(coord) = c` loop). -/
def reconstruct (came : AList GridCoord (Option GridCoord)) :
    Nat → GridCoord → List GridCoord → Option (List GridCoord)
  | 0, _, _ => none
  | fuel + 1, c, acc =>
    match (alookup came c).bind id with
    | none => some (c :: acc)
    | some p => reconstruct came fuel p (c :: acc)

/-- The A* main loop of `get_path`, with fuel bounding the unbounded Rust
loop. -/
def astarLoop (grid : AList GridCoord Nat) (tgt : GridCoord) :
    Nat → AState → Except Str (List GridCoord)
  | 0, _ => Except.error "fuel exhausted".data
  | fuel + 1, st =>
    match popMin st.pq with
    | none => Except.error "no path found".data
    | some (item, rest) =>
      let current := item.1
      if current = tgt then
        match reconstruct st.came (asize st.came + 1) current [] with
        | some path => Except.ok path
        | none => Except.error "fuel exhausted".data
      else
        astarLoop grid tgt fuel (astarExpand grid tgt current { st with pq := rest })

/-- A* shortest-path search over the sparse occupancy grid (`get_path`). -/
def get_path (grid : AList GridCoord Nat) (fr tgt : GridCoord) (fuel : Nat) :
    Except Str (List GridCoord) :=
  astarLoop grid tgt fuel
    { pq := [(fr, 0)], cost := aupsert [] fr 0, came := aupsert [] fr none }

/-- Two grid cells differ by exactly one axis-aligned unit step. -/
def unitStep (a b : GridCoord) : Prop := |b.x - a.x| + |b.y - a.y| = 1

/-- Loop invariant of the A* search: the start has a root entry, every
other `came_from` entry records an adjacent, traversable-or-target child
whose parent also has an entry, every queued coordinate has an entry, and
all stored costs are non-negative with cost 0 at the start. -/
def AInv (grid : AList GridCoord Nat) (fr tgt : GridCoord) (st : AState) : Prop :=
  alookup st.came fr = some none ∧
  (∀ b p, alookup st.came b = some p →
    (p = none → b = fr) ∧
    ∀ a, p = some a →
      unitStep a b ∧ (is_free_in_grid grid b = true ∨ b = tgt) ∧
      (alookup st.came a).isSome) ∧
  (∀ item ∈ st.pq, (alookup st.came item.1).isSome) ∧
  (∀ b v, alookup st.cost b = some v → 0 ≤ v) ∧
  alookup st.cost fr = some 0

/-- Splitter of `split_lines` in `diagram.rs`: cut the input at every
newline character and at every literal two-character `\n` escape. -/
def split_lines_aux : Str → Str → List Str
  | [], acc => [acc.reverse]
  | '\n' :: rest, acc => acc.reverse :: split_lines_aux rest []
  | '\\' :: 'n' :: rest, acc => acc.reverse :: split_lines_aux rest []
  | c :: rest, acc => split_lines_aux rest (c :: acc)

/-- Split input into lines on `\n` or the escape `\n` (`split_lines`). -/
def split_lines (input : Str) : List Str := split_lines_aux input []

/-- Index of the first occurrence of `pat` in the scanned string
(`str::find` for a substring pattern). -/
def findSubAux (pat : Str) : Str → Nat → Option Nat
  | [], i => if pat.isPrefixOf ([] : Str) then some i else none
  | c :: rest, i =>
    if pat.isPrefixOf (c :: rest) then some i else findSubAux pat rest (i + 1)

def findSub (s pat : Str) : Option Nat := findSubAux pat s 0

/-- One iteration of the `remove_comments` loop: skip comment lines,
truncate inline `%%` comments, and keep only lines that are not blank. -/
def remove_comments_step (cleaned : List Str) (line : Str) : List Str :=
  let trimmed := trimStr line
  if "%%".data.isPrefixOf trimmed then cleaned
  else
    let current :=
      match findSub line "%%".data with
      | some idx => trimStr (line.take idx)
      | none => line
    if trimStr current = [] then cleaned else cleaned ++ [current]

/-- Drop comment lines, truncate inline `%%` comments, and drop lines that
end up blank (`remove_comments`). -/
def remove_comments (lines : List Str) : List Str :=
  lines.foldl remove_comments_step []

/-- Remove all leading and trailing quote characters
(`str::trim_matches('"')`). -/
def trimQuotes (s : Str) : Str :=
  ((s.dropWhile (· = '"')).reverse.dropWhile (· = '"')).reverse

/-- Match of the regex `^\s*autonumber\s*$` on a line. -/
def autonumberMatch (s : Str) : Bool :=
  let r := s.dropWhile isWS
  "autonumber".data.isPrefixOf r ∧ (r.drop 10).all isWS

/-- Greedy token matching with give-back: try token lengths from `len` down
to 1, returning the first split whose remainder satisfies the continuation
(leftmost-greedy regex semantics for a `+`-quantified group). -/
def givebackMatch {α : Type} (s : Str) (cont : Str → Option α) : Nat → Option (Str × α)
  | 0 => none
  | len + 1 =>
    match cont (s.drop (len + 1)) with
    | some res => some (s.take (len + 1), res)
    | none => givebackMatch s cont len

/-- Continuation of the participant regex after the identifier group:
`(?:\s+as\s+(.+))?$`.  Returns the matched label, `[]` when the optional
`as` clause is absent. -/
def participantLabelCont (r : Str) : Option Str :=
  if r = [] then some []
  else
    let w := r.takeWhile isWS
    if w = [] then none
    else
      let r1 := r.drop w.length
      if "as".data.isPrefixOf r1 then
        let r2 := r1.drop 2
        let w2 := r2.takeWhile isWS
        if w2 = [] then none
        else
          let r3 := r2.drop w2.length
          if r3 = [] then
            if w2.length ≥ 2 then some [w2.getLastD ' '] else none
          else some r3
      else none

/-- Match of the participant regex
`^\s*participant\s+(?:"([^"]+)"|(\S+))(?:\s+as\s+(.+))?$`.
Returns `(identifier, label)` with label `[]` when no `as` clause. -/
def participantMatch (s : Str) : Option (Str × Str) :=
  let r0 := s.dropWhile isWS
  if "participant".data.isPrefixOf r0 then
    let r1 := r0.drop 11
    let w := r1.takeWhile isWS
    if w = [] then none
    else
      let r2 := r1.drop w.length
      let quotedResult :=
        match r2 with
        | '"' :: rest =>
          let q := rest.takeWhile (· ≠ '"')
          if q ≠ [] ∧ q.length < rest.length then
            match participantLabelCont (rest.drop (q.length + 1)) with
            | some lbl => some (q, lbl)
            | none => none
          else none
        | _ => none
      match quotedResult with
      | some res => some res
      | none =>
        let t := r2.takeWhile (fun c => ¬isWS c)
        givebackMatch r2 participantLabelCont t.length
  else none

/-- Continuation of the message regex after the target group:
`\s*:\s*(.*)$`.  Returns the raw label text. -/
def messageLabelCont (r : Str) : Option Str :=
  let r1 := r.dropWhile isWS
  match r1 with
  | ':' :: rest => some (rest.dropWhile isWS)
  | _ => none

/-- The target group of the message regex with its continuation:
`\s*(?:"([^"]+)"|([^\s\->]+))\s*:\s*(.*)$`.  Returns `(target, label)`. -/
def messageToPart (r : Str) : Option (Str × Str) :=
  let r2 := r.dropWhile isWS
  let quotedResult :=
    match r2 with
    | '"' :: rest =>
      let q := rest.takeWhile (· ≠ '"')
      if q ≠ [] ∧ q.length < rest.length then
        match messageLabelCont (rest.drop (q.length + 1)) with
        | some lbl => some (q, lbl)
        | none => none
      else none
    | _ => none
  match quotedResult with
  | some res => some res
  | none =>
    let t := r2.takeWhile (fun c => ¬isWS c ∧ c ≠ '-' ∧ c ≠ '>')
    givebackMatch r2 messageLabelCont t.length

/-- The arrow group of the message regex with the rest of the pattern:
`\s*(-->>|->>)` followed by the target group.  Returns
`(arrow, target, label)`. -/
def messageArrowCont (r : Str) : Option (Str × Str × Str) :=
  let r1 := r.dropWhile isWS
  if "-->>".data.isPrefixOf r1 then
    match messageToPart (r1.drop 4) with
    | some (toid, lbl) => some ("-->>".data, toid, lbl)
    | none => none
  else if "->>".data.isPrefixOf r1 then
    match messageToPart (r1.drop 3) with
    | some (toid, lbl) => some ("->>".data, toid, lbl)
    | none => none
  else none

/-- Match of the message regex
`^\s*(?:"([^"]+)"|([^\s\->]+))\s*(-->>|->>)\s*(?:"([^"]+)"|([^\s\->]+))\s*:\s*(.*)$`.
Returns `(source, arrow, target, label)`. -/
def messageMatch (s : Str) : Option (Str × Str × Str × Str) :=
  let r0 := s.dropWhile isWS
  let quotedResult :=
    match r0 with
    | '"' :: rest =>
      let q := rest.takeWhile (· ≠ '"')
      if q ≠ [] ∧ q.length < rest.length then
        match messageArrowCont (rest.drop (q.length + 1)) with
        | some (ar, toid, lbl) => some (q, ar, toid, lbl)
        | none => none
      else none
    | _ => none
  match quotedResult with
  | some res => some res
  | none =>
    let t := r0.takeWhile (fun c => ¬isWS c ∧ c ≠ '-' ∧ c ≠ '>')
    match givebackMatch r0 messageArrowCont t.length with
    | some (fr, (ar, toid, lbl)) => some (fr, ar, toid, lbl)
    | none => none

/-- Arrow style of a sequence message (`ArrowType`). -/
inductive ArrowType where
  | solid
  | dotted
deriving DecidableEq

/-- A sequence-diagram participant (`Participant`). -/
structure Participant where
  id : Str
  label : Str
  index : Nat
deriving DecidableEq

/-- A sequence-diagram message (`Message`; the Rust fields `from`/`to` are
participant indices, renamed `fromIdx`/`toIdx` because `from` is a Lean
keyword). -/
structure Message where
  fromIdx : Nat
  toIdx : Nat
  label : Str
  arrow_type : ArrowType
  number : Nat
deriving DecidableEq

/-- The parsed sequence model (`SequenceDiagram`). -/
structure SequenceDiagram where
  participants : List Participant
  messages : List Message
  autonumber : Bool
deriving DecidableEq

/-- Look up a participant by identifier, inserting it with its identifier
as label when absent (`get_or_insert_participant`). -/
def get_or_insert_participant (id : Str) (d : SequenceDiagram)
    (pmap : AList Str Nat) : Nat × SequenceDiagram × AList Str Nat :=
  match alookup pmap id with
  | some idx => (idx, d, pmap)
  | none =>
    let idx := d.participants.length
    (idx, { d with participants := d.participants ++ [⟨id, id, idx⟩] },
      aupsert pmap id idx)

/-- The duplicate-participant error string
(`format!("line {}: duplicate participant \"{}\"", n, id)`). -/
def dupMsg (n : Nat) (id : Str) : Str :=
  "line ".data ++ natToStr n ++ ": duplicate participant \"".data ++ id ++ "\"".data

/-- The syntax error string
(`format!("line {}: invalid syntax: \"{}\"", n, t)`). -/
def synMsg (n : Nat) (t : Str) : Str :=
  "line ".data ++ natToStr n ++ ": invalid syntax: \"".data ++ t ++ "\"".data

/-- Processing of one body line of a sequence diagram: the branch order of
the Rust loop (blank, autonumber, participant, message, syntax error). -/
def seqStep (st : SequenceDiagram × AList Str Nat) (idx : Nat) (line : Str) :
    Except Str (SequenceDiagram × AList Str Nat) :=
  let trimmed := trimStr line
  if trimmed = [] then Except.ok st
  else if autonumberMatch trimmed then Except.ok ({ st.1 with autonumber := true }, st.2)
  else
    match participantMatch trimmed with
    | some (id, lbl) =>
      let label := if lbl = [] then id else lbl
      if acontains st.2 id then Except.error (dupMsg (idx + 2) id)
      else
        Except.ok
          ({ st.1 with participants :=
              st.1.participants ++ [⟨id, trimQuotes label, st.1.participants.length⟩] },
            aupsert st.2 id st.1.participants.length)
    | none =>
      match messageMatch trimmed with
      | some (from_id, arrow, to_id, lbl) =>
        let label := trimStr lbl
        let r1 := get_or_insert_participant from_id st.1 st.2
        let r2 := get_or_insert_participant to_id r1.2.1 r1.2.2
        let arrow_type := if arrow = "->>".data then ArrowType.solid else ArrowType.dotted
        let number := if r2.2.1.autonumber then r2.2.1.messages.length + 1 else 0
        Except.ok
          ({ r2.2.1 with messages :=
              r2.2.1.messages ++ [⟨r1.1, r2.1, label, arrow_type, number⟩] },
            r2.2.2)
      | none => Except.error (synMsg (idx + 2) trimmed)

/-- The body loop of `sequence::parse` over the cleaned lines, carrying the
0-based enumeration index. -/
def seqLoop : List Str → Nat → (SequenceDiagram × AList Str Nat) →
    Except Str (SequenceDiagram × AList Str Nat)
  | [], _, st => Except.ok st
  | l :: ls, idx, st =>
    match seqStep st idx l with
    | Except.ok st' => seqLoop ls (idx + 1) st'
    | Except.error e => Except.error e

/-- The sequence-diagram parser (`sequence::parse`). -/
def parse (input : Str) : Except Str SequenceDiagram :=
  let input := trimStr input
  if input = [] then Except.error "empty input".data
  else
    let raw_lines := split_lines input
    let lines := remove_comments raw_lines
    if lines = [] then Except.error "no content found".data
    else if ¬("sequenceDiagram".data.isPrefixOf (trimStr (lines.headD []))) then
      Except.error "expected \"sequenceDiagram\" keyword".data
    else
      match seqLoop (lines.drop 1) 0 (⟨[], [], false⟩, []) with
      | Except.error e => Except.error e
      | Except.ok (d, _) =>
        if d.participants = [] then Except.error "no participants found".data
        else Except.ok d

/-- The participant identifiers a body line mentions: the declared
identifier of a participant line, both endpoints of a message line, nothing
otherwise.  Follows the branch order of the parse loop. -/
def lineIds (l : Str) : List Str :=
  let t := trimStr l
  if t = [] then []
  else if autonumberMatch t then []
  else
    match participantMatch t with
    | some (id, _) => [id]
    | none =>
      match messageMatch t with
      | some (f, _, toid, _) => [f, toid]
      | none => []

/-- Identifiers known after processing the first `j` body lines, starting
from the already-known set `P`. -/
def mentioned (P : List Str) (ls : List Str) (j : Nat) : List Str :=
  P ++ (ls.take j).foldl (fun acc l => acc ++ lineIds l) []

/-- A body line processed without error when the identifiers in `P` are
already known: blank, autonumber, a participant declaration of a fresh
identifier, or a message line. -/
def okLineB (P : List Str) (l : Str) : Bool :=
  let t := trimStr l
  if t = [] then true
  else if autonumberMatch t then true
  else
    match participantMatch t with
    | some (id, _) => !(decide (id ∈ P))
    | none => (messageMatch t).isSome

/-- A body line matching none of the recognized forms (the syntax-error
case). -/
def badLine (l : Str) : Prop :=
  trimStr l ≠ [] ∧ autonumberMatch (trimStr l) = false ∧
  participantMatch (trimStr l) = none ∧ messageMatch (trimStr l) = none

instance (l : Str) : Decidable (badLine l) := by unfold badLine; infer_instance

/-- The first duplicate-participant failure is at body line `j` (0-based):
all earlier lines process cleanly and line `j` declares an identifier
already mentioned. -/
def dupAt (P : List Str) (ls : List Str) (j : Nat) : Prop :=
  j < ls.length ∧
  (∀ k, k < j → okLineB (mentioned P ls k) (ls.getD k []) = true) ∧
  autonumberMatch (trimStr (ls.getD j [])) = false ∧
  ∃ id lbl, participantMatch (trimStr (ls.getD j [])) = some (id, lbl) ∧
    id ∈ mentioned P ls j

/-- The comment-stripped, blank-stripped line list of a sequence input. -/
def seqCleanLines (input : Str) : List Str :=
  remove_comments (split_lines (trimStr input))

/-- The body lines following the `sequenceDiagram` keyword line. -/
def seqBodyLines (input : Str) : List Str := (seqCleanLines input).drop 1

/-- The preliminary checks of `sequence::parse` succeed: some cleaned line
exists and the first one starts with the `sequenceDiagram` keyword. -/
def seqHeaderOk (input : Str) : Prop :=
  seqCleanLines input ≠ [] ∧
  "sequenceDiagram".data.isPrefixOf (trimStr ((seqCleanLines input).headD [])) = true

instance (input : Str) : Decidable (seqHeaderOk input) := by
  unfold seqHeaderOk; infer_instance

/-- Message numbers are the dense sequence 1..N in declaration order. -/
def msgsDense (msgs : List Message) : Prop :=
  ∀ i (h : i < msgs.length), (msgs.get ⟨i, h⟩).number = i + 1

/-- A body line that sets the autonumber flag. -/
def isAutoLine (l : Str) : Prop := autonumberMatch (trimStr l) = true

instance (l : Str) : Decidable (isAutoLine l) := by unfold isAutoLine; infer_instance

/-- A body line parsed as a message. -/
def isMsgLine (l : Str) : Prop :=
  autonumberMatch (trimStr l) = false ∧ participantMatch (trimStr l) = none ∧
  messageMatch (trimStr l) ≠ none

instance (l : Str) : Decidable (isMsgLine l) := by unfold isMsgLine; infer_instance

/-- Every message line is preceded by some autonumber line. -/
def noMsgBeforeAuto (ls : List Str) : Prop :=
  ∀ j, j < ls.length → isMsgLine (ls.getD j []) →
    ∃ k, k < j ∧ isAutoLine (ls.getD k [])

instance (ls : List Str) : Decidable (noMsgBeforeAuto ls) := by
  unfold noMsgBeforeAuto; infer_instance

/-- The diagram parsed from the C5 witness input
`sequenceDiagram\nautonumber\nA->>B: hi\nB-->>A: yo`. -/
def c5diagram : SequenceDiagram :=
  ⟨[⟨"A".data, "A".data, 0⟩, ⟨"B".data, "B".data, 1⟩],
   [⟨0, 1, "hi".data, ArrowType.solid, 1⟩, ⟨1, 0, "yo".data, ArrowType.dotted, 2⟩],
   true⟩

/-- The diagram parsed from the C5 counterexample input
`sequenceDiagram\nA->>B: x\nautonumber\nA->>B: y`: the message before the
`autonumber` line keeps number 0 while the one after it gets number 2. -/
def c5cexDiagram : SequenceDiagram :=
  ⟨[⟨"A".data, "A".data, 0⟩, ⟨"B".data, "B".data, 1⟩],
   [⟨0, 1, "x".data, ArrowType.solid, 0⟩, ⟨0, 1, "y".data, ArrowType.solid, 2⟩],
   true⟩

/-- Concrete occupancy grid for the C3 witness: node 0 owns the 3×3 block
at the aligned origin (0,0). -/
def c3grid : AList GridCoord Nat := (blockCells ⟨0, 0⟩).map (fun c => (c, 0))

/-- The grid obtained by reserving the block at (4,0) for node 1. -/
def c3gridAfter : AList GridCoord Nat :=
  (blockCells ⟨4, 0⟩).foldl (fun g cell => aupsert g cell 1) c3grid

/-! ### Configuration (`diagram.rs`) -/

/-- Decimal rendering of an `i32` (`i32::to_string`). -/
def intToStr (n : Int) : Str :=
  if n < 0 then '-' :: natToStr (-n).toNat else natToStr n.toNat

/-- The rendering configuration (`Config`). -/
structure Config where
  use_ascii : Bool
  show_coords : Bool
  verbose : Bool
  box_border_padding : Int
  padding_between_x : Int
  padding_between_y : Int
  graph_direction : Str
  style_type : Str
  sequence_participant_spacing : Int
  sequence_message_spacing : Int
  sequence_self_message_width : Int
deriving DecidableEq

/-- `Config::default_config`. -/
def default_config : Config :=
  ⟨false, false, false, 1, 5, 5, "LR".data, "cli".data, 5, 1, 4⟩

/-- The display form of a `ConfigError`
(`"invalid config: {field} = {value} ({message})"`). -/
def configErr (field value message : Str) : Str :=
  "invalid config: ".data ++ field ++ " = ".data ++ value ++ " (".data ++
    message ++ ")".data

/-- `Config::validate`. -/
def validate (c : Config) : Except Str Unit :=
  if c.box_border_padding < 0 then
    Except.error (configErr "box_border_padding".data (intToStr c.box_border_padding)
      "must be non-negative".data)
  else if c.padding_between_x < 0 then
    Except.error (configErr "padding_between_x".data (intToStr c.padding_between_x)
      "must be non-negative".data)
  else if c.padding_between_y < 0 then
    Except.error (configErr "padding_between_y".data (intToStr c.padding_between_y)
      "must be non-negative".data)
  else if c.graph_direction ≠ "LR".data ∧ c.graph_direction ≠ "TD".data then
    Except.error (configErr "graph_direction".data c.graph_direction
      "must be \"LR\" or \"TD\"".data)
  else if c.style_type ≠ "cli".data ∧ c.style_type ≠ "html".data then
    Except.error (configErr "style_type".data c.style_type
      "must be \"cli\" or \"html\"".data)
  else if c.sequence_participant_spacing < 0 then
    Except.error (configErr "sequence_participant_spacing".data
      (intToStr c.sequence_participant_spacing) "must be non-negative".data)
  else if c.sequence_message_spacing < 0 then
    Except.error (configErr "sequence_message_spacing".data
      (intToStr c.sequence_message_spacing) "must be non-negative".data)
  else if c.sequence_self_message_width < 2 then
    Except.error (configErr "sequence_self_message_width".data
      (intToStr c.sequence_self_message_width) "must be at least 2".data)
  else Except.ok ()

/-! ### Sequence rendering (`sequence.rs`)

The display-width function `UnicodeWidthStr::width` of the `unicode-width`
crate is abstracted as a parameter `W : Str → Nat`; every theorem below is
universally quantified over it.  Rust `as usize` casts of provably
non-negative `i32` values are modelled with `Int.toNat`; a direct indexed
assignment `v[i] = x` (which panics out of bounds in Rust) is modelled with
`List.set`, which leaves the list unchanged out of bounds, so the embedding
returns a value on a superset of the inputs on which the program does. -/

/-- The box-drawing character set (`BoxChars`). -/
structure BoxChars where
  top_left : Char
  top_right : Char
  bottom_left : Char
  bottom_right : Char
  horizontal : Char
  vertical : Char
  tee_down : Char
  tee_right : Char
  tee_left : Char
  cross : Char
  arrow_right : Char
  arrow_left : Char
  solid_line : Char
  dotted_line : Char
  self_top_right : Char
  self_bottom : Char
deriving DecidableEq

/-- The ASCII character set (`ASCII`). -/
def ASCII : BoxChars :=
  ⟨'+', '+', '+', '+', '-', '|', '+', '+', '+', '+', '>', '<', '-', '.', '+', '+'⟩

/-- The Unicode character set (`UNICODE`). -/
def UNICODE : BoxChars :=
  ⟨'┌', '┐', '└', '┘', '─', '│', '┬', '├', '┤', '┼', '►', '◄', '─', '┈', '┐', '┘'⟩

def DEFAULT_SELF_MESSAGE_WIDTH : Int := 4

def DEFAULT_MESSAGE_SPACING : Int := 1

def DEFAULT_PARTICIPANT_SPACING : Int := 5

def BOX_PADDING_LEFT_RIGHT : Int := 2

def MIN_BOX_WIDTH : Int := 3

def BOX_BORDER_WIDTH : Int := 2

def LABEL_LEFT_MARGIN : Int := 2

def LABEL_BUFFER_SPACE : Int := 10

/-- The computed layout (`DiagramLayout`). -/
structure DiagramLayout where
  participant_widths : List Int
  participant_centers : List Int
  total_width : Int
  message_spacing : Int
  self_message_width : Int
deriving DecidableEq

/-- One step of the center-placing loop of `calculate_layout`: `acc.1` is
the `centers` vector built so far and `acc.2` the running `current_x`. -/
def centersStep (participant_spacing : Int) (acc : List Int × Int) (width : Int) :
    List Int × Int :=
  let box_width := width + BOX_BORDER_WIDTH
  if acc.1.isEmpty then (acc.1 ++ [Int.tdiv box_width 2], box_width)
  else
    let cx := acc.2 + participant_spacing
    (acc.1 ++ [cx + Int.tdiv box_width 2], cx + box_width)

/-- `calculate_layout` (Rust `i32` division truncates, hence `Int.tdiv`). -/
def calculate_layout (W : Str → Nat) (diagram : SequenceDiagram) (config : Config) :
    DiagramLayout :=
  let participant_spacing :=
    if config.sequence_participant_spacing > 0 then config.sequence_participant_spacing
    else DEFAULT_PARTICIPANT_SPACING
  let widths := diagram.participants.map (fun participant =>
    let label_width := (W participant.label : Int)
    let w := label_width + BOX_PADDING_LEFT_RIGHT
    if w < MIN_BOX_WIDTH then MIN_BOX_WIDTH else w)
  let centers := (widths.foldl (centersStep participant_spacing) ([], 0)).1
  let last := diagram.participants.length - 1
  let total_width :=
    centers.getD last 0 + Int.tdiv (widths.getD last 0 + BOX_BORDER_WIDTH) 2
  let message_spacing :=
    if config.sequence_message_spacing > 0 then config.sequence_message_spacing
    else DEFAULT_MESSAGE_SPACING
  let self_message_width :=
    if config.sequence_self_message_width > 0 then config.sequence_self_message_width
    else DEFAULT_SELF_MESSAGE_WIDTH
  ⟨widths, centers, total_width, message_spacing, self_message_width⟩

/-- Strip trailing spaces (`rtrim`). -/
def rtrim (chars : List Char) : Str :=
  (chars.reverse.dropWhile (fun c => c == ' ')).reverse

/-- Pad a line with spaces up to `width` characters (`ensure_width`). -/
def ensure_width (line : Str) (width : Nat) : List Char :=
  if line.length < width then line ++ List.replicate (width - line.length) ' ' else line

/-- Overwrite characters starting at column `col`, skipping once the end of
the line is reached (the label-placing loops of `render_message` and
`render_self_message`, whose `col` stops advancing at the boundary). -/
def writeStr : List Char → Nat → Str → List Char
  | line, _, [] => line
  | line, col, ch :: rest =>
    if col < line.length then writeStr (line.set col ch) (col + 1) rest
    else writeStr line col rest

/-- Indexed assignment at a signed index (`line[i as usize] = c`; a negative
`i` wraps to a huge `usize` in Rust, so no cell is written). -/
def setChar (line : List Char) (i : Int) (c : Char) : List Char :=
  if 0 ≤ i then line.set i.toNat c else line

/-- The half-open `i32` range `a..b` as a list. -/
def intRange (a b : Int) : List Int :=
  (List.range (b - a).toNat).map (fun k => a + k)

/-- The lifeline row: spaces with one `vertical` glyph at each participant
center (`build_lifeline`). -/
def build_lifeline (layout : DiagramLayout) (chars : BoxChars) : Str :=
  let line := List.replicate (layout.total_width + 1).toNat ' '
  let line := layout.participant_centers.foldl (fun line center =>
    if 0 ≤ center ∧ center.toNat < line.length then line.set center.toNat chars.vertical
    else line) line
  rtrim line

/-- Concatenate per-participant box fragments, padding with spaces up to
each box's left edge (`build_line`). -/
def build_line (W : Str → Nat) (diagram : SequenceDiagram) (layout : DiagramLayout)
    (draw : Nat → Str) : Str :=
  (List.range diagram.participants.length).foldl (fun out i =>
    let box_width := layout.participant_widths.getD i 0 + BOX_BORDER_WIDTH
    let left := layout.participant_centers.getD i 0 - Int.tdiv box_width 2
    let current_width := (W out : Int)
    let needed := left - current_width
    let out := if needed > 0 then out ++ List.replicate needed.toNat ' ' else out
    out ++ draw i) []

/-- Render one message between distinct participants (`render_message`). -/
def render_message (W : Str → Nat) (message : Message) (layout : DiagramLayout)
    (chars : BoxChars) : List Str :=
  let fromC := layout.participant_centers.getD message.fromIdx 0
  let toC := layout.participant_centers.getD message.toIdx 0
  let label :=
    if message.number > 0 then natToStr message.number ++ ". ".data ++ message.label
    else message.label
  let labelLines :=
    if label ≠ [] then
      let start := min fromC toC + LABEL_LEFT_MARGIN
      let label_width := (W label : Int)
      let line := build_lifeline layout chars
      let needed := (start + label_width + LABEL_BUFFER_SPACE).toNat
      let line :=
        if line.length < needed then line ++ List.replicate (needed - line.length) ' '
        else line
      [rtrim (writeStr line (max start 0).toNat label)]
    else []
  let line := build_lifeline layout chars
  let style :=
    if message.arrow_type = ArrowType.dotted then chars.dotted_line else chars.solid_line
  let line :=
    if fromC < toC then
      let l := setChar line fromC chars.tee_right
      let l := (intRange (fromC + 1) toC).foldl (fun l i => setChar l i style) l
      let l := if toC - 1 ≥ 0 then setChar l (toC - 1) chars.arrow_right else l
      setChar l toC chars.vertical
    else
      let l := setChar line toC chars.vertical
      let l := setChar l (toC + 1) chars.arrow_left
      let l := (intRange (toC + 2) fromC).foldl (fun l i => setChar l i style) l
      setChar l fromC chars.tee_left
  labelLines ++ [rtrim line]

/-- Render a self-message (`render_self_message`). -/
def render_self_message (W : Str → Nat) (message : Message) (layout : DiagramLayout)
    (chars : BoxChars) : List Str :=
  let center := (layout.participant_centers.getD message.fromIdx 0).toNat
  let width := layout.self_message_width.toNat
  let base := layout.total_width.toNat + width + 1
  let label :=
    if message.number > 0 then natToStr message.number ++ ". ".data ++ message.label
    else message.label
  let labelLines :=
    if label ≠ [] then
      let line := ensure_width (build_lifeline layout chars) base
      let start := center + LABEL_LEFT_MARGIN.toNat
      let label_width := W label
      let needed := start + label_width + LABEL_BUFFER_SPACE.toNat
      let line :=
        if line.length < needed then line ++ List.replicate (needed - line.length) ' '
        else line
      [rtrim (writeStr line start label)]
    else []
  let l1 := ensure_width (build_lifeline layout chars) base
  let l1 := l1.set center chars.tee_right
  let l1 := (List.range' 1 (width - 1)).foldl (fun l i => l.set (center + i) chars.horizontal) l1
  let l1 := l1.set (center + width - 1) chars.self_top_right
  let l2 := ensure_width (build_lifeline layout chars) base
  let l2 := l2.set (center + width - 1) chars.vertical
  let l3 := ensure_width (build_lifeline layout chars) base
  let l3 := l3.set center chars.vertical
  let l3 := l3.set (center + 1) chars.arrow_left
  let l3 := (List.range' 2 (width - 1 - 2)).foldl (fun l i => l.set (center + i) chars.horizontal) l3
  let l3 := l3.set (center + width - 1) chars.self_bottom
  labelLines ++ [rtrim l1, rtrim l2, rtrim l3]

/-- `Vec::join("\n")` on a vector of lines. -/
def joinLines : List Str → Str
  | [] => []
  | [l] => l
  | l :: ls => l ++ '\n' :: joinLines ls

/-- The sequence renderer (`sequence::render`); the `Ok` result is
`format!("{}\n", lines.join("\n"))`. -/
def render (W : Str → Nat) (diagram : SequenceDiagram) (config : Config) :
    Except Str Str :=
  if diagram.participants = [] then Except.error "no participants".data
  else
    let chars := if config.use_ascii then ASCII else UNICODE
    let layout := calculate_layout W diagram config
    let line1 := build_line W diagram layout (fun i =>
      let width := (layout.participant_widths.getD i 0).toNat
      chars.top_left :: (List.replicate width chars.horizontal ++ [chars.top_right]))
    let line2 := build_line W diagram layout (fun i =>
      let width := (layout.participant_widths.getD i 0).toNat
      let label := (diagram.participants.getD i ⟨[], [], 0⟩).label
      let label_len := (W label : Int)
      let pad := (max (Int.tdiv ((width : Int) - label_len) 2) 0).toNat
      let right_pad := width - (pad + label.length)
      chars.vertical ::
        (List.replicate pad ' ' ++ label ++ List.replicate right_pad ' ' ++ [chars.vertical]))
    let line3 := build_line W diagram layout (fun i =>
      let width := (layout.participant_widths.getD i 0).toNat
      let left := width / 2
      let right := width - left - 1
      chars.bottom_left :: (List.replicate left chars.horizontal ++
        chars.tee_down :: List.replicate right chars.horizontal ++ [chars.bottom_right]))
    let msgLines := diagram.messages.foldl (fun acc message =>
      acc ++ List.replicate layout.message_spacing.toNat (build_lifeline layout chars) ++
      (if message.fromIdx = message.toIdx then render_self_message W message layout chars
       else render_message W message layout chars)) []
    let lines := [line1, line2, line3] ++ msgLines ++ [build_lifeline layout chars]
    Except.ok (joinLines lines ++ ['\n'])

/-- The spec's `ceil(n/2)` on a non-negative `n`. -/
def specCeilHalf (n : Int) : Int := Int.tdiv (n + 1) 2

/-! ### Graph diagram parsing (`graph/mod.rs`) -/

/-- The apostrophe character, written by code point. -/
def apos : Char := Char.ofNat 39

/-- A parsed node reference (`TextNode`). -/
structure TextNode where
  name : Str
  style_class : Str
deriving DecidableEq

/-- A parsed edge (`TextEdge`). -/
structure TextEdge where
  parent : TextNode
  child : TextNode
  label : Str
deriving DecidableEq

/-- A parsed subgraph block (`TextSubgraph`). -/
structure TextSubgraph where
  name : Str
  nodes : List Str
  parent : Option Nat
  children : List Nat
deriving DecidableEq

/-- A style class (`StyleClass`). -/
structure StyleClass where
  name : Str
  styles : AList Str Str
deriving DecidableEq

/-- `StyleClass::default()`. -/
def defaultStyleClass : StyleClass := ⟨[], []⟩

/-- The parsed graph model (`GraphProperties`); `data` is an `IndexMap`,
whose insertion order the association list preserves. -/
structure GraphProperties where
  data : AList Str (List TextEdge)
  style_classes : AList Str StyleClass
  graph_direction : Str
  style_type : Str
  padding_x : Int
  padding_y : Int
  box_border_padding : Int
  subgraphs : List TextSubgraph
  use_ascii : Bool
deriving DecidableEq

/-- In-place modification of the value stored at a key
(`HashMap::get_mut` followed by a mutation). -/
def amodify {α β : Type} [DecidableEq α] (m : AList α β) (k : α) (f : β → β) :
    AList α β :=
  m.map (fun e => if e.1 = k then (e.1, f e.2) else e)

/-- `add_node`: record a node name with no edges unless already present. -/
def add_node (node : TextNode) (data : AList Str (List TextEdge)) :
    AList Str (List TextEdge) :=
  if ¬acontains data node.name then data ++ [(node.name, [])] else data

/-- `set_data`: append an edge to the parent's edge list (inserting the
parent if new) and make sure the child is present. -/
def set_data (parent : TextNode) (edge : TextEdge)
    (data : AList Str (List TextEdge)) : AList Str (List TextEdge) :=
  let data :=
    if acontains data parent.name then amodify data parent.name (fun ch => ch ++ [edge])
    else data ++ [(parent.name, [edge])]
  if ¬acontains data edge.child.name then data ++ [(edge.child.name, [])] else data

/-- `set_arrow_with_label`: record one edge per left/right pair, returning
the right-hand nodes. -/
def set_arrow_with_label (lhs rhs : List TextNode) (label : Str)
    (data : AList Str (List TextEdge)) : AList Str (List TextEdge) × List TextNode :=
  (lhs.foldl (fun d l => rhs.foldl (fun d2 r => set_data l ⟨l, r, label⟩ d2) d) data,
    rhs)

/-- `set_arrow`. -/
def set_arrow (lhs rhs : List TextNode) (data : AList Str (List TextEdge)) :
    AList Str (List TextEdge) × List TextNode :=
  set_arrow_with_label lhs rhs [] data

/-- Continuation of the node-style regex `^(.+):::(.+)$` after the first
group: a literal `:::` followed by a non-empty greedy tail. -/
def nodeSuffixCont (r : Str) : Option Str :=
  if ":::".data.isPrefixOf r then
    let rest := r.drop 3
    if rest = [] then none else some rest
  else none

/-- `parse_node`: split an optional `:::styleClass` suffix (regex
`^(.+):::(.+)$`, greedy first group). -/
def parse_node (line : Str) : TextNode :=
  let trimmed := trimStr line
  match givebackMatch trimmed nodeSuffixCont trimmed.length with
  | some (name, style) => ⟨trimStr name, trimStr style⟩
  | none => ⟨trimmed, []⟩

/-- Split a string at every occurrence of a separator character
(`str::split`). -/
def splitChar (sep : Char) : Str → Str → List Str
  | [], acc => [acc.reverse]
  | c :: rest, acc =>
    if c = sep then acc.reverse :: splitChar sep rest []
    else splitChar sep rest (c :: acc)

/-- Split at the first occurrence of a separator (`str::splitn(2, sep)`),
with an empty second part when the separator is absent. -/
def splitN2 (sep : Char) (s : Str) : Str × Str :=
  match findSub s [sep] with
  | some i => (s.take i, s.drop (i + 1))
  | none => (s, [])

/-- `parse_style_class`: comma-separated `key:value` pairs. -/
def parse_style_class (name styles : Str) : StyleClass :=
  ⟨name, (splitChar ',' styles []).foldl (fun m style =>
      let kv := splitN2 ':' style
      aupsert m kv.1 kv.2) []⟩

/-- Greedy `\s+` with give-back: try whitespace-run lengths from maximal
down to one before running the continuation (regex backtracking). -/
def wsPlus {α : Type} (r : Str) (cont : Str → Option α) : Option α :=
  (givebackMatch r cont (r.takeWhile isWS).length).map Prod.snd

/-- Continuation `\s+(.+)$`: whitespace, then a non-empty greedy tail. -/
def tailCont (r : Str) : Option Str :=
  wsPlus r (fun r2 => if r2 = [] then none else some r2)

/-- Continuation of the arrow regex `^(.+)\s+-->\s+(.+)$` after the first
group. -/
def arrowRestCont (r : Str) : Option Str :=
  wsPlus r (fun r1 =>
    if "-->".data.isPrefixOf r1 then tailCont (r1.drop 3) else none)

/-- Match of `^(.+)\s+-->\s+(.+)$` (greedy first group). -/
def arrowMatch (line : Str) : Option (Str × Str) :=
  givebackMatch line arrowRestCont line.length

/-- Continuation of the labelled-arrow regex
`^(.+)\s+-->\|(.+)\|\s+(.+)$` after the first group. -/
def labelRestCont (r : Str) : Option (Str × Str) :=
  wsPlus r (fun r1 =>
    if "-->|".data.isPrefixOf r1 then
      givebackMatch (r1.drop 4) (fun rest =>
        match rest with
        | '|' :: r3 => tailCont r3
        | _ => none) (r1.drop 4).length
    else none)

/-- Match of `^(.+)\s+-->\|(.+)\|\s+(.+)$`: `(lhs, label, rhs)`. -/
def labelArrowMatch (line : Str) : Option (Str × Str × Str) :=
  (givebackMatch line labelRestCont line.length).map (fun p => (p.1, p.2.1, p.2.2))

/-- Match of `^classDef\s+(.+)\s+(.+)$`: `(class name, styles)`. -/
def classDefMatch (line : Str) : Option (Str × Str) :=
  if "classDef".data.isPrefixOf line then
    wsPlus (line.drop 8) (fun r1 => givebackMatch r1 tailCont r1.length)
  else none

/-- Match of `^(.+) & (.+)$` (literal spaces around the ampersand). -/
def ampMatch (line : Str) : Option (Str × Str) :=
  givebackMatch line (fun r =>
    if " & ".data.isPrefixOf r then
      let rest := r.drop 3
      if rest = [] then none else some rest
    else none) line.length

/-- `GraphProperties::parse_string`: parse one (sub)expression, recording
edges in `data` and classes in `style_classes`; the `none` result models
`Err`, which the source produces only before any mutation.  The recursion
on subexpressions is bounded by `fuel`; the callers pass the line length
plus one, which dominates the recursion depth because every subexpression
is strictly shorter than its line. -/
def parse_string : Nat → AList Str (List TextEdge) → AList Str StyleClass → Str →
    AList Str (List TextEdge) × AList Str StyleClass × Option (List TextNode)
  | 0, data, classes, _ => (data, classes, none)
  | fuel + 1, data, classes, line =>
    let line := trimStr line
    if line = [] then (data, classes, some [])
    else
      match arrowMatch line with
      | some (lhs, rhs) =>
        let rl := parse_string fuel data classes lhs
        let left_nodes := rl.2.2.getD [parse_node lhs]
        let rr := parse_string fuel rl.1 rl.2.1 rhs
        let right_nodes := rr.2.2.getD [parse_node rhs]
        let res := set_arrow left_nodes right_nodes rr.1
        (res.1, rr.2.1, some res.2)
      | none =>
      match labelArrowMatch line with
      | some (lhs, label, rhs) =>
        let rl := parse_string fuel data classes lhs
        let left_nodes := rl.2.2.getD [parse_node lhs]
        let rr := parse_string fuel rl.1 rl.2.1 rhs
        let right_nodes := rr.2.2.getD [parse_node rhs]
        let res := set_arrow_with_label left_nodes right_nodes label rr.1
        (res.1, rr.2.1, some res.2)
      | none =>
      match classDefMatch line with
      | some (cname, styles) =>
        (data, aupsert classes cname (parse_style_class cname styles), some [])
      | none =>
      match ampMatch line with
      | some (lhs, rhs) =>
        let rl := parse_string fuel data classes lhs
        let left_nodes := rl.2.2.getD [parse_node lhs]
        let rr := parse_string fuel rl.1 rl.2.1 rhs
        let right_nodes := rr.2.2.getD [parse_node rhs]
        (rr.1, rr.2.1, some (left_nodes ++ right_nodes))
      | none => (data, classes, none)

/-- The pre-processing of `mermaid_to_graph_properties`: stop at a literal
`---` line, drop `%%` comment lines, truncate inline `%%` comments, and
drop lines that end up blank. -/
def graphCleanLines : List Str → List Str
  | [] => []
  | line :: rest =>
    if line = "---".data then []
    else
      let trimmed := trimStr line
      if "%%".data.isPrefixOf trimmed then graphCleanLines rest
      else
        let cur :=
          match findSub line "%%".data with
          | some idx => trimStr (line.take idx)
          | none => line
        if trimStr cur = [] then graphCleanLines rest
        else cur :: graphCleanLines rest

/-- Lower-case an ASCII letter (for `eq_ignore_ascii_case` and the `(?i)`
regex flag). -/
def lowerC (c : Char) : Char :=
  if 'A' ≤ c ∧ c ≤ 'Z' then Char.ofNat (c.toNat + 32) else c

/-- The regex class `\d`. -/
def isDigit (c : Char) : Bool := '0' ≤ c ∧ c ≤ '9'

/-- Numeric value of a digit string. -/
def strToNat (s : Str) : Nat := s.foldl (fun a c => a * 10 + (c.toNat - 48)) 0

/-- Match of the case-insensitive padding directive
`(?i)^padding([xy])\s*=\s*(\d+)$`: returns (axis-is-x, value). -/
def paddingMatch (t : Str) : Option (Bool × Nat) :=
  let lt := t.map lowerC
  if "padding".data.isPrefixOf lt then
    match lt.drop 7 with
    | ax :: rest =>
      if ax = 'x' ∨ ax = 'y' then
        match rest.dropWhile isWS with
        | '=' :: r2 =>
          let r3 := r2.dropWhile isWS
          if r3 ≠ [] ∧ r3.all isDigit then some (ax = 'x', strToNat r3) else none
        | _ => none
      else none
    | [] => none
  else none

/-- The padding-directive prefix loop of `mermaid_to_graph_properties`;
`i32::parse` overflow surfaces as the Rust `ParseIntError` display text. -/
def consumePadding : List Str → GraphProperties →
    Except Str (List Str × GraphProperties)
  | [], props => Except.ok ([], props)
  | l :: rest, props =>
    let trimmed := trimStr l
    if trimmed = [] then consumePadding rest props
    else
      match paddingMatch trimmed with
      | some av =>
        if av.2 ≤ 2147483647 then
          consumePadding rest
            (if av.1 then { props with padding_x := (av.2 : Int) }
             else { props with padding_y := (av.2 : Int) })
        else Except.error "number too large to fit in target type".data
      | none => Except.ok (l :: rest, props)

/-- Match of `^\s*subgraph\s+(.+)$`. -/
def subgraphMatch (t : Str) : Option Str :=
  let r := t.dropWhile isWS
  if "subgraph".data.isPrefixOf r then tailCont (r.drop 8) else none

/-- Match of `^\s*end\s*$`. -/
def endMatch (t : Str) : Bool :=
  let r := t.dropWhile isWS
  "end".data.isPrefixOf r ∧ (r.drop 3).all isWS

/-- One line of the main loop of `mermaid_to_graph_properties`: subgraph
open/close tracking and node/edge parsing, with node names first seen on
this line registered in every enclosing subgraph. -/
def graphLineStep (st : GraphProperties × List Nat) (line : Str) :
    GraphProperties × List Nat :=
  let props := st.1
  let stack := st.2
  let trimmed := trimStr line
  match subgraphMatch trimmed with
  | some nm =>
    let name := trimStr nm
    let parent := stack.getLast?
    let idx := props.subgraphs.length
    let sgs := props.subgraphs ++ [⟨name, [], parent, []⟩]
    let sgs :=
      match parent with
      | some pidx =>
        let p := sgs.getD pidx ⟨[], [], none, []⟩
        sgs.set pidx { p with children := p.children ++ [idx] }
      | none => sgs
    ({ props with subgraphs := sgs }, stack ++ [idx])
  | none =>
    if endMatch trimmed then (props, stack.dropLast)
    else
      let existing := props.data.map Prod.fst
      let r := parse_string (line.length + 1) props.data props.style_classes line
      let data' :=
        match r.2.2 with
        | some nodes => nodes.foldl (fun d n => add_node n d) r.1
        | none => add_node (parse_node line) r.1
      let props := { props with data := data', style_classes := r.2.1 }
      if stack ≠ [] then
        let newKeys := (props.data.map Prod.fst).filter (fun k => ¬(k ∈ existing))
        let sgs := newKeys.foldl (fun sgs k =>
          stack.foldl (fun sgs idx =>
            let sg := sgs.getD idx ⟨[], [], none, []⟩
            if k ∈ sg.nodes then sgs
            else sgs.set idx { sg with nodes := sg.nodes ++ [k] }) sgs)
          props.subgraphs
        ({ props with subgraphs := sgs }, stack)
      else (props, stack)

/-- The error message for an unsupported graph header line. -/
def unsupportedMsg (other : Str) : Str :=
  "unsupported graph type ".data ++ [apos] ++ other ++ [apos] ++
    ". Supported types: graph TD, graph TB, graph LR, flowchart TD, flowchart TB, flowchart LR".data

/-- `mermaid_to_graph_properties`. -/
def mermaid_to_graph_properties (mermaid : Str) (style_type : Str)
    (config : Config) : Except Str GraphProperties :=
  let raw_lines := split_lines mermaid
  let lines := graphCleanLines raw_lines
  let props0 : GraphProperties :=
    ⟨[], [], [], style_type, config.padding_between_x, config.padding_between_y,
      config.box_border_padding, [], config.use_ascii⟩
  match consumePadding lines props0 with
  | Except.error e => Except.error e
  | Except.ok lp =>
    match lp.1 with
    | [] => Except.error "missing graph definition".data
    | hd :: rest =>
      if hd = "graph LR".data ∨ hd = "flowchart LR".data then
        Except.ok (rest.foldl graphLineStep
          ({ lp.2 with graph_direction := "LR".data }, [])).1
      else if hd = "graph TD".data ∨ hd = "flowchart TD".data ∨
          hd = "graph TB".data ∨ hd = "flowchart TB".data then
        Except.ok (rest.foldl graphLineStep
          ({ lp.2 with graph_direction := "TD".data }, [])).1
      else Except.error (unsupportedMsg hd)

/-! ### Graph layout (`graph/mod.rs`)

The `BinaryHeap` of the A* search and every `HashMap` are deterministic
data structures here; the only operation of the source whose result is
computed by iterating a `HashMap` in its runtime-chosen order is
`values().sum()` in `set_drawing_size_to_grid_constraints`.  That
iteration order is abstracted as a parameter
`ord : List (Int × Int) → List (Int × Int)` applied to the entry list
before summing; theorems hypothesize only that `ord` permutes the
entries. -/

/-- A drawing direction within a 3×3 node block (`Direction`). -/
structure Direction where
  dx : Int
  dy : Int
deriving DecidableEq

def UP : Direction := ⟨1, 0⟩

def DOWN : Direction := ⟨1, 2⟩

def LEFT : Direction := ⟨0, 1⟩

def RIGHT : Direction := ⟨2, 1⟩

def UPPER_RIGHT : Direction := ⟨2, 0⟩

def UPPER_LEFT : Direction := ⟨0, 0⟩

def LOWER_RIGHT : Direction := ⟨2, 2⟩

def LOWER_LEFT : Direction := ⟨0, 2⟩

def MIDDLE : Direction := ⟨1, 1⟩

/-- `Direction::opposite`. -/
def Direction.opposite (d : Direction) : Direction :=
  if d = UP then DOWN
  else if d = DOWN then UP
  else if d = LEFT then RIGHT
  else if d = RIGHT then LEFT
  else if d = UPPER_RIGHT then LOWER_LEFT
  else if d = UPPER_LEFT then LOWER_RIGHT
  else if d = LOWER_RIGHT then UPPER_LEFT
  else if d = LOWER_LEFT then UPPER_RIGHT
  else MIDDLE

/-- `GridCoord::direction`. -/
def gridDir (c : GridCoord) (d : Direction) : GridCoord := ⟨c.x + d.dx, c.y + d.dy⟩

/-- A laid-out node (`Node`). -/
structure Node where
  name : Str
  drawing : Option Drawing
  drawing_coord : Option DrawingCoord
  grid_coord : Option GridCoord
  drawn : Bool
  index : Nat
  style_class_name : Str
  style_class : StyleClass
deriving DecidableEq

def defaultNode : Node := ⟨[], none, none, none, false, 0, [], defaultStyleClass⟩

/-- A laid-out edge (`Edge`; the Rust fields `from`/`to` are renamed
`fromIdx`/`toIdx`). -/
structure Edge where
  fromIdx : Nat
  toIdx : Nat
  text : Str
  path : List GridCoord
  label_line : List GridCoord
  start_dir : Direction
  end_dir : Direction
deriving DecidableEq

def defaultEdge : Edge := ⟨0, 0, [], [], [], MIDDLE, MIDDLE⟩

/-- A laid-out subgraph (`Subgraph`). -/
structure Subgraph where
  name : Str
  nodes : List Nat
  parent : Option Nat
  children : List Nat
  min_x : Int
  min_y : Int
  max_x : Int
  max_y : Int
deriving DecidableEq

def defaultSubgraph : Subgraph := ⟨[], [], none, [], 0, 0, 0, 0⟩

/-- The layout state (`Graph`). -/
structure Graph where
  nodes : List Node
  edges : List Edge
  drawing : Drawing
  grid : AList GridCoord Nat
  column_width : AList Int Int
  row_height : AList Int Int
  style_classes : AList Str StyleClass
  style_type : Str
  padding_x : Int
  padding_y : Int
  box_border_padding : Int
  subgraphs : List Subgraph
  offset_x : Int
  offset_y : Int
  use_ascii : Bool
  graph_direction : Str
  node_index_by_name : AList Str Nat
deriving DecidableEq

/-- `Graph::get_or_insert_node`: returns the updated graph, the node index
and whether the node was inserted. -/
def get_or_insert_node (g : Graph) (name style_class : Str) : Graph × Nat × Bool :=
  match alookup g.node_index_by_name name with
  | some idx => (g, idx, false)
  | none =>
    let idx := g.nodes.length
    ({ g with
        nodes := g.nodes ++ [⟨name, none, none, none, false, idx, style_class,
          defaultStyleClass⟩],
        node_index_by_name := aupsert g.node_index_by_name name idx },
      idx, true)

/-- `mk_graph`: build nodes and edges from the parsed adjacency data, in
its insertion order. -/
def mk_graph (properties : GraphProperties) : Graph :=
  let g0 : Graph :=
    ⟨[], [], mk_drawing 0 0, [], [], [], [], properties.style_type,
      properties.padding_x, properties.padding_y, properties.box_border_padding,
      [], 0, 0, properties.use_ascii, properties.graph_direction, []⟩
  properties.data.foldl (fun g entry =>
    let rp := get_or_insert_node g entry.1 []
    entry.2.foldl (fun g edge =>
      let rc := get_or_insert_node g edge.child.name edge.child.style_class
      let g := rc.1
      let g :=
        if rc.2.2 then
          let pn := { (g.nodes.getD rp.2.1 defaultNode) with
            style_class_name := edge.parent.style_class }
          { g with nodes := g.nodes.set rp.2.1 pn }
        else g
      { g with edges := g.edges ++ [⟨rp.2.1, rc.2.1, edge.label, [], [], MIDDLE, MIDDLE⟩] })
      rp.1) g0

/-- `Graph::set_style_classes`. -/
def set_style_classes (g : Graph) (properties : GraphProperties) : Graph :=
  let g := { g with
    style_classes := properties.style_classes,
    style_type := properties.style_type,
    padding_x := properties.padding_x,
    padding_y := properties.padding_y }
  let ns := g.nodes.map (fun node =>
    if node.style_class_name ≠ [] then
      match alookup g.style_classes node.style_class_name with
      | some cls => { node with style_class := cls }
      | none => node
    else node)
  { g with nodes := ns }

/-- `Graph::set_subgraphs`. -/
def set_subgraphs (g : Graph) (text_subgraphs : List TextSubgraph) : Graph :=
  let sgs := text_subgraphs.map (fun tsg =>
    (⟨tsg.name, tsg.nodes.filterMap (fun nm => alookup g.node_index_by_name nm),
      tsg.parent, tsg.children, 0, 0, 0, 0⟩ : Subgraph))
  { g with subgraphs := sgs }

/-- `Graph::get_children`. -/
def get_children (g : Graph) (node_idx : Nat) : List Nat :=
  (g.edges.filter (fun e => e.fromIdx = node_idx)).map (fun e => e.toIdx)

/-- The root-detection pass of `create_mapping`: a node is a root when its
name has not been seen before it is visited (neither as an earlier node nor
as a child of an earlier node). -/
def rootNodes (g : Graph) : List Nat :=
  (g.nodes.foldl (fun (acc : List Nat × List Str) node =>
    ((if node.name ∈ acc.2 then acc.1 else acc.1 ++ [node.index]),
      (acc.2 ++ [node.name]) ++
        (get_children g node.index).map (fun c => (g.nodes.getD c defaultNode).name)))
    ([], [])).1

/-- `Graph::is_node_in_any_subgraph`. -/
def is_node_in_any_subgraph (g : Graph) (node_idx : Nat) : Bool :=
  g.subgraphs.any (fun sg => sg.nodes.any (fun i => i = node_idx))

/-- `Graph::get_node_subgraph`. -/
def get_node_subgraph (g : Graph) (node_idx : Nat) : Option Nat :=
  g.subgraphs.findIdx? (fun sg => sg.nodes.any (fun i => i = node_idx))

/-- `Graph::has_incoming_edge_from_outside_subgraph`. -/
def has_incoming_edge_from_outside_subgraph (g : Graph) (node_idx : Nat) : Bool :=
  match get_node_subgraph g node_idx with
  | none => false
  | some nsg =>
    let has_external := g.edges.any (fun e =>
      e.toIdx = node_idx ∧ get_node_subgraph g e.fromIdx ≠ some nsg)
    if ¬has_external then false
    else
      ¬((g.subgraphs.getD nsg defaultSubgraph).nodes.any (fun other =>
        decide (other ≠ node_idx) &&
        (g.nodes.getD other defaultNode).grid_coord.isSome &&
        g.edges.any (fun e => e.toIdx = other ∧ get_node_subgraph g e.fromIdx ≠ some nsg) &&
        (match (g.nodes.getD other defaultNode).grid_coord,
            (g.nodes.getD node_idx defaultNode).grid_coord with
         | some oc, some nc => decide (oc.y < nc.y)
         | _, _ => false)))

/-- `column_width.entry(k).or_insert(0)` followed by
`*entry = max(*entry, v)`. -/
def aentryMax (m : AList Int Int) (k v : Int) : AList Int Int :=
  match alookup m k with
  | some old => aupsert m k (max old v)
  | none => m ++ [(k, max 0 v)]

/-- `entry(k).or_insert(v)`. -/
def aentryOr (m : AList Int Int) (k v : Int) : AList Int Int :=
  if acontains m k then m else m ++ [(k, v)]

/-- `Graph::set_column_width`. -/
def set_column_width (g : Graph) (idx : Nat) : Graph :=
  let node := g.nodes.getD idx defaultNode
  let gc := node.grid_coord.getD ⟨0, 0⟩
  let name_len := (node.name.length : Int)
  let cols : List Int := [1, 2 * g.box_border_padding + name_len, 1]
  let rows : List Int := [1, 1 + 2 * g.box_border_padding, 1]
  let cw := cols.enum.foldl (fun m p => aentryMax m (gc.x + (p.1 : Int)) p.2)
    g.column_width
  let rh := rows.enum.foldl (fun m p => aentryMax m (gc.y + (p.1 : Int)) p.2)
    g.row_height
  let cw := if gc.x > 0 then aupsert cw (gc.x - 1) g.padding_x else cw
  let rh :=
    if gc.y > 0 then
      aentryMax rh (gc.y - 1)
        (g.padding_y + (if has_incoming_edge_from_outside_subgraph g idx then 4 else 0))
    else rh
  { g with column_width := cw, row_height := rh }

/-- `Graph::increase_grid_size_for_path`. -/
def increase_grid_size_for_path (g : Graph) (path : List GridCoord) : Graph :=
  path.foldl (fun g coord =>
    { g with
      column_width := aentryOr g.column_width coord.x (Int.tdiv g.padding_x 2),
      row_height := aentryOr g.row_height coord.y (Int.tdiv g.padding_y 2) }) g

/-- `Graph::grid_to_drawing_coord`. -/
def grid_to_drawing_coord (g : Graph) (coord : GridCoord) (dir : Option Direction) :
    DrawingCoord :=
  let target := match dir with
    | some d => gridDir coord d
    | none => coord
  let x := (intRange 0 target.x).foldl
    (fun a col => a + (alookup g.column_width col).getD 0) 0
  let y := (intRange 0 target.y).foldl
    (fun a row => a + (alookup g.row_height row).getD 0) 0
  ⟨x + Int.tdiv ((alookup g.column_width target.x).getD 0) 2 + g.offset_x,
   y + Int.tdiv ((alookup g.row_height target.y).getD 0) 2 + g.offset_y⟩

/-- `determine_direction` on raw coordinates. -/
def determine_direction (fx fy tx ty : Int) : Direction :=
  if fx = tx then (if fy < ty then DOWN else UP)
  else if fy = ty then (if fx < tx then RIGHT else LEFT)
  else if fx < tx then (if fy < ty then LOWER_RIGHT else UPPER_RIGHT)
  else if fy < ty then LOWER_LEFT
  else UPPER_LEFT

/-- `self_reference_direction`. -/
def self_reference_direction (graph_direction : Str) :
    Direction × Direction × Direction × Direction :=
  if graph_direction = "LR".data then (RIGHT, DOWN, DOWN, RIGHT)
  else (DOWN, RIGHT, RIGHT, DOWN)

/-- `determine_start_and_end_dir`: preferred and alternative start/end
directions of an edge. -/
def determine_start_and_end_dir (graph_direction : Str) (edge : Edge) (g : Graph) :
    Direction × Direction × Direction × Direction :=
  if edge.fromIdx = edge.toIdx then self_reference_direction graph_direction
  else
    let fc := (g.nodes.getD edge.fromIdx defaultNode).grid_coord.getD ⟨0, 0⟩
    let tc := (g.nodes.getD edge.toIdx defaultNode).grid_coord.getD ⟨0, 0⟩
    let d := determine_direction fc.x fc.y tc.x tc.y
    let is_backwards :=
      if graph_direction = "LR".data then d = LEFT ∨ d = UPPER_LEFT ∨ d = LOWER_LEFT
      else d = UP ∨ d = UPPER_LEFT ∨ d = UPPER_RIGHT
    if d = LOWER_RIGHT then
      if graph_direction = "LR".data then (DOWN, LEFT, RIGHT, UP)
      else (RIGHT, UP, DOWN, LEFT)
    else if d = UPPER_RIGHT then
      if graph_direction = "LR".data then (UP, LEFT, RIGHT, DOWN)
      else (RIGHT, DOWN, UP, LEFT)
    else if d = LOWER_LEFT then
      if graph_direction = "LR".data then (DOWN, DOWN, LEFT, UP)
      else (LEFT, UP, DOWN, RIGHT)
    else if d = UPPER_LEFT then
      if graph_direction = "LR".data then (DOWN, DOWN, LEFT, DOWN)
      else (RIGHT, RIGHT, UP, RIGHT)
    else
      if is_backwards then
        if graph_direction = "LR".data ∧ d = LEFT then (DOWN, DOWN, LEFT, RIGHT)
        else if graph_direction = "TD".data ∧ d = UP then (RIGHT, RIGHT, UP, DOWN)
        else (d, d.opposite, d, d.opposite)
      else (d, d.opposite, d, d.opposite)

/-- The repeated-direction middle points dropped by `merge_path`
(`remove.insert(idx + 1)`). -/
def mergeRemoveAux : GridCoord → GridCoord → List GridCoord → Nat → List Nat
  | _, _, [], _ => []
  | s0, s1, s2 :: rest, i =>
    (if determine_direction s0.x s0.y s1.x s1.y =
        determine_direction s1.x s1.y s2.x s2.y then [i + 1] else []) ++
      mergeRemoveAux s1 s2 rest (i + 1)

/-- `merge_path`: drop intermediate points that continue in the same
direction. -/
def merge_path (path : List GridCoord) : List GridCoord :=
  if path.length ≤ 2 then path
  else
    match path with
    | s0 :: s1 :: rest =>
      let rem := mergeRemoveAux s0 s1 rest 0
      (path.enum.filter (fun p => ¬(p.1 ∈ rem))).map Prod.snd
    | _ => path

/-- `Graph::determine_path`: choose the preferred or the alternative A*
path, whichever is shorter after merging, falling back when a search
fails. -/
def determine_path (g : Graph) (fuel : Nat) (edge_idx : Nat) : Graph :=
  let edge := g.edges.getD edge_idx defaultEdge
  let dirs := determine_start_and_end_dir g.graph_direction edge g
  let pd := dirs.1
  let po := dirs.2.1
  let ad := dirs.2.2.1
  let ao := dirs.2.2.2
  let fromC := gridDir ((g.nodes.getD edge.fromIdx defaultNode).grid_coord.getD ⟨0, 0⟩) pd
  let toC := gridDir ((g.nodes.getD edge.toIdx defaultNode).grid_coord.getD ⟨0, 0⟩) po
  match get_path g.grid fromC toC fuel with
  | Except.error _ =>
    let e2 := { edge with start_dir := ad, end_dir := ao, path := ([] : List GridCoord) }
    { g with edges := g.edges.set edge_idx e2 }
  | Except.ok p =>
    let preferred_path := merge_path p
    let fromA := gridDir ((g.nodes.getD edge.fromIdx defaultNode).grid_coord.getD ⟨0, 0⟩) ad
    let toA := gridDir ((g.nodes.getD edge.toIdx defaultNode).grid_coord.getD ⟨0, 0⟩) ao
    match get_path g.grid fromA toA fuel with
    | Except.error _ =>
      let e2 := { edge with start_dir := pd, end_dir := po, path := preferred_path }
      { g with edges := g.edges.set edge_idx e2 }
    | Except.ok p2 =>
      let alternative_path := merge_path p2
      if preferred_path.length ≤ alternative_path.length then
        let e2 := { edge with start_dir := pd, end_dir := po, path := preferred_path }
        { g with edges := g.edges.set edge_idx e2 }
      else
        let e2 := { edge with start_dir := ad, end_dir := ao, path := alternative_path }
        { g with edges := g.edges.set edge_idx e2 }

/-- `Graph::calculate_line_width`. -/
def calculate_line_width (g : Graph) (line : List GridCoord) : Int :=
  (line.map (fun c => (alookup g.column_width c.x).getD 0)).foldl (· + ·) 0

/-- The widest-segment loop of `determine_label_line`, with its `break` on
a segment at least as wide as the label. -/
def labelLineAux (g : Graph) (label_len : Int) :
    GridCoord → List GridCoord → List GridCoord → Int → List GridCoord
  | _, [], best, _ => best
  | prev, step :: rest, best, bestSize =>
    let line := [prev, step]
    let w := calculate_line_width g line
    if w ≥ label_len then line
    else if w > bestSize then labelLineAux g label_len step rest line w
    else labelLineAux g label_len step rest best bestSize

/-- `Graph::determine_label_line`: pick the widest path segment and widen
its middle column to fit the label. -/
def determine_label_line (g : Graph) (edge_idx : Nat) : Graph :=
  let edge := g.edges.getD edge_idx defaultEdge
  let label_len := (edge.text.length : Int)
  if label_len = 0 then g
  else
    let path := edge.path
    if path.length < 2 then g
    else
      let p0 := path.getD 0 ⟨0, 0⟩
      let p1 := path.getD 1 ⟨0, 0⟩
      let largest := labelLineAux g label_len p0 (path.drop 1) [p0, p1] 0
      let l0 := largest.getD 0 ⟨0, 0⟩
      let l1 := largest.getD 1 ⟨0, 0⟩
      let mx := if l0.x > l1.x then l0.x else l1.x
      let mn := if l0.x > l1.x then l1.x else l0.x
      let middle_x := mn + Int.tdiv (mx - mn) 2
      { g with
        column_width := aentryMax g.column_width middle_x (label_len + 2),
        edges := g.edges.set edge_idx ({ edge with label_line := largest }) }

/-- Placement of one node at a level of the layout grid: request the next
free slot at the level's highest position and advance that position by 4
(the placement steps of `create_mapping`). -/
def place_node (g : Graph) (fuel : Nat) (hppl : List Int) (idx : Nat) (level : Int) :
    Option (Graph × List Int) :=
  let hp := hppl.getD level.toNat 0
  let requested : GridCoord :=
    if g.graph_direction = "LR".data then ⟨level, hp⟩ else ⟨hp, level⟩
  match reserve_spot_in_grid g.graph_direction g.grid idx requested fuel with
  | none => none
  | some cg =>
    let n2 := { (g.nodes.getD idx defaultNode) with grid_coord := some cg.1 }
    some ({ g with grid := cg.2, nodes := g.nodes.set idx n2 },
      hppl.set level.toNat (hp + 4))

/-- `Graph::create_mapping` up to the grid placement: place roots, then
children level by level. -/
def place_all (g : Graph) (fuel : Nat) : Option (Graph × List Int) := do
  let hppl : List Int := List.replicate 100 0
  let roots := rootNodes g
  let hasExt := roots.any (fun i => ¬is_node_in_any_subgraph g i)
  let hasSubEdge := roots.any (fun i =>
    is_node_in_any_subgraph g i ∧ get_children g i ≠ [])
  let should_separate := g.graph_direction = "LR".data ∧ hasExt ∧ hasSubEdge
  let extRoots :=
    if should_separate then roots.filter (fun i => ¬is_node_in_any_subgraph g i)
    else roots
  let sgRoots :=
    if should_separate then roots.filter (fun i => is_node_in_any_subgraph g i)
    else []
  let st ← extRoots.foldlM (fun (st : Graph × List Int) idx =>
    place_node st.1 fuel st.2 idx 0) (g, hppl)
  let st ←
    if should_separate ∧ sgRoots ≠ [] then
      sgRoots.foldlM (fun (st : Graph × List Int) idx =>
        place_node st.1 fuel st.2 idx 4) st
    else pure st
  (List.range st.1.nodes.length).foldlM (fun (st : Graph × List Int) idx =>
    let g := st.1
    let gc := (g.nodes.getD idx defaultNode).grid_coord.getD ⟨0, 0⟩
    let child_level := if g.graph_direction = "LR".data then gc.x + 4 else gc.y + 4
    (get_children g idx).foldlM (fun (st2 : Graph × List Int) child_idx =>
      if ((st2.1.nodes.getD child_idx defaultNode).grid_coord).isSome then some st2
      else place_node st2.1 fuel st2.2 child_idx child_level) st) st

/-- Column sums of `set_drawing_size_to_grid_constraints`
(`values().sum()`), under the abstracted iteration order `ord`. -/
def set_drawing_size_to_grid_constraints
    (ord : List (Int × Int) → List (Int × Int)) (g : Graph) : Graph :=
  let max_x := avalsum (ord g.column_width)
  let max_y := avalsum (ord g.row_height)
  { g with drawing := increase_size g.drawing (max_x - 1) (max_y - 1) }

/-- `ceil_div`. -/
def ceil_div (x y : Int) : Int :=
  if Int.tmod x y = 0 then Int.tdiv x y else Int.tdiv x y + 1

/-- `wrap_text_in_color`. -/
def wrap_text_in_color (text : Str) (color : Option Str) (style_type : Str) : Str :=
  match color with
  | none => text
  | some c =>
    if style_type = "html".data then
      "<span style=".data ++ [apos] ++ "color: ".data ++ c ++ [apos, '>'] ++
        text ++ "</span>".data
    else text

/-- `draw_box`: the bordered node box with its centered name. -/
def draw_box (node : Node) (g : Graph) : Drawing :=
  let grid := node.grid_coord.getD ⟨0, 0⟩
  let w := (alookup g.column_width grid.x).getD 0 +
    (alookup g.column_width (grid.x + 1)).getD 0
  let h := (alookup g.row_height grid.y).getD 0 +
    (alookup g.row_height (grid.y + 1)).getD 0
  let hor := if g.use_ascii then "-".data else "─".data
  let ver := if g.use_ascii then "|".data else "│".data
  let tl := if g.use_ascii then "+".data else "┌".data
  let tr := if g.use_ascii then "+".data else "┐".data
  let bl := if g.use_ascii then "+".data else "└".data
  let br := if g.use_ascii then "+".data else "┘".data
  let d := mk_drawing w h
  let d := (intRange 1 w).foldl (fun d x => set_cell (set_cell d x 0 hor) x h hor) d
  let d := (intRange 1 h).foldl (fun d y => set_cell (set_cell d 0 y ver) w y ver) d
  let d := set_cell (set_cell (set_cell (set_cell d 0 0 tl) w 0 tr) 0 h bl) w h br
  let text_y := Int.tdiv h 2
  let name_len := (node.name.length : Int)
  let text_x := Int.tdiv w 2 - ceil_div name_len 2 + 1
  node.name.enum.foldl (fun d p =>
    set_cell d (text_x + (p.1 : Int)) text_y
      (wrap_text_in_color [p.2] (alookup node.style_class.styles "color".data)
        g.style_type)) d

/-- `draw_subgraph`: the bordered subgraph box. -/
def draw_subgraph (sg : Subgraph) (g : Graph) : Drawing :=
  let width := sg.max_x - sg.min_x
  let height := sg.max_y - sg.min_y
  if width ≤ 0 ∨ height ≤ 0 then mk_drawing 0 0
  else
    let hor := if g.use_ascii then "-".data else "─".data
    let ver := if g.use_ascii then "|".data else "│".data
    let tl := if g.use_ascii then "+".data else "┌".data
    let tr := if g.use_ascii then "+".data else "┐".data
    let bl := if g.use_ascii then "+".data else "└".data
    let br := if g.use_ascii then "+".data else "┘".data
    let d := mk_drawing width height
    let d := (intRange 1 width).foldl
      (fun d x => set_cell (set_cell d x 0 hor) x height hor) d
    let d := (intRange 1 height).foldl
      (fun d y => set_cell (set_cell d 0 y ver) width y ver) d
    set_cell (set_cell (set_cell (set_cell d 0 0 tl) width 0 tr) 0 height bl)
      width height br

/-- `draw_subgraph_label`: the subgraph name near the top edge, with its
merge offset. -/
def draw_subgraph_label (sg : Subgraph) : Drawing × DrawingCoord :=
  let width := sg.max_x - sg.min_x
  let height := sg.max_y - sg.min_y
  if width ≤ 0 ∨ height ≤ 0 then (mk_drawing 0 0, ⟨0, 0⟩)
  else
    let d := mk_drawing width height
    let lx0 := Int.tdiv width 2 - Int.tdiv (sg.name.length : Int) 2
    let label_x := if lx0 < 1 then 1 else lx0
    let d := sg.name.enum.foldl (fun d p =>
      let x := label_x + (p.1 : Int)
      if x < width then set_cell d x 1 [p.2] else d) d
    (d, ⟨sg.min_x, sg.min_y⟩)

/-- The inclusive `i32` range `a..=b` as a list. -/
def intRangeIncl (a b : Int) : List Int :=
  (List.range (b - a + 1).toNat).map (fun k => a + (k : Int))

/-- Iteration count of the diagonal `while` loops of `draw_line`: steps
while both coordinates stay within their bounds. -/
def diagCount (dx dy : Int) : Nat :=
  if 0 ≤ dx ∧ 0 ≤ dy then (min dx dy).toNat + 1 else 0

/-- `Graph::draw_line`: draw one straight or diagonal segment, returning
the updated canvas and the cells drawn in order. -/
def draw_line (g : Graph) (d : Drawing) (fr to2 : DrawingCoord)
    (offset_from offset_to : Int) : Drawing × List DrawingCoord :=
  let dir := determine_direction fr.x fr.y to2.x to2.y
  let hor := if g.use_ascii then "-".data else "─".data
  let ver := if g.use_ascii then "|".data else "│".data
  let bsl := if g.use_ascii then "\\".data else "╲".data
  let fsl := if g.use_ascii then "/".data else "╱".data
  if dir = UP then
    let ys := intRangeIncl (to2.y - offset_to) (fr.y - offset_from)
    (ys.foldl (fun d y => set_cell d fr.x y ver) d, ys.map (fun y => ⟨fr.x, y⟩))
  else if dir = DOWN then
    let ys := intRangeIncl (fr.y + offset_from) (to2.y + offset_to)
    (ys.foldl (fun d y => set_cell d fr.x y ver) d, ys.map (fun y => ⟨fr.x, y⟩))
  else if dir = LEFT then
    let xs := intRangeIncl (to2.x - offset_to) (fr.x - offset_from)
    (xs.foldl (fun d x => set_cell d x fr.y hor) d, xs.map (fun x => ⟨x, fr.y⟩))
  else if dir = RIGHT then
    let xs := intRangeIncl (fr.x + offset_from) (to2.x + offset_to)
    (xs.foldl (fun d x => set_cell d x fr.y hor) d, xs.map (fun x => ⟨x, fr.y⟩))
  else if dir = UPPER_LEFT then
    let x0 := fr.x
    let y0 := fr.y - offset_from
    let cells := (List.range (diagCount (x0 - (to2.x - offset_to)) (y0 - (to2.y - offset_to)))).map
      (fun k => (⟨x0 - (k : Int), y0 - (k : Int)⟩ : DrawingCoord))
    (cells.foldl (fun d c => set_cell d c.x c.y bsl) d, cells)
  else if dir = UPPER_RIGHT then
    let x0 := fr.x
    let y0 := fr.y - offset_from
    let cells := (List.range (diagCount ((to2.x + offset_to) - x0) (y0 - (to2.y - offset_to)))).map
      (fun k => (⟨x0 + (k : Int), y0 - (k : Int)⟩ : DrawingCoord))
    (cells.foldl (fun d c => set_cell d c.x c.y fsl) d, cells)
  else if dir = LOWER_LEFT then
    let x0 := fr.x
    let y0 := fr.y + offset_from
    let cells := (List.range (diagCount (x0 - (to2.x - offset_to)) ((to2.y + offset_to) - y0))).map
      (fun k => (⟨x0 - (k : Int), y0 + (k : Int)⟩ : DrawingCoord))
    (cells.foldl (fun d c => set_cell d c.x c.y fsl) d, cells)
  else if dir = LOWER_RIGHT then
    let x0 := fr.x
    let y0 := fr.y + offset_from
    let cells := (List.range (diagCount ((to2.x + offset_to) - x0) ((to2.y + offset_to) - y0))).map
      (fun k => (⟨x0 + (k : Int), y0 + (k : Int)⟩ : DrawingCoord))
    (cells.foldl (fun d c => set_cell d c.x c.y bsl) d, cells)
  else (d, [])

/-- `Graph::draw_path`: draw all segments of a path on a blank same-size
canvas, collecting the drawn cell runs and their directions. -/
def draw_path (g : Graph) (path : List GridCoord) :
    Drawing × List (List DrawingCoord) × List Direction :=
  let res := (path.drop 1).foldl
    (fun (st : (Drawing × List (List DrawingCoord) × List Direction) × GridCoord) next =>
      let d := st.1.1
      let lines := st.1.2.1
      let dirs := st.1.2.2
      let previous := st.2
      let prev_dc := grid_to_drawing_coord g previous none
      let next_dc := grid_to_drawing_coord g next none
      if prev_dc = next_dc then ((d, lines, dirs), next)
      else
        let dir := determine_direction previous.x previous.y next.x next.y
        let r := draw_line g d prev_dc next_dc 1 (-1)
        let line := if r.2 = [] then [prev_dc] else r.2
        ((r.1, lines ++ [line], dirs ++ [dir]), next))
    ((copy_canvas g.drawing, [], []), path.getD 0 ⟨0, 0⟩)
  res.1

/-- `Graph::draw_box_start`: the junction glyph where an edge leaves its
box (non-ASCII mode only). -/
def draw_box_start (g : Graph) (path : List GridCoord)
    (first_line : List DrawingCoord) : Drawing :=
  let d := copy_canvas g.drawing
  if g.use_ascii ∨ first_line = [] then d
  else
    let fr := first_line.getD 0 ⟨0, 0⟩
    let p0 := path.getD 0 ⟨0, 0⟩
    let p1 := path.getD 1 ⟨0, 0⟩
    let dir := determine_direction p0.x p0.y p1.x p1.y
    if dir = UP then set_cell d fr.x (fr.y + 1) "┴".data
    else if dir = DOWN then set_cell d fr.x (fr.y - 1) "┬".data
    else if dir = LEFT then set_cell d (fr.x + 1) fr.y "┤".data
    else if dir = RIGHT then set_cell d (fr.x - 1) fr.y "├".data
    else d

/-- The arrow-head glyph choice of `draw_arrow_head`. -/
def arrow_head_glyph (ua : Bool) (dir fallback : Direction) : Str :=
  if ¬ua then
    if dir = UP then "▲".data else if dir = DOWN then "▼".data
    else if dir = LEFT then "◄".data else if dir = RIGHT then "►".data
    else if dir = UPPER_RIGHT then "◥".data else if dir = UPPER_LEFT then "◤".data
    else if dir = LOWER_RIGHT then "◢".data else if dir = LOWER_LEFT then "◣".data
    else if fallback = UP then "▲".data else if fallback = DOWN then "▼".data
    else if fallback = LEFT then "◄".data else if fallback = RIGHT then "►".data
    else if fallback = UPPER_RIGHT then "◥".data
    else if fallback = UPPER_LEFT then "◤".data
    else if fallback = LOWER_RIGHT then "◢".data
    else if fallback = LOWER_LEFT then "◣".data
    else "●".data
  else
    if dir = UP then "^".data else if dir = DOWN then "v".data
    else if dir = LEFT then "<".data else if dir = RIGHT then ">".data
    else if fallback = UP then "^".data else if fallback = DOWN then "v".data
    else if fallback = LEFT then "<".data else if fallback = RIGHT then ">".data
    else "*".data

/-- `Graph::draw_arrow_head`. -/
def draw_arrow_head (g : Graph) (line : List DrawingCoord) (fallback : Direction) :
    Drawing :=
  let d := copy_canvas g.drawing
  if line = [] then d
  else
    let fr := line.getD 0 ⟨0, 0⟩
    let lastC := line.getLastD ⟨0, 0⟩
    let dir0 := determine_direction fr.x fr.y lastC.x lastC.y
    let dir := if line.length = 1 ∨ dir0 = MIDDLE then fallback else dir0
    set_cell d lastC.x lastC.y (arrow_head_glyph g.use_ascii dir fallback)

/-- The corner glyph choice of `draw_corners`. -/
def corner_glyph (ua : Bool) (prev_dir next_dir : Direction) : Str :=
  if ¬ua then
    if (prev_dir = RIGHT ∧ next_dir = DOWN) ∨ (prev_dir = UP ∧ next_dir = LEFT) then
      "┐".data
    else if (prev_dir = RIGHT ∧ next_dir = UP) ∨ (prev_dir = DOWN ∧ next_dir = LEFT) then
      "┘".data
    else if (prev_dir = LEFT ∧ next_dir = DOWN) ∨ (prev_dir = UP ∧ next_dir = RIGHT) then
      "┌".data
    else if (prev_dir = LEFT ∧ next_dir = UP) ∨ (prev_dir = DOWN ∧ next_dir = RIGHT) then
      "└".data
    else "+".data
  else "+".data

/-- `Graph::draw_corners`. -/
def draw_corners (g : Graph) (path : List GridCoord) : Drawing :=
  (List.range' 1 (path.length - 1 - 1)).foldl (fun d idx =>
    let coord := path.getD idx ⟨0, 0⟩
    let dc := grid_to_drawing_coord g coord none
    let prev := path.getD (idx - 1) ⟨0, 0⟩
    let next := path.getD (idx + 1) ⟨0, 0⟩
    let prev_dir := determine_direction prev.x prev.y coord.x coord.y
    let next_dir := determine_direction coord.x coord.y next.x next.y
    set_cell d dc.x dc.y (corner_glyph g.use_ascii prev_dir next_dir))
    (copy_canvas g.drawing)

/-- `draw_text`. -/
def draw_text (d : Drawing) (start : DrawingCoord) (text : Str) : Drawing :=
  let d := increase_size d (start.x + (text.length : Int)) start.y
  text.enum.foldl (fun d p => set_cell d (start.x + (p.1 : Int)) start.y [p.2]) d

/-- `draw_text_on_line`: center a label on the middle of a two-point
line. -/
def draw_text_on_line (d : Drawing) (line : List DrawingCoord) (label : Str) :
    Drawing :=
  if line.length < 2 then d
  else
    let l0 := line.getD 0 ⟨0, 0⟩
    let l1 := line.getD 1 ⟨0, 0⟩
    let mnx := if l0.x > l1.x then l1.x else l0.x
    let mxx := if l0.x > l1.x then l0.x else l1.x
    let mny := if l0.y > l1.y then l1.y else l0.y
    let mxy := if l0.y > l1.y then l0.y else l1.y
    let middle_x := mnx + Int.tdiv (mxx - mnx) 2
    let middle_y := mny + Int.tdiv (mxy - mny) 2
    let start_x := middle_x - Int.tdiv (label.length : Int) 2
    draw_text d ⟨start_x, middle_y⟩ label

/-- `Graph::draw_arrow_label`. -/
def draw_arrow_label (g : Graph) (edge : Edge) : Drawing :=
  let d := copy_canvas g.drawing
  if edge.text = [] ∨ edge.label_line.length < 2 then d
  else
    let line := edge.label_line.map (fun c => grid_to_drawing_coord g c none)
    draw_text_on_line d line edge.text

/-- `Graph::draw_arrow`: the five overlay canvases of one edge. -/
def draw_arrow (g : Graph) (edge : Edge) :
    Drawing × Drawing × Drawing × Drawing × Drawing :=
  if edge.path = [] then
    (mk_drawing 0 0, mk_drawing 0 0, mk_drawing 0 0, mk_drawing 0 0, mk_drawing 0 0)
  else
    let label := draw_arrow_label g edge
    let r := draw_path g edge.path
    let box_start := draw_box_start g edge.path (r.2.1.getD 0 [])
    let arrow_head := draw_arrow_head g (r.2.1.getLastD []) (r.2.2.getLastD MIDDLE)
    let corners := draw_corners g edge.path
    (r.1, box_start, arrow_head, corners, label)

/-- `Graph::draw_edge`. -/
def draw_edge (g : Graph) (edge_idx : Nat) :
    Drawing × Drawing × Drawing × Drawing × Drawing :=
  let edge := g.edges.getD edge_idx defaultEdge
  if edge.path = [] then
    (mk_drawing 0 0, mk_drawing 0 0, mk_drawing 0 0, mk_drawing 0 0, mk_drawing 0 0)
  else draw_arrow g edge

/-- `Graph::get_subgraph_depth` (fuel-bounded parent walk; parents always
have smaller indices, so `subgraphs.length + 1` fuel suffices). -/
def getSubgraphDepth (g : Graph) : Nat → Nat → Int
  | 0, _ => 0
  | fuel + 1, idx =>
    match (g.subgraphs.getD idx defaultSubgraph).parent with
    | some p => 1 + getSubgraphDepth g fuel p
    | none => 0

/-- `Graph::sort_subgraphs_by_depth` (`sort_by_key` is stable). -/
def sort_subgraphs_by_depth (g : Graph) : List Nat :=
  (List.range g.subgraphs.length).mergeSort (fun a b =>
    decide (getSubgraphDepth g (g.subgraphs.length + 1) a ≤
      getSubgraphDepth g (g.subgraphs.length + 1) b))

/-- `Graph::draw_subgraphs`. -/
def draw_subgraphs (g : Graph) : Graph :=
  (sort_subgraphs_by_depth g).foldl (fun g idx =>
    let sg := g.subgraphs.getD idx defaultSubgraph
    if sg.nodes = [] then g
    else
      let d2 := merge_drawings g.drawing ⟨sg.min_x, sg.min_y⟩ [draw_subgraph sg g]
        g.use_ascii
      { g with drawing := d2 }) g

/-- `Graph::draw_node`. -/
def draw_node (g : Graph) (idx : Nat) : Graph :=
  let node := g.nodes.getD idx defaultNode
  match node.drawing_coord, node.drawing with
  | some coord, some dr =>
    { g with drawing := merge_drawings g.drawing coord [dr] g.use_ascii,
             nodes := g.nodes.set idx ({ node with drawn := true }) }
  | _, _ => g

/-- `Graph::draw_subgraph_labels`. -/
def draw_subgraph_labels (g : Graph) : Graph :=
  g.subgraphs.foldl (fun g2 sg =>
    if sg.nodes = [] then g2
    else
      let r := draw_subgraph_label sg
      { g2 with drawing := merge_drawings g2.drawing r.2 [r.1] g2.use_ascii }) g

/-- `Graph::draw`: subgraphs, nodes, edge overlays in their five layers,
then subgraph labels. -/
def graph_draw (g : Graph) : Graph :=
  let g := draw_subgraphs g
  let g := (List.range g.nodes.length).foldl (fun g idx =>
    if ¬(g.nodes.getD idx defaultNode).drawn then draw_node g idx else g) g
  let results := (List.range g.edges.length).map (fun ei => draw_edge g ei)
  let d1 := merge_drawings g.drawing ⟨0, 0⟩ (results.map (fun r => r.1)) g.use_ascii
  let g := { g with drawing := d1 }
  let d2 := merge_drawings g.drawing ⟨0, 0⟩ (results.map (fun r => r.2.2.2.1)) g.use_ascii
  let g := { g with drawing := d2 }
  let d3 := merge_drawings g.drawing ⟨0, 0⟩ (results.map (fun r => r.2.2.1)) g.use_ascii
  let g := { g with drawing := d3 }
  let d4 := merge_drawings g.drawing ⟨0, 0⟩ (results.map (fun r => r.2.1)) g.use_ascii
  let g := { g with drawing := d4 }
  let d5 := merge_drawings g.drawing ⟨0, 0⟩ (results.map (fun r => r.2.2.2.2)) g.use_ascii
  let g := { g with drawing := d5 }
  draw_subgraph_labels g

/-- `Graph::calculate_subgraph_bounding_box` (fuel-bounded recursion into
children, whose indices are always larger). -/
def calculate_subgraph_bounding_box (gIn : Graph) : Nat → Nat → Option Graph
  | 0, _ => none
  | fuel + 1, idx =>
    let sg0 := gIn.subgraphs.getD idx defaultSubgraph
    if sg0.nodes = [] then some gIn
    else do
      let st ← sg0.children.foldlM
        (fun (st : Graph × Int × Int × Int × Int) child_idx => do
          let g ← calculate_subgraph_bounding_box st.1 fuel child_idx
          let c := g.subgraphs.getD child_idx defaultSubgraph
          if c.nodes ≠ [] then
            pure (g, min st.2.1 c.min_x, min st.2.2.1 c.min_y,
              max st.2.2.2.1 c.max_x, max st.2.2.2.2 c.max_y)
          else pure (g, st.2.1, st.2.2.1, st.2.2.2.1, st.2.2.2.2))
        (gIn, (1000000 : Int), (1000000 : Int), (-1000000 : Int), (-1000000 : Int))
      let r := sg0.nodes.foldl (fun (st : Graph × Int × Int × Int × Int) node_idx =>
        let node := st.1.nodes.getD node_idx defaultNode
        match node.drawing_coord, node.drawing with
        | some coord, some dr =>
          (st.1, min st.2.1 coord.x, min st.2.2.1 coord.y,
            max st.2.2.2.1 (coord.x + (dr.length : Int) - 1),
            max st.2.2.2.2 (coord.y + ((dr.headD []).length : Int) - 1))
        | _, _ => st) st
      let g := r.1
      let sg := g.subgraphs.getD idx defaultSubgraph
      let sg2 := { sg with
                   min_x := r.2.1 - 2, min_y := r.2.2.1 - 2 - 2,
                   max_x := r.2.2.2.1 + 2, max_y := r.2.2.2.2 + 2 }
      pure { g with subgraphs := g.subgraphs.set idx sg2 }

/-- One ordered pair step of `ensure_subgraph_spacing` (`min_spacing`
is 1). -/
def spacingStep (sgs : List Subgraph) (i j : Nat) : List Subgraph :=
  let sg1 := sgs.getD i defaultSubgraph
  let sg2 := sgs.getD j defaultSubgraph
  let p :=
    if sg1.min_x < sg2.max_x ∧ sg1.max_x > sg2.min_x then
      if sg1.max_y ≥ sg2.min_y - 1 ∧ sg1.min_y < sg2.min_y then
        (sg1, { sg2 with min_y := sg1.max_y + 1 + 1 })
      else if sg2.max_y ≥ sg1.min_y - 1 ∧ sg2.min_y < sg1.min_y then
        ({ sg1 with min_y := sg2.max_y + 1 + 1 }, sg2)
      else (sg1, sg2)
    else (sg1, sg2)
  let sg1 := p.1
  let sg2 := p.2
  let p :=
    if sg1.min_y < sg2.max_y ∧ sg1.max_y > sg2.min_y then
      if sg1.max_x ≥ sg2.min_x - 1 ∧ sg1.min_x < sg2.min_x then
        (sg1, { sg2 with min_x := sg1.max_x + 1 + 1 })
      else if sg2.max_x ≥ sg1.min_x - 1 ∧ sg2.min_x < sg1.min_x then
        ({ sg1 with min_x := sg2.max_x + 1 + 1 }, sg2)
      else (sg1, sg2)
    else (sg1, sg2)
  (sgs.set i p.1).set j p.2

/-- `Graph::ensure_subgraph_spacing`. -/
def ensure_subgraph_spacing (g : Graph) : Graph :=
  let rootIdxs := (g.subgraphs.enum.filter (fun p =>
    p.2.parent = none ∧ p.2.nodes ≠ [])).map Prod.fst
  let sgs2 := (List.range rootIdxs.length).foldl (fun sgs i =>
    (List.range' (i + 1) (rootIdxs.length - (i + 1))).foldl (fun sgs j =>
      spacingStep sgs (rootIdxs.getD i 0) (rootIdxs.getD j 0)) sgs) g.subgraphs
  { g with subgraphs := sgs2 }

/-- `Graph::calculate_subgraph_bounding_boxes`. -/
def calculate_subgraph_bounding_boxes (g : Graph) : Option Graph := do
  let g ← (List.range g.subgraphs.length).foldlM
    (fun (g : Graph) idx =>
      calculate_subgraph_bounding_box g (g.subgraphs.length + 1) idx) g
  pure (ensure_subgraph_spacing g)

/-- `Graph::offset_drawing_for_subgraphs`. -/
def offset_drawing_for_subgraphs (g : Graph) : Graph :=
  if g.subgraphs = [] then g
  else
    let mnx := g.subgraphs.foldl (fun m sg => min m sg.min_x) 0
    let mny := g.subgraphs.foldl (fun m sg => min m sg.min_y) 0
    let ox := -mnx
    let oy := -mny
    if ox = 0 ∧ oy = 0 then g
    else
      let sgs2 := g.subgraphs.map (fun sg =>
        { sg with
          min_x := sg.min_x + ox, min_y := sg.min_y + oy,
          max_x := sg.max_x + ox, max_y := sg.max_y + oy })
      let ns2 := g.nodes.map (fun n =>
        match n.drawing_coord with
        | some c => { n with drawing_coord := some (⟨c.x + ox, c.y + oy⟩ : DrawingCoord) }
        | none => n)
      { g with offset_x := ox, offset_y := oy, subgraphs := sgs2, nodes := ns2 }

/-- `Graph::create_mapping`: grid placement, grid sizing, edge routing,
node canvases, drawing sizing, subgraph boxes and offsets. -/
def create_mapping (ord : List (Int × Int) → List (Int × Int)) (fuel : Nat)
    (g : Graph) : Option Graph := do
  let st ← place_all g fuel
  let g := st.1
  let g := (List.range g.nodes.length).foldl set_column_width g
  let g := (List.range g.edges.length).foldl (fun g ei =>
    let g := determine_path g fuel ei
    let g := increase_grid_size_for_path g (g.edges.getD ei defaultEdge).path
    determine_label_line g ei) g
  let g := (List.range g.nodes.length).foldl (fun g idx =>
    let node := g.nodes.getD idx defaultNode
    let dc := grid_to_drawing_coord g (node.grid_coord.getD ⟨0, 0⟩) none
    let node := { node with drawing_coord := some dc }
    let node := { node with drawing := some (draw_box node g) }
    { g with nodes := g.nodes.set idx node }) g
  let g := set_drawing_size_to_grid_constraints ord g
  let g ← calculate_subgraph_bounding_boxes g
  pure (offset_drawing_for_subgraphs g)

/-- Right-aligned two-column decimal (`format!("{:2}", y)`). -/
def fmtW2 (y : Int) : Str :=
  let s := intToStr y
  if s.length < 2 then ' ' :: s else s

/-- `debug_drawing_wrapper`: a canvas shifted by (2, 1) with column and
row digit rulers. -/
def debug_drawing_wrapper (d : Drawing) : Drawing :=
  let s := get_drawing_size d
  let dbg := mk_drawing (s.1 + 2) (s.2 + 1)
  let dbg := (intRangeIncl 0 s.1).foldl
    (fun dbg x => set_cell dbg (x + 2) 0 (intToStr (Int.tmod x 10))) dbg
  let dbg := (intRangeIncl 0 s.2).foldl
    (fun dbg y => set_cell dbg 0 (y + 1) (fmtW2 y)) dbg
  let xs := List.range dbg.length
  let ys := List.range (dbg.headD []).length
  xs.foldl (fun dbg2 x => ys.foldl (fun dbg3 y =>
    let src_x := Int.ofNat x - 2
    let src_y := Int.ofNat y - 1
    if 0 ≤ src_x ∧ 0 ≤ src_y ∧ src_x.toNat < d.length ∧
        src_y.toNat < (d.headD []).length then
      dSet dbg3 x y (dGet d src_x.toNat src_y.toNat)
    else dbg3) dbg2) dbg

/-- The column ruler loop of `debug_coord_wrapper`. -/
def dcwCols (g : Graph) (maxX : Int) : Nat → Int → Int → Drawing → Drawing
  | 0, _, _, dbg => dbg
  | n + 1, x, curr_x, dbg =>
    let w := (alookup g.column_width x).getD 0
    if curr_x > maxX + w then dbg
    else dcwCols g maxX n (x + 1) (curr_x + w)
      (set_cell dbg curr_x 0 (intToStr (Int.tmod x 10)))

/-- The row ruler loop of `debug_coord_wrapper`. -/
def dcwRows (g : Graph) (maxY : Int) : Nat → Int → Int → Drawing → Drawing
  | 0, _, _, dbg => dbg
  | n + 1, y, curr_y, dbg =>
    let h := (alookup g.row_height y).getD 0
    if curr_y > maxY + h then dbg
    else dcwRows g maxY n (y + 1) (curr_y + h)
      (set_cell dbg 0 (curr_y + Int.tdiv h 2) (intToStr (Int.tmod y 10)))

/-- `debug_coord_wrapper`. -/
def debug_coord_wrapper (d : Drawing) (g : Graph) : Drawing :=
  let s := get_drawing_size d
  let dbg := mk_drawing (s.1 + 2) (s.2 + 1)
  let dbg := dcwCols g s.1 100 0 3 dbg
  let dbg := dcwRows g s.2 100 0 2 dbg
  merge_drawings dbg ⟨1, 1⟩ [d] g.use_ascii

/-- `draw_map`: the full layout-and-draw pipeline on parsed properties. -/
def draw_map (ord : List (Int × Int) → List (Int × Int)) (fuel : Nat)
    (properties : GraphProperties) (show_coords : Bool) : Except Str Str :=
  let g := mk_graph properties
  let g := set_style_classes g properties
  let g := { g with
    padding_x := properties.padding_x,
    padding_y := properties.padding_y,
    box_border_padding := properties.box_border_padding,
    use_ascii := properties.use_ascii,
    graph_direction := properties.graph_direction }
  let g := set_subgraphs g properties.subgraphs
  match create_mapping ord fuel g with
  | none => Except.error "fuel exhausted".data
  | some g =>
    let g := graph_draw g
    let drawing :=
      if show_coords then debug_coord_wrapper (debug_drawing_wrapper g.drawing) g
      else g.drawing
    Except.ok (drawing_to_string drawing)

/-- `GraphDiagram::render`: override the style type and ASCII flag from the
configuration, then draw. -/
def graph_render (ord : List (Int × Int) → List (Int × Int)) (fuel : Nat)
    (properties : GraphProperties) (config : Config) : Except Str Str :=
  let style_type := if config.style_type = [] then "cli".data else config.style_type
  draw_map ord fuel
    { properties with style_type := style_type, use_ascii := config.use_ascii }
    config.show_coords

/-- Splitting on newline characters only, keeping all pieces. -/
def rustSplitNl : Str → Str → List Str
  | [], acc => [acc.reverse]
  | '\n' :: rest, acc => acc.reverse :: rustSplitNl rest []
  | c :: rest, acc => rustSplitNl rest (c :: acc)

/-- `str::lines`: split on `\n`, drop a final empty piece, and strip one
trailing `\r` from each line. -/
def rustLines (s : Str) : List Str :=
  let ps := rustSplitNl s []
  let ps := if ps.getLast? = some [] then ps.dropLast else ps
  ps.map (fun p => if p.getLast? = some '\r' then p.dropLast else p)

/-- The line loop of `sequence::is_sequence_diagram`. -/
def isSeqAux : List Str → Bool
  | [] => false
  | l :: ls =>
    let t := trimStr l
    if t = [] ∨ "%%".data.isPrefixOf t then isSeqAux ls
    else "sequenceDiagram".data.isPrefixOf t

/-- `sequence::is_sequence_diagram`: the first line that is neither blank
nor a comment decides. -/
def is_sequence_diagram (input : Str) : Bool := isSeqAux (rustLines input)

/-- `render_diagram` (`lib.rs`): pick the diagram type as
`diagram_factory` does (on the trimmed input), then parse and render. -/
def render_diagram (W : Str → Nat) (ord : List (Int × Int) → List (Int × Int))
    (fuel : Nat) (input : Str) (config : Config) : Except Str Str :=
  if is_sequence_diagram (trimStr input) then
    match parse input with
    | Except.error e => Except.error e
    | Except.ok d => render W d config
  else
    match mermaid_to_graph_properties input "cli".data config with
    | Except.error e => Except.error e
    | Except.ok properties => graph_render ord fuel properties config

/-! ### Theorems -/

theorem alookup_aupsert_self {α β : Type} [DecidableEq α] (m : AList α β) (k : α) (v : β) :
    alookup (aupsert m k v) k = some v := by
  induction m with
  | nil => simp [aupsert, alookup]
  | cons e rest ih =>
    by_cases h : e.1 = k
    · simp [aupsert, h, alookup]
    · simp [aupsert, h, alookup, ih]

theorem alookup_aupsert_ne {α β : Type} [DecidableEq α] (m : AList α β) (k k' : α) (v : β)
    (h : k ≠ k') : alookup (aupsert m k v) k' = alookup m k' := by
  induction m with
  | nil => simp [aupsert, alookup, h]
  | cons e rest ih =>
    by_cases he : e.1 = k
    · simp [aupsert, he, alookup, h]
    · simp [aupsert, he, alookup, ih]

theorem acontains_iff_mem_keys {α β : Type} [DecidableEq α] (m : AList α β) (k : α) :
    acontains m k = true ↔ k ∈ m.map Prod.fst := by
  induction m with
  | nil => simp [acontains, alookup]
  | cons e rest ih =>
    by_cases he : e.1 = k
    · simp [acontains, alookup, he]
    · simpa [acontains, alookup, he, Ne.symm he] using ih

theorem reserve_fold_lookup_of_not_mem (cells : List GridCoord) (g : AList GridCoord Nat)
    (v : Nat) (cell : GridCoord) (h : cell ∉ cells) :
    alookup (cells.foldl (fun g c => aupsert g c v) g) cell = alookup g cell := by
  induction cells generalizing g with
  | nil => rfl
  | cons c rest ih =>
    simp only [List.mem_cons, not_or] at h
    simp only [List.foldl_cons]
    rw [ih _ h.2, alookup_aupsert_ne _ _ _ _ (fun hc => h.1 hc.symm)]

theorem reserve_fold_lookup_of_mem (cells : List GridCoord) (g : AList GridCoord Nat)
    (v : Nat) (cell : GridCoord) (h : cell ∈ cells) :
    alookup (cells.foldl (fun g c => aupsert g c v) g) cell = some v := by
  induction cells generalizing g with
  | nil => cases h
  | cons c rest ih =>
    simp only [List.foldl_cons]
    by_cases hr : cell ∈ rest
    · exact ih _ hr
    · have hc : cell = c := by
        rcases List.mem_cons.mp h with h1 | h2
        · exact h1
        · exact absurd h2 hr
      rw [reserve_fold_lookup_of_not_mem _ _ _ _ hr, hc, alookup_aupsert_self]

theorem shiftIter_succ (dir : Str) (c : GridCoord) (k : Nat) :
    shiftIter dir c (k + 1) = shiftIter dir (reserve_shift dir c) k := rfl

theorem reserve_origin_spec (dir : Str) (grid : AList GridCoord Nat) (fuel : Nat)
    (req c : GridCoord) (h : reserve_origin dir grid fuel req = some c) :
    ∃ k, c = shiftIter dir req k ∧
      (∀ j < k, acontains grid (shiftIter dir req j) = true) ∧
      acontains grid c = false := by
  induction fuel generalizing req with
  | zero => simp [reserve_origin] at h
  | succ f ih =>
    rw [reserve_origin] at h
    by_cases hc : acontains grid req = true
    · rw [if_pos hc] at h
      obtain ⟨k, hk, hall, hfree⟩ := ih _ h
      refine ⟨k + 1, by rw [shiftIter_succ]; exact hk, ?_, hfree⟩
      intro j hj
      match j with
      | 0 => exact hc
      | j' + 1 =>
        rw [shiftIter_succ]
        exact hall j' (by omega)
    · rw [if_neg hc] at h
      have hreq : req = c := by injection h
      subst hreq
      exact ⟨0, rfl, by omega, eq_false_of_ne_true hc⟩

theorem mem_blockCells_iff (c cell : GridCoord) :
    cell ∈ blockCells c ↔
      (c.x ≤ cell.x ∧ cell.x ≤ c.x + 2 ∧ c.y ≤ cell.y ∧ cell.y ≤ c.y + 2) := by
  constructor
  · intro h
    simp only [blockCells, List.mem_cons, List.not_mem_nil, or_false] at h
    rcases h with h | h | h | h | h | h | h | h | h <;>
      (subst h; dsimp only; refine ⟨?_, ?_, ?_, ?_⟩ <;> omega)
  · intro ⟨h1, h2, h3, h4⟩
    have hx : cell.x = c.x ∨ cell.x = c.x + 1 ∨ cell.x = c.x + 2 := by omega
    have hy : cell.y = c.y ∨ cell.y = c.y + 1 ∨ cell.y = c.y + 2 := by omega
    have hc : cell = ⟨cell.x, cell.y⟩ := rfl
    simp only [blockCells, List.mem_cons, List.not_mem_nil, or_false]
    rcases hx with hx | hx | hx <;> rcases hy with hy | hy | hy <;>
      (rw [hc, hx, hy]; tauto)

theorem alignedCoord_shiftIter (dir : Str) (c : GridCoord) (k : Nat)
    (h : alignedCoord c) : alignedCoord (shiftIter dir c k) := by
  induction k generalizing c with
  | zero => exact h
  | succ j ih =>
    rw [shiftIter_succ]
    apply ih
    obtain ⟨hx, hy⟩ := h
    unfold reserve_shift alignedCoord
    by_cases hd : dir = "LR".data
    · simp only [hd, if_true]
      exact ⟨hx, by omega⟩
    · simp only [hd, if_false]
      exact ⟨by omega, hy⟩

/-- C3 counterexample: with cell (1,0) owned by node 0 and the origin (0,0)
free, `reserve_spot_in_grid` keeps the requested origin (0,0) even though
cell (1,0) lies inside the requested 3×3 block — the loop tests only the
origin cell, not the whole block — and the reservation overwrites node 0's
ownership of (1,0) with node 1. -/
theorem c3_reserve_block_counterexample :
    (reserve_spot_in_grid "LR".data [(⟨1, 0⟩, 0)] 1 ⟨0, 0⟩ 10).map Prod.fst =
      some ⟨0, 0⟩ ∧
    (⟨1, 0⟩ : GridCoord) ∈ blockCells ⟨0, 0⟩ ∧
    acontains [(⟨1, 0⟩, 0)] (⟨1, 0⟩ : GridCoord) = true ∧
    (reserve_spot_in_grid "LR".data [(⟨1, 0⟩, 0)] 1 ⟨0, 0⟩ 10).map
      (fun r => alookup r.2 ⟨1, 0⟩) = some (some 1) := by decide

/-- C3 (amended): `reserve_spot_in_grid` keeps shifting the requested
origin along the secondary axis by 4 while the requested origin cell (not
the whole 3×3 block) is occupied, then marks all 9 cells of the block as
owned by the node and leaves every other cell unchanged.  Under the
occupancy invariant maintained by `create_mapping` — every occupied cell
belongs to the block of an occupied origin aligned to the 4-cell pitch —
and for a pitch-aligned request, the chosen block is entirely free
beforehand, so no cell of the occupancy map ends up owned by two nodes. -/
theorem c3_reserve_spot_in_grid_atomic
    (dir : Str) (grid : AList GridCoord Nat) (node_idx : Nat) (req c : GridCoord)
    (g' : AList GridCoord Nat) (fuel : Nat)
    (h : reserve_spot_in_grid dir grid node_idx req fuel = some (c, g'))
    (hinv : alignedBlocks grid) (halign : alignedCoord req) :
    (∃ k, c = shiftIter dir req k ∧
        (∀ j < k, acontains grid (shiftIter dir req j) = true) ∧
        acontains grid c = false) ∧
    (∀ cell ∈ blockCells c, alookup g' cell = some node_idx) ∧
    (∀ cell, cell ∉ blockCells c → alookup g' cell = alookup grid cell) ∧
    (∀ cell ∈ blockCells c, acontains grid cell = false) := by
  unfold reserve_spot_in_grid at h
  cases horig : reserve_origin dir grid fuel req with
  | none => rw [horig] at h; cases h
  | some c0 =>
    rw [horig] at h
    have hc0 : c0 = c := by injection h with h'; exact congrArg Prod.fst h'
    subst hc0
    have hg' : (blockCells c0).foldl (fun g cell => aupsert g cell node_idx) grid = g' := by
      injection h with h'; exact congrArg Prod.snd h'
    obtain ⟨k, hk, hall, hfree⟩ := reserve_origin_spec _ _ _ _ _ horig
    have hcalign : alignedCoord c0 := hk ▸ alignedCoord_shiftIter dir req k halign
    have hblockfree : ∀ cell ∈ blockCells c0, acontains grid cell = false := by
      intro cell hcell
      by_contra hcon
      have hcon' : acontains grid cell = true := by
        cases hb : acontains grid cell with
        | false => exact absurd hb hcon
        | true => rfl
      have hmem : cell ∈ grid.map Prod.fst := (acontains_iff_mem_keys grid cell).mp hcon'
      obtain ⟨e, he, heq⟩ := List.mem_map.mp hmem
      obtain ⟨o, hokey, hoalign, hoblk⟩ := hinv e he
      rw [heq] at hoblk
      have h1 := (mem_blockCells_iff c0 cell).mp hcell
      have h2 := (mem_blockCells_iff o cell).mp hoblk
      have hoc : o = c0 := by
        obtain ⟨ox, oy⟩ := o
        obtain ⟨cx, cy⟩ := c0
        obtain ⟨hox, hoy⟩ := hoalign
        obtain ⟨hcx, hcy⟩ := hcalign
        dsimp only at *
        simp only [GridCoord.mk.injEq]
        exact ⟨by omega, by omega⟩
      rw [hoc] at hokey
      rw [(acontains_iff_mem_keys grid c0).mpr hokey] at hfree
      cases hfree
    refine ⟨⟨k, hk, hall, hfree⟩, ?_, ?_, hblockfree⟩
    · intro cell hcell
      rw [← hg']
      exact reserve_fold_lookup_of_mem _ _ _ _ hcell
    · intro cell hcell
      rw [← hg']
      exact reserve_fold_lookup_of_not_mem _ _ _ _ hcell

/-- Witness for C3: node 1 requests the occupied aligned origin (0,0) in a
`TD` graph whose grid holds node 0's block at (0,0); the reservation lands
on the shifted origin (4,0). -/
theorem c3_reserve_spot_in_grid_atomic_witness :
    (∃ k, (⟨4, 0⟩ : GridCoord) = shiftIter "TD".data ⟨0, 0⟩ k ∧
        (∀ j < k, acontains c3grid (shiftIter "TD".data ⟨0, 0⟩ j) = true) ∧
        acontains c3grid ⟨4, 0⟩ = false) ∧
    (∀ cell ∈ blockCells ⟨4, 0⟩, alookup c3gridAfter cell = some 1) ∧
    (∀ cell, cell ∉ blockCells ⟨4, 0⟩ → alookup c3gridAfter cell = alookup c3grid cell) ∧
    (∀ cell ∈ blockCells ⟨4, 0⟩, acontains c3grid cell = false) :=
  c3_reserve_spot_in_grid_atomic "TD".data c3grid 1 ⟨0, 0⟩ ⟨4, 0⟩ c3gridAfter 10
    (by decide) (by decide) (by decide)

theorem aupsert_isSome {α β : Type} [DecidableEq α] (m : AList α β) (k k' : α) (v : β)
    (h : (alookup m k').isSome) : (alookup (aupsert m k v) k').isSome := by
  by_cases hk : k = k'
  · subst hk; rw [alookup_aupsert_self]; rfl
  · rwa [alookup_aupsert_ne _ _ _ _ hk]

theorem popMin_mem (l : List (GridCoord × Int)) (q : GridCoord × Int)
    (rest : List (GridCoord × Int)) (h : popMin l = some (q, rest)) : q ∈ l := by
  induction l generalizing q rest with
  | nil => simp [popMin] at h
  | cons x xs ih =>
    rw [popMin] at h
    cases hm : popMin xs with
    | none =>
      rw [hm] at h
      injection h with h'
      cases h'
      simp
    | some mr =>
      obtain ⟨m, mrest⟩ := mr
      rw [hm] at h
      dsimp only at h
      by_cases hle : x.2 ≤ m.2
      · rw [if_pos hle] at h
        injection h with h'
        cases h'
        simp
      · rw [if_neg hle] at h
        injection h with h'
        cases h'
        exact List.mem_cons_of_mem x (ih q mrest hm)

theorem popMin_rest_mem (l : List (GridCoord × Int)) (q : GridCoord × Int)
    (rest : List (GridCoord × Int)) (h : popMin l = some (q, rest)) :
    ∀ z ∈ rest, z ∈ l := by
  induction l generalizing q rest with
  | nil => simp [popMin] at h
  | cons x xs ih =>
    rw [popMin] at h
    cases hm : popMin xs with
    | none =>
      rw [hm] at h
      injection h with h'
      cases h'
      intro z hz
      cases hz
    | some mr =>
      obtain ⟨m, mrest⟩ := mr
      rw [hm] at h
      dsimp only at h
      by_cases hle : x.2 ≤ m.2
      · rw [if_pos hle] at h
        injection h with h'
        cases h'
        intro z hz
        exact List.mem_cons_of_mem x hz
      · rw [if_neg hle] at h
        injection h with h'
        have hr : x :: mrest = rest := congrArg Prod.snd h'
        intro z hz
        rw [← hr] at hz
        rcases List.mem_cons.mp hz with hz | hz
        · exact hz ▸ List.mem_cons_self x xs
        · exact List.mem_cons_of_mem x (ih m mrest hm z hz)

theorem astarDirs_unitStep (current dir : GridCoord) (h : dir ∈ astarDirs) :
    unitStep current (astarNext current dir) := by
  unfold unitStep astarNext
  rcases List.mem_cons.mp h with h | h
  · subst h; dsimp; rw [add_sub_cancel_left, add_sub_cancel_left]; decide
  rcases List.mem_cons.mp h with h | h
  · subst h; dsimp; rw [add_sub_cancel_left, add_sub_cancel_left]; decide
  rcases List.mem_cons.mp h with h | h
  · subst h; dsimp; rw [add_sub_cancel_left, add_sub_cancel_left]; decide
  rcases List.mem_cons.mp h with h | h
  · subst h; dsimp; rw [add_sub_cancel_left, add_sub_cancel_left]; decide
  · cases h

theorem astarStep_inv (grid : AList GridCoord Nat) (fr tgt current : GridCoord)
    (s : AState) (dir : GridCoord) (hdir : dir ∈ astarDirs)
    (hinv : AInv grid fr tgt s) (hcur : (alookup s.came current).isSome) :
    AInv grid fr tgt (astarStep grid tgt current s dir) ∧
      (alookup (astarStep grid tgt current s dir).came current).isSome := by
  obtain ⟨inv1, inv2, inv3, inv4, inv5⟩ := hinv
  unfold astarStep
  by_cases hfree : is_free_in_grid grid (astarNext current dir) = true ∨
      astarNext current dir = tgt
  case neg =>
    rw [if_neg hfree]
    exact ⟨⟨inv1, inv2, inv3, inv4, inv5⟩, hcur⟩
  rw [if_pos hfree]
  have hnc : 1 ≤ (alookup s.cost current).getD 0 + 1 := by
    cases hv : alookup s.cost current with
    | none => simp
    | some v => have := inv4 current v hv; simp; omega
  by_cases hbetter : astarBetter s current (astarNext current dir) = true
  case neg =>
    rw [if_neg (by simpa using hbetter)]
    exact ⟨⟨inv1, inv2, inv3, inv4, inv5⟩, hcur⟩
  rw [if_pos (by simpa using hbetter)]
  have hne : astarNext current dir ≠ fr := by
    intro heq
    unfold astarBetter at hbetter
    rw [heq, inv5] at hbetter
    simp at hbetter
    omega
  refine ⟨⟨?_, ?_, ?_, ?_, ?_⟩, aupsert_isSome _ _ _ _ hcur⟩
  · rw [alookup_aupsert_ne _ _ _ _ hne]; exact inv1
  · intro b p hb
    by_cases hbn : astarNext current dir = b
    · subst hbn
      rw [alookup_aupsert_self] at hb
      injection hb with hb'
      constructor
      · intro hpn
        rw [hpn] at hb'
        cases hb'
      · intro a hpa
        rw [hpa] at hb'
        injection hb' with h''
        subst h''
        exact ⟨astarDirs_unitStep current dir hdir, hfree, aupsert_isSome _ _ _ _ hcur⟩
    · rw [alookup_aupsert_ne _ _ _ _ hbn] at hb
      obtain ⟨h1, h2⟩ := inv2 b p hb
      refine ⟨h1, fun a hpa => ?_⟩
      obtain ⟨hu, hok, hs⟩ := h2 a hpa
      exact ⟨hu, hok, aupsert_isSome _ _ _ _ hs⟩
  · intro item hitem
    rcases List.mem_append.mp hitem with hitem | hitem
    · exact aupsert_isSome _ _ _ _ (inv3 item hitem)
    · have hit : item = (astarNext current dir,
          (alookup s.cost current).getD 0 + 1 + heuristic (astarNext current dir) tgt) := by
        simpa using hitem
      rw [hit]
      simp only
      rw [alookup_aupsert_self]
      rfl
  · intro b v hb
    by_cases hbn : astarNext current dir = b
    · subst hbn
      rw [alookup_aupsert_self] at hb
      injection hb with hb'
      omega
    · rw [alookup_aupsert_ne _ _ _ _ hbn] at hb
      exact inv4 b v hb
  · rw [alookup_aupsert_ne _ _ _ _ hne]; exact inv5

theorem astarFold_inv (grid : AList GridCoord Nat) (fr tgt current : GridCoord)
    (dirs : List GridCoord) (hdirs : ∀ d ∈ dirs, d ∈ astarDirs) :
    ∀ s : AState, AInv grid fr tgt s → (alookup s.came current).isSome →
      AInv grid fr tgt (dirs.foldl (astarStep grid tgt current) s) := by
  induction dirs with
  | nil => intro s hinv _; exact hinv
  | cons d rest ih =>
    intro s hinv hcur
    have hd : d ∈ astarDirs := hdirs d (List.mem_cons_self d rest)
    obtain ⟨hinv', hcur'⟩ := astarStep_inv grid fr tgt current s d hd hinv hcur
    exact ih (fun d' hd' => hdirs d' (List.mem_cons_of_mem d hd')) _ hinv' hcur'

theorem astarExpand_inv (grid : AList GridCoord Nat) (fr tgt current : GridCoord)
    (st : AState) (hinv : AInv grid fr tgt st)
    (hcur : (alookup st.came current).isSome) :
    AInv grid fr tgt (astarExpand grid tgt current st) :=
  astarFold_inv grid fr tgt current astarDirs (fun _ hd => hd) st hinv hcur

theorem reconstruct_spec (grid : AList GridCoord Nat) (fr tgt : GridCoord)
    (came : AList GridCoord (Option GridCoord))
    (h2 : ∀ b p, alookup came b = some p →
      (p = none → b = fr) ∧
      ∀ a, p = some a → unitStep a b ∧ (is_free_in_grid grid b = true ∨ b = tgt) ∧
        (alookup came a).isSome) :
    ∀ (fuel : Nat) (c : GridCoord) (acc l : List GridCoord),
      (alookup came c).isSome →
      List.Chain' unitStep (c :: acc) →
      (∀ b ∈ acc, is_free_in_grid grid b = true ∨ b = tgt) →
      reconstruct came fuel c acc = some l →
      l.head? = some fr ∧ List.Chain' unitStep l ∧
        (∀ b ∈ l.tail, is_free_in_grid grid b = true ∨ b = tgt) ∧
        l.getLast? = (c :: acc).getLast? := by
  intro fuel
  induction fuel with
  | zero => intro c acc l _ _ _ hrec; simp [reconstruct] at hrec
  | succ f ih =>
    intro c acc l hsome hchain hacc hrec
    rw [reconstruct] at hrec
    obtain ⟨p, hp⟩ := Option.isSome_iff_exists.mp hsome
    rw [hp] at hrec
    cases p with
    | none =>
      dsimp only [Option.bind, id] at hrec
      injection hrec with hrec'
      have hcfr : c = fr := (h2 c none hp).1 rfl
      refine ⟨?_, ?_, ?_, ?_⟩
      · rw [← hrec']; simp [hcfr]
      · rw [← hrec']; exact hchain
      · intro b hb
        rw [← hrec'] at hb
        exact hacc b hb
      · rw [← hrec']
    | some a =>
      dsimp only [Option.bind, id] at hrec
      obtain ⟨hu, hok, hsa⟩ := (h2 c (some a) hp).2 a rfl
      have hres := ih a (c :: acc) l hsa
        (List.chain'_cons.mpr ⟨hu, hchain⟩)
        (fun b hb => by
          rcases List.mem_cons.mp hb with hb | hb
          · exact hb ▸ hok
          · exact hacc b hb)
        hrec
      obtain ⟨ihhead, ihchain, ihtail, ihlast⟩ := hres
      refine ⟨ihhead, ihchain, ihtail, ?_⟩
      rw [ihlast, List.getLast?_cons_cons]

theorem astarLoop_spec (grid : AList GridCoord Nat) (fr tgt : GridCoord) :
    ∀ (fuel : Nat) (st : AState) (path : List GridCoord),
      AInv grid fr tgt st →
      astarLoop grid tgt fuel st = Except.ok path →
      path.head? = some fr ∧ path.getLast? = some tgt ∧
        List.Chain' unitStep path ∧
        ∀ b ∈ path.tail, is_free_in_grid grid b = true ∨ b = tgt := by
  intro fuel
  induction fuel with
  | zero => intro st path _ h; simp [astarLoop] at h
  | succ f ih =>
    intro st path hinv h
    rw [astarLoop] at h
    cases hpop : popMin st.pq with
    | none =>
      rw [hpop] at h
      exact Except.noConfusion h
    | some pr =>
      obtain ⟨item, rest⟩ := pr
      rw [hpop] at h
      dsimp only at h
      by_cases htgt : item.1 = tgt
      · rw [if_pos htgt] at h
        cases hrec : reconstruct st.came (asize st.came + 1) item.1 [] with
        | none =>
          rw [hrec] at h
          exact Except.noConfusion h
        | some p =>
          rw [hrec] at h
          injection h with h'
          obtain ⟨inv1, inv2, inv3, inv4, inv5⟩ := hinv
          have hsome : (alookup st.came item.1).isSome := inv3 item (popMin_mem _ _ _ hpop)
          have hspec := reconstruct_spec grid fr tgt st.came inv2
            (asize st.came + 1) item.1 [] p hsome (List.chain'_singleton _)
            (fun b hb => by cases hb) hrec
          obtain ⟨hh, hc, ht, hl⟩ := hspec
          subst h'
          refine ⟨hh, ?_, hc, ht⟩
          rw [hl]
          simp [htgt]
      · rw [if_neg htgt] at h
        apply ih _ path ?_ h
        have hinv' : AInv grid fr tgt { st with pq := rest } := by
          obtain ⟨inv1, inv2, inv3, inv4, inv5⟩ := hinv
          exact ⟨inv1, inv2, fun it hit => inv3 it (popMin_rest_mem _ _ _ hpop it hit),
            inv4, inv5⟩
        have hcur : (alookup ({ st with pq := rest } : AState).came item.1).isSome := by
          obtain ⟨_, _, inv3, _, _⟩ := hinv
          exact inv3 item (popMin_mem _ _ _ hpop)
        exact astarExpand_inv grid fr tgt item.1 _ hinv' hcur

/-- C4: whenever the A* search `get_path` returns a path, that path starts
at the start cell, ends at the target cell, moves by exactly one
axis-aligned unit step between consecutive cells, and every cell other than
the start is either the target or a traversable cell (non-negative
coordinates, not owned in the occupancy grid). -/
theorem c4_get_path_valid (grid : AList GridCoord Nat) (fr tgt : GridCoord)
    (fuel : Nat) (path : List GridCoord)
    (h : get_path grid fr tgt fuel = Except.ok path) :
    path.head? = some fr ∧ path.getLast? = some tgt ∧
      List.Chain' unitStep path ∧
      ∀ cell ∈ path.tail, is_free_in_grid grid cell = true ∨ cell = tgt := by
  apply astarLoop_spec grid fr tgt fuel _ path ?_ h
  refine ⟨?_, ?_, ?_, ?_, ?_⟩
  · rw [alookup_aupsert_self]
  · intro b p hb
    by_cases hbf : fr = b
    · subst hbf
      rw [alookup_aupsert_self] at hb
      injection hb with hb'
      subst hb'
      exact ⟨fun _ => rfl, fun a ha => Option.noConfusion ha⟩
    · rw [alookup_aupsert_ne _ _ _ _ hbf] at hb
      exact absurd hb (by simp [alookup])
  · intro item hitem
    have hi : item = (fr, 0) := by simpa using hitem
    rw [hi]
    simp only
    rw [alookup_aupsert_self]
    rfl
  · intro b v hb
    by_cases hbf : fr = b
    · subst hbf
      rw [alookup_aupsert_self] at hb
      injection hb with hb'
      omega
    · rw [alookup_aupsert_ne _ _ _ _ hbf] at hb
      exact absurd hb (by simp [alookup])
  · rw [alookup_aupsert_self]

/-- Witness for C4: on the empty grid the search from (0,0) to (2,0)
returns the straight path (0,0), (1,0), (2,0). -/
theorem c4_get_path_valid_witness :
    ([⟨0, 0⟩, ⟨1, 0⟩, ⟨2, 0⟩] : List GridCoord).head? = some ⟨0, 0⟩ ∧
    ([⟨0, 0⟩, ⟨1, 0⟩, ⟨2, 0⟩] : List GridCoord).getLast? = some ⟨2, 0⟩ ∧
    List.Chain' unitStep [⟨0, 0⟩, ⟨1, 0⟩, ⟨2, 0⟩] ∧
    ∀ cell ∈ ([⟨0, 0⟩, ⟨1, 0⟩, ⟨2, 0⟩] : List GridCoord).tail,
      is_free_in_grid [] cell = true ∨ cell = ⟨2, 0⟩ :=
  c4_get_path_valid [] ⟨0, 0⟩ ⟨2, 0⟩ 10 [⟨0, 0⟩, ⟨1, 0⟩, ⟨2, 0⟩] (by rfl)

theorem natToStrAux_ne_colon (fuel : Nat) : ∀ (n : Nat), ∀ c ∈ natToStrAux fuel n, c ≠ ':' := by
  induction fuel with
  | zero => intro n c hc; cases hc
  | succ f ih =>
    intro n c hc
    rw [natToStrAux] at hc
    by_cases h : n < 10
    · rw [if_pos h] at hc
      simp only [List.mem_singleton] at hc
      subst hc
      interval_cases n <;> decide
    · rw [if_neg h] at hc
      rcases List.mem_append.mp hc with hc | hc
      · exact ih (n / 10) c hc
      · simp only [List.mem_singleton] at hc
        subst hc
        have h10 : n % 10 < 10 := Nat.mod_lt _ (by omega)
        set m := n % 10 with hm
        interval_cases m <;> decide

theorem natToStr_ne_colon (n : Nat) : ∀ c ∈ natToStr n, c ≠ ':' :=
  natToStrAux_ne_colon (n + 1) n

theorem colon_split {d1 d2 u v : Str} (h1 : ∀ c ∈ d1, c ≠ ':') (h2 : ∀ c ∈ d2, c ≠ ':')
    (heq : d1 ++ ':' :: u = d2 ++ ':' :: v) : d1 = d2 ∧ u = v := by
  induction d1 generalizing d2 with
  | nil =>
    cases d2 with
    | nil => simpa using heq
    | cons c2 r2 =>
      simp only [List.nil_append, List.cons_append, List.cons.injEq] at heq
      exact absurd heq.1.symm (h2 c2 (by simp))
  | cons c1 r1 ih =>
    cases d2 with
    | nil =>
      simp only [List.nil_append, List.cons_append, List.cons.injEq] at heq
      exact absurd heq.1 (h1 c1 (by simp))
    | cons c2 r2 =>
      simp only [List.cons_append, List.cons.injEq] at heq
      obtain ⟨hc, hr⟩ := heq
      obtain ⟨hd, hu⟩ := ih (fun c hc' => h1 c (List.mem_cons_of_mem _ hc'))
        (fun c hc' => h2 c (List.mem_cons_of_mem _ hc')) hr
      exact ⟨by rw [hc, hd], hu⟩

theorem dupMsg_ne_synMsg (n m : Nat) (id t : Str) : dupMsg n id ≠ synMsg m t := by
  intro h
  unfold dupMsg synMsg at h
  simp only [List.append_assoc, List.cons_append, List.nil_append, List.cons.injEq,
    true_and] at h
  obtain ⟨_, hu⟩ := colon_split (natToStr_ne_colon n) (natToStr_ne_colon m) h
  simp at hu

theorem ne_of_headD {a b : Str} (h : a.headD ' ' ≠ b.headD ' ') : a ≠ b :=
  fun he => h (he ▸ rfl)

theorem dupMsg_headD (n : Nat) (id : Str) : (dupMsg n id).headD ' ' = 'l' := rfl

theorem synMsg_headD (n : Nat) (t : Str) : (synMsg n t).headD ' ' = 'l' := rfl

theorem acontains_aupsert_iff {α β : Type} [DecidableEq α] (m : AList α β) (k id : α)
    (v : β) : acontains (aupsert m k v) id = true ↔ (acontains m id = true ∨ id = k) := by
  unfold acontains
  by_cases h : k = id
  · subst h
    rw [alookup_aupsert_self]
    simp
  · rw [alookup_aupsert_ne _ _ _ _ h]
    constructor
    · exact Or.inl
    · rintro (hh | hh)
      · exact hh
      · exact absurd hh.symm h

theorem get_or_insert_keys (id0 : Str) (d : SequenceDiagram) (pmap : AList Str Nat) :
    ∀ id, acontains (get_or_insert_participant id0 d pmap).2.2 id = true ↔
      (acontains pmap id = true ∨ id = id0) := by
  intro id
  unfold get_or_insert_participant
  cases hl : alookup pmap id0 with
  | some idx =>
    simp only
    constructor
    · exact Or.inl
    · rintro (hh | hh)
      · exact hh
      · subst hh; unfold acontains; rw [hl]; rfl
  | none => exact acontains_aupsert_iff pmap id0 id _

theorem get_or_insert_model (id0 : Str) (d : SequenceDiagram) (pmap : AList Str Nat) :
    (∃ ext, (get_or_insert_participant id0 d pmap).2.1.participants =
        d.participants ++ ext) ∧
    (get_or_insert_participant id0 d pmap).2.1.messages = d.messages ∧
    (get_or_insert_participant id0 d pmap).2.1.autonumber = d.autonumber := by
  unfold get_or_insert_participant
  cases hl : alookup pmap id0 with
  | some idx => exact ⟨⟨[], by simp⟩, rfl, rfl⟩
  | none => exact ⟨⟨_, rfl⟩, rfl, rfl⟩

theorem get_or_insert_size (id0 : Str) (d : SequenceDiagram) (pmap : AList Str Nat)
    (h : asize pmap ≤ d.participants.length) :
    asize (get_or_insert_participant id0 d pmap).2.2 ≤
      (get_or_insert_participant id0 d pmap).2.1.participants.length := by
  have haup : ∀ (m : AList Str Nat) (k : Str) (v : Nat),
      asize (aupsert m k v) ≤ asize m + 1 := by
    intro m k v
    induction m with
    | nil => simp [aupsert, asize]
    | cons e rest ih =>
      by_cases he : e.1 = k
      · simp [aupsert, he, asize]
      · simp only [aupsert, he, if_false]
        simp only [asize, List.length_cons] at ih ⊢
        omega
  unfold get_or_insert_participant
  cases hl : alookup pmap id0 with
  | some idx => exact h
  | none =>
    simp only [List.length_append, List.length_cons, List.length_nil]
    have := haup pmap id0 d.participants.length
    omega

theorem get_or_insert_nonempty (id0 : Str) (d : SequenceDiagram) (pmap : AList Str Nat)
    (h : alookup pmap id0 = none) :
    (get_or_insert_participant id0 d pmap).2.1.participants ≠ [] := by
  unfold get_or_insert_participant
  rw [h]
  simp

theorem seqStep_cases (st : SequenceDiagram × AList Str Nat) (idx : Nat) (l : Str) :
    (trimStr l = [] ∧ seqStep st idx l = Except.ok st) ∨
    (trimStr l ≠ [] ∧ autonumberMatch (trimStr l) = true ∧
      seqStep st idx l = Except.ok ({ st.1 with autonumber := true }, st.2)) ∨
    (∃ id lbl, trimStr l ≠ [] ∧ autonumberMatch (trimStr l) = false ∧
      participantMatch (trimStr l) = some (id, lbl) ∧
      ((acontains st.2 id = true ∧
          seqStep st idx l = Except.error (dupMsg (idx + 2) id)) ∨
       (acontains st.2 id = false ∧ seqStep st idx l = Except.ok
          ({ st.1 with participants := st.1.participants ++
              [⟨id, trimQuotes (if lbl = [] then id else lbl), st.1.participants.length⟩] },
            aupsert st.2 id st.1.participants.length)))) ∨
    (∃ fid ar tid lbl, trimStr l ≠ [] ∧ autonumberMatch (trimStr l) = false ∧
      participantMatch (trimStr l) = none ∧
      messageMatch (trimStr l) = some (fid, ar, tid, lbl) ∧
      seqStep st idx l = Except.ok
        ({ (get_or_insert_participant tid
              (get_or_insert_participant fid st.1 st.2).2.1
              (get_or_insert_participant fid st.1 st.2).2.2).2.1 with
           messages :=
             (get_or_insert_participant tid
                (get_or_insert_participant fid st.1 st.2).2.1
                (get_or_insert_participant fid st.1 st.2).2.2).2.1.messages ++
             [⟨(get_or_insert_participant fid st.1 st.2).1,
               (get_or_insert_participant tid
                  (get_or_insert_participant fid st.1 st.2).2.1
                  (get_or_insert_participant fid st.1 st.2).2.2).1,
               trimStr lbl,
               if ar = "->>".data then ArrowType.solid else ArrowType.dotted,
               if (get_or_insert_participant tid
                    (get_or_insert_participant fid st.1 st.2).2.1
                    (get_or_insert_participant fid st.1 st.2).2.2).2.1.autonumber then
                 (get_or_insert_participant tid
                    (get_or_insert_participant fid st.1 st.2).2.1
                    (get_or_insert_participant fid st.1 st.2).2.2).2.1.messages.length + 1
               else 0⟩] },
          (get_or_insert_participant tid
             (get_or_insert_participant fid st.1 st.2).2.1
             (get_or_insert_participant fid st.1 st.2).2.2).2.2)) ∨
    (badLine l ∧ seqStep st idx l = Except.error (synMsg (idx + 2) (trimStr l))) := by
  by_cases ht : trimStr l = []
  · exact Or.inl ⟨ht, by simp [seqStep, ht]⟩
  by_cases ha : autonumberMatch (trimStr l) = true
  · exact Or.inr (Or.inl ⟨ht, ha, by simp [seqStep, ht, ha]⟩)
  have ha' : autonumberMatch (trimStr l) = false := eq_false_of_ne_true ha
  cases hp : participantMatch (trimStr l) with
  | some pr =>
    obtain ⟨id, lbl⟩ := pr
    refine Or.inr (Or.inr (Or.inl ⟨id, lbl, ht, ha', rfl, ?_⟩))
    by_cases hc : acontains st.2 id = true
    · exact Or.inl ⟨hc, by simp [seqStep, ht, ha', hp, hc]⟩
    · exact Or.inr ⟨eq_false_of_ne_true hc, by simp [seqStep, ht, ha', hp, hc]⟩
  | none =>
    cases hm : messageMatch (trimStr l) with
    | some q =>
      obtain ⟨fid, ar, tid, lbl⟩ := q
      exact Or.inr (Or.inr (Or.inr (Or.inl ⟨fid, ar, tid, lbl, ht, ha', rfl, rfl,
        by simp [seqStep, ht, ha', hp, hm]⟩)))
    | none =>
      exact Or.inr (Or.inr (Or.inr (Or.inr ⟨⟨ht, ha', hp, hm⟩,
        by simp [seqStep, ht, ha', hp, hm]⟩)))

theorem lineIds_blank (l : Str) (ht : trimStr l = []) : lineIds l = [] := by
  simp [lineIds, ht]

theorem lineIds_auto (l : Str) (ha : autonumberMatch (trimStr l) = true) :
    lineIds l = [] := by
  unfold lineIds
  by_cases ht : trimStr l = [] <;> simp [ht, ha]

theorem lineIds_participant (l : Str) (id lbl : Str) (ht : trimStr l ≠ [])
    (ha : autonumberMatch (trimStr l) = false)
    (hp : participantMatch (trimStr l) = some (id, lbl)) : lineIds l = [id] := by
  simp [lineIds, ht, ha, hp]

theorem lineIds_message (l : Str) (fid ar tid lbl : Str) (ht : trimStr l ≠ [])
    (ha : autonumberMatch (trimStr l) = false)
    (hp : participantMatch (trimStr l) = none)
    (hm : messageMatch (trimStr l) = some (fid, ar, tid, lbl)) :
    lineIds l = [fid, tid] := by
  simp [lineIds, ht, ha, hp, hm]

theorem seqStep_ok_keys (P : List Str) (st : SequenceDiagram × AList Str Nat)
    (idx : Nat) (l : Str) (st' : SequenceDiagram × AList Str Nat)
    (hkeys : ∀ id, acontains st.2 id = true ↔ id ∈ P)
    (h : seqStep st idx l = Except.ok st') :
    ∀ id, acontains st'.2 id = true ↔ id ∈ P ++ lineIds l := by
  intro id
  rcases seqStep_cases st idx l with ⟨ht, hs⟩ | ⟨ht, ha, hs⟩ |
    ⟨id0, lbl, ht, ha, hp, ⟨hc, hs⟩ | ⟨hc, hs⟩⟩ |
    ⟨fid, ar, tid, lbl, ht, ha, hp, hm, hs⟩ | ⟨hbad, hs⟩
  · rw [h] at hs
    injection hs with hs'
    rw [hs', lineIds_blank l ht]
    simpa using hkeys id
  · rw [h] at hs
    injection hs with hs'
    rw [hs', lineIds_auto l ha]
    simpa using hkeys id
  · rw [h] at hs; exact Except.noConfusion hs
  · rw [h] at hs
    injection hs with hs'
    rw [hs', lineIds_participant l id0 lbl ht ha hp]
    simp only
    rw [acontains_aupsert_iff]
    simp only [List.mem_append, List.mem_singleton]
    rw [hkeys id]
  · rw [h] at hs
    injection hs with hs'
    rw [hs', lineIds_message l fid ar tid lbl ht ha hp hm]
    simp only
    rw [get_or_insert_keys]
    rw [get_or_insert_keys]
    simp only [List.mem_append, List.mem_cons, List.mem_singleton, List.not_mem_nil,
      or_false]
    rw [hkeys id]
    tauto
  · rw [h] at hs; exact Except.noConfusion hs

theorem seqStep_ok_model (st : SequenceDiagram × AList Str Nat) (idx : Nat) (l : Str)
    (st' : SequenceDiagram × AList Str Nat) (h : seqStep st idx l = Except.ok st') :
    (∃ ext, st'.1.participants = st.1.participants ++ ext) ∧
    (st.1.autonumber = true → st'.1.autonumber = true) ∧
    (st'.1.messages = st.1.messages ∨
      ∃ m, st'.1.messages = st.1.messages ++ [m] ∧
        m.number = (if st.1.autonumber then st.1.messages.length + 1 else 0)) := by
  rcases seqStep_cases st idx l with ⟨ht, hs⟩ | ⟨ht, ha, hs⟩ |
    ⟨id0, lbl, ht, ha, hp, ⟨hc, hs⟩ | ⟨hc, hs⟩⟩ |
    ⟨fid, ar, tid, lbl, ht, ha, hp, hm, hs⟩ | ⟨hbad, hs⟩
  · rw [h] at hs
    injection hs with hs'
    rw [hs']
    exact ⟨⟨[], by simp⟩, fun hh => hh, Or.inl rfl⟩
  · rw [h] at hs
    injection hs with hs'
    rw [hs']
    exact ⟨⟨[], by simp⟩, fun _ => rfl, Or.inl rfl⟩
  · rw [h] at hs; exact Except.noConfusion hs
  · rw [h] at hs
    injection hs with hs'
    rw [hs']
    exact ⟨⟨_, rfl⟩, fun hh => hh, Or.inl rfl⟩
  · rw [h] at hs
    injection hs with hs'
    rw [hs']
    obtain ⟨⟨e1, he1⟩, hm1, ha1⟩ := get_or_insert_model fid st.1 st.2
    obtain ⟨⟨e2, he2⟩, hm2, ha2⟩ :=
      get_or_insert_model tid (get_or_insert_participant fid st.1 st.2).2.1
        (get_or_insert_participant fid st.1 st.2).2.2
    refine ⟨⟨e1 ++ e2, ?_⟩, ?_, Or.inr
      ⟨⟨(get_or_insert_participant fid st.1 st.2).1,
        (get_or_insert_participant tid (get_or_insert_participant fid st.1 st.2).2.1
          (get_or_insert_participant fid st.1 st.2).2.2).1,
        trimStr lbl,
        (if ar = "->>".data then ArrowType.solid else ArrowType.dotted),
        (if (get_or_insert_participant tid (get_or_insert_participant fid st.1 st.2).2.1
              (get_or_insert_participant fid st.1 st.2).2.2).2.1.autonumber then
           (get_or_insert_participant tid (get_or_insert_participant fid st.1 st.2).2.1
              (get_or_insert_participant fid st.1 st.2).2.2).2.1.messages.length + 1
         else 0)⟩, ?_, ?_⟩⟩
    · simp only
      rw [he2, he1, List.append_assoc]
    · intro hh
      simp only
      rw [ha2, ha1]
      exact hh
    · simp only
      rw [hm2, hm1]
    · simp only
      rw [ha2, ha1, hm2, hm1]
  · rw [h] at hs; exact Except.noConfusion hs

theorem asize_aupsert_le {α β : Type} [DecidableEq α] (m : AList α β) (k : α) (v : β) :
    asize (aupsert m k v) ≤ asize m + 1 := by
  induction m with
  | nil => simp [aupsert, asize]
  | cons e rest ih =>
    by_cases he : e.1 = k
    · simp [aupsert, he, asize]
    · simp only [aupsert, he, if_false]
      simp only [asize, List.length_cons] at ih ⊢
      omega

theorem seqStep_ok_size (st : SequenceDiagram × AList Str Nat) (idx : Nat) (l : Str)
    (st' : SequenceDiagram × AList Str Nat) (h : seqStep st idx l = Except.ok st')
    (hsz : asize st.2 ≤ st.1.participants.length) :
    asize st'.2 ≤ st'.1.participants.length := by
  rcases seqStep_cases st idx l with ⟨ht, hs⟩ | ⟨ht, ha, hs⟩ |
    ⟨id0, lbl, ht, ha, hp, ⟨hc, hs⟩ | ⟨hc, hs⟩⟩ |
    ⟨fid, ar, tid, lbl, ht, ha, hp, hm, hs⟩ | ⟨hbad, hs⟩
  · rw [h] at hs; injection hs with hs'; rw [hs']; exact hsz
  · rw [h] at hs; injection hs with hs'; rw [hs']; exact hsz
  · rw [h] at hs; exact Except.noConfusion hs
  · rw [h] at hs
    injection hs with hs'
    rw [hs']
    simp only [List.length_append, List.length_cons, List.length_nil]
    have := asize_aupsert_le st.2 id0 st.1.participants.length
    omega
  · rw [h] at hs
    injection hs with hs'
    rw [hs']
    simp only
    have h1 := get_or_insert_size fid st.1 st.2 hsz
    have h2 := get_or_insert_size tid (get_or_insert_participant fid st.1 st.2).2.1
      (get_or_insert_participant fid st.1 st.2).2.2 h1
    exact h2
  · rw [h] at hs; exact Except.noConfusion hs

theorem seqStep_nonauto_nonempty (st : SequenceDiagram × AList Str Nat) (idx : Nat)
    (l : Str) (st' : SequenceDiagram × AList Str Nat)
    (h : seqStep st idx l = Except.ok st')
    (hsz : asize st.2 ≤ st.1.participants.length)
    (ht : trimStr l ≠ []) (ha : autonumberMatch (trimStr l) = false) :
    st'.1.participants ≠ [] := by
  rcases seqStep_cases st idx l with ⟨ht', hs⟩ | ⟨ht', ha', hs⟩ |
    ⟨id0, lbl, ht', ha', hp, ⟨hc, hs⟩ | ⟨hc, hs⟩⟩ |
    ⟨fid, ar, tid, lbl, ht', ha', hp, hm, hs⟩ | ⟨hbad, hs⟩
  · exact absurd ht' ht
  · rw [ha'] at ha; exact Bool.noConfusion ha
  · rw [h] at hs; exact Except.noConfusion hs
  · rw [h] at hs
    injection hs with hs'
    rw [hs']
    simp
  · rw [h] at hs
    injection hs with hs'
    rw [hs']
    simp only
    by_cases hne : st.1.participants = []
    · have hpm : st.2 = [] := by
        rw [hne] at hsz
        simp only [List.length_nil, Nat.le_zero, asize] at hsz
        exact List.length_eq_zero.mp hsz
      have hfree : alookup st.2 fid = none := by rw [hpm]; rfl
      have h1 := get_or_insert_nonempty fid st.1 st.2 hfree
      obtain ⟨⟨e2, he2⟩, _, _⟩ :=
        get_or_insert_model tid (get_or_insert_participant fid st.1 st.2).2.1
          (get_or_insert_participant fid st.1 st.2).2.2
      rw [he2]
      intro hcon
      rcases List.append_eq_nil.mp hcon with ⟨h1', _⟩
      exact h1 h1'
    · obtain ⟨⟨e1, he1⟩, _, _⟩ := get_or_insert_model fid st.1 st.2
      obtain ⟨⟨e2, he2⟩, _, _⟩ :=
        get_or_insert_model tid (get_or_insert_participant fid st.1 st.2).2.1
          (get_or_insert_participant fid st.1 st.2).2.2
      rw [he2, he1]
      intro hcon
      rcases List.append_eq_nil.mp hcon with ⟨h1', _⟩
      rcases List.append_eq_nil.mp h1' with ⟨h1'', _⟩
      exact hne h1''
  · rw [h] at hs; exact Except.noConfusion hs

theorem seqStep_ok_of_okLineB (P : List Str) (st : SequenceDiagram × AList Str Nat)
    (idx : Nat) (l : Str)
    (hkeys : ∀ id, acontains st.2 id = true ↔ id ∈ P)
    (hok : okLineB P l = true) :
    ∃ st', seqStep st idx l = Except.ok st' := by
  rcases seqStep_cases st idx l with ⟨ht, hs⟩ | ⟨ht, ha, hs⟩ |
    ⟨id0, lbl, ht, ha, hp, ⟨hc, hs⟩ | ⟨hc, hs⟩⟩ |
    ⟨fid, ar, tid, lbl, ht, ha, hp, hm, hs⟩ | ⟨hbad, hs⟩
  · exact ⟨st, hs⟩
  · exact ⟨_, hs⟩
  · exfalso
    have hmem : id0 ∈ P := (hkeys id0).mp hc
    unfold okLineB at hok
    rw [if_neg ht, if_neg (by rw [ha]; exact Bool.noConfusion), hp] at hok
    simp only [Bool.not_eq_true'] at hok
    rw [decide_eq_false_iff_not] at hok
    exact hok hmem
  · exact ⟨_, hs⟩
  · exact ⟨_, hs⟩
  · exfalso
    obtain ⟨ht, ha, hp, hm⟩ := hbad
    unfold okLineB at hok
    rw [if_neg ht, if_neg (by rw [ha]; exact Bool.noConfusion), hp, hm] at hok
    exact Bool.noConfusion hok

theorem foldl_lineIds_shift (ls : List Str) :
    ∀ a : List Str, ls.foldl (fun acc x => acc ++ lineIds x) a =
      a ++ ls.foldl (fun acc x => acc ++ lineIds x) [] := by
  induction ls with
  | nil => intro a; simp
  | cons x xs ih =>
    intro a
    simp only [List.foldl_cons, List.nil_append]
    rw [ih (a ++ lineIds x), ih (lineIds x), List.append_assoc]

theorem mentioned_zero (P : List Str) (ls : List Str) : mentioned P ls 0 = P := by
  simp [mentioned]

theorem mentioned_succ_cons (P : List Str) (l : Str) (ls : List Str) (k : Nat) :
    mentioned P (l :: ls) (k + 1) = mentioned (P ++ lineIds l) ls k := by
  unfold mentioned
  rw [List.take_succ_cons, List.foldl_cons, List.nil_append,
    foldl_lineIds_shift (ls.take k) (lineIds l), List.append_assoc]

theorem dupAt_cons_zero (P : List Str) (l : Str) (ls : List Str) :
    dupAt P (l :: ls) 0 ↔ (autonumberMatch (trimStr l) = false ∧
      ∃ id lbl, participantMatch (trimStr l) = some (id, lbl) ∧ id ∈ P) := by
  unfold dupAt
  simp [mentioned_zero]

theorem dupAt_cons_succ (P : List Str) (l : Str) (ls : List Str) (j : Nat) :
    dupAt P (l :: ls) (j + 1) ↔
      (okLineB P l = true ∧ dupAt (P ++ lineIds l) ls j) := by
  unfold dupAt
  constructor
  · rintro ⟨hlen, hok, hauto, id, lbl, hp, hmem⟩
    have hok0 := hok 0 (by omega)
    rw [mentioned_zero] at hok0
    simp only [List.getD_cons_zero] at hok0
    refine ⟨hok0, ?_, ?_, ?_, id, lbl, ?_, ?_⟩
    · simpa [List.length_cons] using hlen
    · intro k hk
      have := hok (k + 1) (by omega)
      rw [mentioned_succ_cons] at this
      simpa [List.getD_cons_succ] using this
    · simpa [List.getD_cons_succ] using hauto
    · simpa [List.getD_cons_succ] using hp
    · rw [← mentioned_succ_cons]
      exact hmem
  · rintro ⟨hok0, hlen, hok, hauto, id, lbl, hp, hmem⟩
    refine ⟨by simpa [List.length_cons] using hlen, ?_, ?_, id, lbl, ?_, ?_⟩
    · intro k hk
      match k with
      | 0 =>
        rw [mentioned_zero]
        simpa [List.getD_cons_zero] using hok0
      | k' + 1 =>
        rw [mentioned_succ_cons]
        simpa [List.getD_cons_succ] using hok k' (by omega)
    · simpa [List.getD_cons_succ] using hauto
    · simpa [List.getD_cons_succ] using hp
    · rw [mentioned_succ_cons]
      exact hmem

theorem exists_dupAt_cons (P : List Str) (l : Str) (ls : List Str) :
    (∃ j, dupAt P (l :: ls) j) ↔
      (dupAt P (l :: ls) 0 ∨ ∃ j, dupAt P (l :: ls) (j + 1)) := by
  constructor
  · rintro ⟨j, hj⟩
    match j with
    | 0 => exact Or.inl hj
    | j' + 1 => exact Or.inr ⟨j', hj⟩
  · rintro (h | ⟨j, hj⟩)
    · exact ⟨0, h⟩
    · exact ⟨j + 1, hj⟩

theorem okLineB_blank (P : List Str) (l : Str) (ht : trimStr l = []) :
    okLineB P l = true := by simp [okLineB, ht]

theorem okLineB_auto (P : List Str) (l : Str) (ha : autonumberMatch (trimStr l) = true) :
    okLineB P l = true := by
  unfold okLineB
  by_cases ht : trimStr l = [] <;> simp [ht, ha]

theorem okLineB_participant (P : List Str) (l : Str) (id lbl : Str)
    (ht : trimStr l ≠ []) (ha : autonumberMatch (trimStr l) = false)
    (hp : participantMatch (trimStr l) = some (id, lbl)) :
    okLineB P l = true ↔ id ∉ P := by
  unfold okLineB
  rw [if_neg ht, if_neg (by rw [ha]; exact Bool.noConfusion), hp]
  simp

theorem okLineB_message (P : List Str) (l : Str) (ht : trimStr l ≠ [])
    (ha : autonumberMatch (trimStr l) = false)
    (hp : participantMatch (trimStr l) = none)
    (hm : messageMatch (trimStr l) ≠ none) : okLineB P l = true := by
  unfold okLineB
  rw [if_neg ht, if_neg (by rw [ha]; exact Bool.noConfusion), hp]
  simpa [Option.isSome_iff_exists] using Option.ne_none_iff_exists'.mp hm

theorem seqLoop_dup_iff (ls : List Str) : ∀ (idx : Nat)
    (st : SequenceDiagram × AList Str Nat) (P : List Str),
    (∀ id, acontains st.2 id = true ↔ id ∈ P) →
    ((∃ n id, seqLoop ls idx st = Except.error (dupMsg n id)) ↔ ∃ j, dupAt P ls j) := by
  induction ls with
  | nil =>
    intro idx st P _
    constructor
    · rintro ⟨n, id, h⟩
      simp [seqLoop] at h
    · rintro ⟨j, hj, _⟩
      simp at hj
  | cons l ls ih =>
    intro idx st P hkeys
    rcases seqStep_cases st idx l with ⟨ht, hs⟩ | ⟨ht, ha, hs⟩ |
      ⟨id0, lbl, ht, ha, hp, ⟨hc, hs⟩ | ⟨hc, hs⟩⟩ |
      ⟨fid, ar, tid, lbl, ht, ha, hp, hm, hs⟩ | ⟨hbad, hs⟩
    -- blank line
    · rw [seqLoop, hs]
      rw [ih (idx + 1) st P hkeys]
      rw [exists_dupAt_cons]
      have h0 : ¬dupAt P (l :: ls) 0 := by
        rw [dupAt_cons_zero]
        rintro ⟨_, id, lbl, hp, _⟩
        rw [show participantMatch (trimStr l) = none from by
          rw [ht]; rfl] at hp
        exact Option.noConfusion hp
      constructor
      · rintro ⟨j, hj⟩
        refine Or.inr ⟨j, ?_⟩
        rw [dupAt_cons_succ]
        exact ⟨okLineB_blank P l ht, by rwa [lineIds_blank l ht, List.append_nil]⟩
      · rintro (h | ⟨j, hj⟩)
        · exact absurd h h0
        · rw [dupAt_cons_succ] at hj
          exact ⟨j, by rw [lineIds_blank l ht, List.append_nil] at hj; exact hj.2⟩
    -- autonumber line
    · rw [seqLoop, hs]
      have hkeys' : ∀ id, acontains ({ st.1 with autonumber := true }, st.2).2 id = true ↔
          id ∈ P := hkeys
      rw [ih (idx + 1) _ P hkeys']
      rw [exists_dupAt_cons]
      have h0 : ¬dupAt P (l :: ls) 0 := by
        rw [dupAt_cons_zero]
        rintro ⟨hfalse, _⟩
        rw [ha] at hfalse
        exact Bool.noConfusion hfalse
      constructor
      · rintro ⟨j, hj⟩
        refine Or.inr ⟨j, ?_⟩
        rw [dupAt_cons_succ]
        exact ⟨okLineB_auto P l ha, by rwa [lineIds_auto l ha, List.append_nil]⟩
      · rintro (h | ⟨j, hj⟩)
        · exact absurd h h0
        · rw [dupAt_cons_succ] at hj
          exact ⟨j, by rw [lineIds_auto l ha, List.append_nil] at hj; exact hj.2⟩
    -- duplicate participant: the loop errors here
    · rw [seqLoop, hs]
      constructor
      · intro _
        refine ⟨0, ?_⟩
        rw [dupAt_cons_zero]
        exact ⟨ha, id0, lbl, hp, (hkeys id0).mp hc⟩
      · intro _
        exact ⟨idx + 2, id0, rfl⟩
    -- fresh participant declaration
    · rw [seqLoop, hs]
      have hkeys' := seqStep_ok_keys P st idx l _ hkeys hs
      rw [ih (idx + 1) _ (P ++ lineIds l) hkeys']
      rw [exists_dupAt_cons]
      have h0 : ¬dupAt P (l :: ls) 0 := by
        rw [dupAt_cons_zero]
        rintro ⟨_, id', lbl', hp', hmem⟩
        rw [hp] at hp'
        injection hp' with hp''
        have : id' = id0 := congrArg Prod.fst hp''.symm
        subst this
        have : acontains st.2 id' = true := (hkeys id').mpr hmem
        rw [hc] at this
        exact Bool.noConfusion this
      constructor
      · rintro ⟨j, hj⟩
        refine Or.inr ⟨j, ?_⟩
        rw [dupAt_cons_succ]
        refine ⟨?_, hj⟩
        rw [okLineB_participant P l id0 lbl ht ha hp]
        intro hmem
        have : acontains st.2 id0 = true := (hkeys id0).mpr hmem
        rw [hc] at this
        exact Bool.noConfusion this
      · rintro (h | ⟨j, hj⟩)
        · exact absurd h h0
        · rw [dupAt_cons_succ] at hj
          exact ⟨j, hj.2⟩
    -- message line
    · rw [seqLoop, hs]
      have hkeys' := seqStep_ok_keys P st idx l _ hkeys hs
      rw [ih (idx + 1) _ (P ++ lineIds l) hkeys']
      rw [exists_dupAt_cons]
      have h0 : ¬dupAt P (l :: ls) 0 := by
        rw [dupAt_cons_zero]
        rintro ⟨_, id', lbl', hp', _⟩
        rw [hp] at hp'
        exact Option.noConfusion hp'
      constructor
      · rintro ⟨j, hj⟩
        refine Or.inr ⟨j, ?_⟩
        rw [dupAt_cons_succ]
        exact ⟨okLineB_message P l ht ha hp (by rw [hm]; exact Option.noConfusion), hj⟩
      · rintro (h | ⟨j, hj⟩)
        · exact absurd h h0
        · rw [dupAt_cons_succ] at hj
          exact ⟨j, hj.2⟩
    -- syntax error
    · rw [seqLoop, hs]
      constructor
      · rintro ⟨n, id, h⟩
        injection h with h'
        exact absurd h'.symm (dupMsg_ne_synMsg n (idx + 2) id (trimStr l))
      · rintro ⟨j, hj⟩
        obtain ⟨ht, ha, hp, hm⟩ := hbad
        match j, hj with
        | 0, hj =>
          rw [dupAt_cons_zero] at hj
          obtain ⟨_, id', lbl', hp', _⟩ := hj
          rw [hp] at hp'
          exact Option.noConfusion hp'
        | j' + 1, hj =>
          rw [dupAt_cons_succ] at hj
          obtain ⟨hok, _⟩ := hj
          unfold okLineB at hok
          rw [if_neg ht, if_neg (by rw [ha]; exact Bool.noConfusion), hp, hm] at hok
          exact Bool.noConfusion hok

theorem seqLoop_syntax (ls : List Str) : ∀ (idx : Nat)
    (st : SequenceDiagram × AList Str Nat) (P : List Str) (j : Nat),
    (∀ id, acontains st.2 id = true ↔ id ∈ P) →
    (∀ k, k < j → okLineB (mentioned P ls k) (ls.getD k []) = true) →
    j < ls.length → badLine (ls.getD j []) →
    seqLoop ls idx st = Except.error (synMsg (idx + j + 2) (trimStr (ls.getD j []))) := by
  induction ls with
  | nil =>
    intro idx st P j _ _ hj _
    simp at hj
  | cons l ls ih =>
    intro idx st P j hkeys hok hj hbad
    cases j with
    | zero =>
      simp only [List.getD_cons_zero] at hbad ⊢
      rcases seqStep_cases st idx l with ⟨ht, hs⟩ | ⟨ht, ha, hs⟩ |
        ⟨id0, lbl, ht, ha, hp, ⟨hc, hs⟩ | ⟨hc, hs⟩⟩ |
        ⟨fid, ar, tid, lbl, ht, ha, hp, hm, hs⟩ | ⟨hbad', hs⟩
      · exact absurd ht hbad.1
      · rw [hbad.2.1] at ha; exact Bool.noConfusion ha
      · rw [hbad.2.2.1] at hp; exact Option.noConfusion hp
      · rw [hbad.2.2.1] at hp; exact Option.noConfusion hp
      · rw [hbad.2.2.2] at hm; exact Option.noConfusion hm
      · rw [seqLoop, hs]
    | succ j' =>
      have hok0 := hok 0 (by omega)
      rw [mentioned_zero] at hok0
      simp only [List.getD_cons_zero] at hok0
      obtain ⟨st', hs⟩ := seqStep_ok_of_okLineB P st idx l hkeys hok0
      rw [seqLoop, hs]
      have hres := ih (idx + 1) st' (P ++ lineIds l) j'
        (seqStep_ok_keys P st idx l st' hkeys hs)
        (fun k hk => by
          have := hok (k + 1) (by omega)
          rw [mentioned_succ_cons] at this
          simpa [List.getD_cons_succ] using this)
        (by simpa [List.length_cons] using hj)
        (by simpa [List.getD_cons_succ] using hbad)
      rw [show idx + (j' + 1) + 2 = idx + 1 + j' + 2 from by omega]
      simpa [List.getD_cons_succ] using hres

theorem seqLoop_mono (ls : List Str) : ∀ (idx : Nat)
    (st fin : SequenceDiagram × AList Str Nat),
    seqLoop ls idx st = Except.ok fin →
    ∃ ext, fin.1.participants = st.1.participants ++ ext := by
  induction ls with
  | nil =>
    intro idx st fin h
    have : st = fin := by
      have h' : Except.ok st = Except.ok fin := h
      injection h'
    rw [← this]
    exact ⟨[], by simp⟩
  | cons l ls ih =>
    intro idx st fin h
    rw [seqLoop] at h
    cases hs : seqStep st idx l with
    | error e => rw [hs] at h; exact Except.noConfusion h
    | ok st' =>
      rw [hs] at h
      obtain ⟨e1, he1⟩ := (seqStep_ok_model st idx l st' hs).1
      obtain ⟨e2, he2⟩ := ih (idx + 1) st' fin h
      exact ⟨e1 ++ e2, by rw [he2, he1, List.append_assoc]⟩

theorem seqLoop_ok_size (ls : List Str) : ∀ (idx : Nat)
    (st fin : SequenceDiagram × AList Str Nat),
    seqLoop ls idx st = Except.ok fin →
    asize st.2 ≤ st.1.participants.length →
    asize fin.2 ≤ fin.1.participants.length := by
  induction ls with
  | nil =>
    intro idx st fin h hsz
    have : st = fin := by
      have h' : Except.ok st = Except.ok fin := h
      injection h'
    rw [← this]
    exact hsz
  | cons l ls ih =>
    intro idx st fin h hsz
    rw [seqLoop] at h
    cases hs : seqStep st idx l with
    | error e => rw [hs] at h; exact Except.noConfusion h
    | ok st' =>
      rw [hs] at h
      exact ih (idx + 1) st' fin h (seqStep_ok_size st idx l st' hs hsz)

theorem seqLoop_empty_all_auto (ls : List Str) : ∀ (idx : Nat)
    (st fin : SequenceDiagram × AList Str Nat),
    seqLoop ls idx st = Except.ok fin → fin.1.participants = [] →
    asize st.2 ≤ st.1.participants.length →
    ∀ l ∈ ls, trimStr l = [] ∨ autonumberMatch (trimStr l) = true := by
  induction ls with
  | nil => intro idx st fin _ _ _ l hl; cases hl
  | cons l0 ls ih =>
    intro idx st fin h hfin hsz l hl
    rw [seqLoop] at h
    cases hs : seqStep st idx l0 with
    | error e => rw [hs] at h; exact Except.noConfusion h
    | ok st' =>
      rw [hs] at h
      rcases List.mem_cons.mp hl with hl | hl
      · subst hl
        by_contra hcon
        push_neg at hcon
        obtain ⟨ht, ha⟩ := hcon
        have hne := seqStep_nonauto_nonempty st idx l st' hs hsz ht
          (eq_false_of_ne_true ha)
        obtain ⟨ext, hext⟩ := seqLoop_mono ls (idx + 1) st' fin h
        rw [hfin] at hext
        rcases List.append_eq_nil.mp hext.symm with ⟨h1, _⟩
        exact hne h1
      · exact ih (idx + 1) st' fin h hfin (seqStep_ok_size st idx l0 st' hs hsz) l hl

theorem seqLoop_all_auto_ok (ls : List Str) : ∀ (idx : Nat)
    (st : SequenceDiagram × AList Str Nat),
    (∀ l ∈ ls, autonumberMatch (trimStr l) = true) →
    ∃ fin, seqLoop ls idx st = Except.ok fin ∧
      fin.1.participants = st.1.participants := by
  induction ls with
  | nil => intro idx st _; exact ⟨st, rfl, rfl⟩
  | cons l ls ih =>
    intro idx st hall
    have ha : autonumberMatch (trimStr l) = true := hall l (List.mem_cons_self l ls)
    have ht : trimStr l ≠ [] := by
      intro hcon
      rw [show autonumberMatch (trimStr l) = false from by rw [hcon]; rfl] at ha
      exact Bool.noConfusion ha
    have hs : seqStep st idx l = Except.ok ({ st.1 with autonumber := true }, st.2) := by
      rcases seqStep_cases st idx l with ⟨ht', hs⟩ | ⟨_, _, hs⟩ |
        ⟨id0, lbl, ht', ha', hp, _⟩ | ⟨fid, ar, tid, lbl, ht', ha', hp, hm, hs⟩ |
        ⟨hbad, hs⟩
      · exact absurd ht' ht
      · exact hs
      · rw [ha'] at ha; exact Bool.noConfusion ha
      · rw [ha'] at ha; exact Bool.noConfusion ha
      · rw [hbad.2.1] at ha; exact Bool.noConfusion ha
    rw [seqLoop, hs]
    obtain ⟨fin, hloop, hparts⟩ :=
      ih (idx + 1) ({ st.1 with autonumber := true }, st.2)
        (fun l' hl' => hall l' (List.mem_cons_of_mem l hl'))
    exact ⟨fin, hloop, hparts⟩

theorem msgsDense_append (msgs : List Message) (m : Message) (hd : msgsDense msgs)
    (hm : m.number = msgs.length + 1) : msgsDense (msgs ++ [m]) := by
  intro i hi
  rw [List.length_append, List.length_singleton] at hi
  by_cases hlt : i < msgs.length
  · have : (msgs ++ [m]).get ⟨i, by rw [List.length_append]; omega⟩ =
        msgs.get ⟨i, hlt⟩ := by
      rw [List.get_eq_getElem, List.get_eq_getElem, List.getElem_append_left]
    rw [this]
    exact hd i hlt
  · have hi' : i = msgs.length := by omega
    subst hi'
    have : (msgs ++ [m]).get ⟨msgs.length, by simp⟩ = m := by
      simp
    rw [this, hm]

theorem seqLoop_dense (ls : List Str) : ∀ (idx : Nat)
    (st fin : SequenceDiagram × AList Str Nat),
    st.1.autonumber = true → msgsDense st.1.messages →
    seqLoop ls idx st = Except.ok fin → msgsDense fin.1.messages := by
  induction ls with
  | nil =>
    intro idx st fin _ hd h
    have : st = fin := by
      have h' : Except.ok st = Except.ok fin := h
      injection h'
    rw [← this]
    exact hd
  | cons l ls ih =>
    intro idx st fin hauto hd h
    rw [seqLoop] at h
    cases hs : seqStep st idx l with
    | error e => rw [hs] at h; exact Except.noConfusion h
    | ok st' =>
      rw [hs] at h
      obtain ⟨_, hau, hmsg⟩ := seqStep_ok_model st idx l st' hs
      refine ih (idx + 1) st' fin (hau hauto) ?_ h
      rcases hmsg with hmsg | ⟨m, hmsg, hnum⟩
      · rw [hmsg]; exact hd
      · rw [hmsg]
        exact msgsDense_append st.1.messages m hd (by rwa [if_pos hauto] at hnum)

theorem seqLoop_no_msg_dense (ls : List Str) : ∀ (idx : Nat)
    (st fin : SequenceDiagram × AList Str Nat),
    st.1.messages = [] → noMsgBeforeAuto ls →
    seqLoop ls idx st = Except.ok fin → msgsDense fin.1.messages := by
  induction ls with
  | nil =>
    intro idx st fin hmsg _ h
    have : st = fin := by
      have h' : Except.ok st = Except.ok fin := h
      injection h'
    rw [← this, hmsg]
    intro i hi
    simp at hi
  | cons l ls ih =>
    intro idx st fin hmsg hnma h
    rw [seqLoop] at h
    cases hs : seqStep st idx l with
    | error e => rw [hs] at h; exact Except.noConfusion h
    | ok st' =>
      rw [hs] at h
      rcases seqStep_cases st idx l with ⟨ht, hs'⟩ | ⟨ht, ha, hs'⟩ |
        ⟨id0, lbl, ht, ha, hp, ⟨hc, hs'⟩ | ⟨hc, hs'⟩⟩ |
        ⟨fid, ar, tid, lbl, ht, ha, hp, hm, hs'⟩ | ⟨hbad, hs'⟩
      -- blank: state unchanged
      · rw [hs] at hs'
        injection hs' with hs''
        refine ih (idx + 1) st' fin (by rw [hs'']; exact hmsg) ?_ h
        intro j hj hmsgline
        obtain ⟨k, hk, hauto⟩ := hnma (j + 1) (by simpa [List.length_cons] using hj)
          (by simpa [List.getD_cons_succ] using hmsgline)
        match k, hk with
        | 0, _ =>
          exfalso
          unfold isAutoLine at hauto
          simp only [List.getD_cons_zero] at hauto
          rw [show autonumberMatch (trimStr l) = false from by rw [ht]; rfl] at hauto
          exact Bool.noConfusion hauto
        | k' + 1, hk =>
          exact ⟨k', by omega, by simpa [List.getD_cons_succ] using hauto⟩
      -- autonumber: flag set, messages still empty and trivially dense
      · rw [hs] at hs'
        injection hs' with hs''
        refine seqLoop_dense ls (idx + 1) st' fin (by rw [hs'']) ?_ h
        rw [hs'']
        simp only
        rw [hmsg]
        intro i hi
        simp at hi
      -- participant: messages unchanged
      · rw [hs] at hs'; exact Except.noConfusion hs'
      · rw [hs] at hs'
        injection hs' with hs''
        refine ih (idx + 1) st' fin (by rw [hs'']; simpa using hmsg) ?_ h
        intro j hj hmsgline
        obtain ⟨k, hk, hauto⟩ := hnma (j + 1) (by simpa [List.length_cons] using hj)
          (by simpa [List.getD_cons_succ] using hmsgline)
        match k, hk with
        | 0, _ =>
          exfalso
          unfold isAutoLine at hauto
          simp only [List.getD_cons_zero] at hauto
          rw [ha] at hauto
          exact Bool.noConfusion hauto
        | k' + 1, hk =>
          exact ⟨k', by omega, by simpa [List.getD_cons_succ] using hauto⟩
      -- message line: excluded by noMsgBeforeAuto at position 0
      · exfalso
        obtain ⟨k, hk, _⟩ := hnma 0 (by simp) (by
          simp only [List.getD_cons_zero]
          exact ⟨ha, hp, by rw [hm]; exact Option.noConfusion⟩)
        omega
      · rw [hs] at hs'; exact Except.noConfusion hs'

theorem cleanLines_of_trim_nil (input : Str) (h : trimStr input = []) :
    seqCleanLines input = [] := by
  unfold seqCleanLines
  rw [h]
  rfl

theorem parse_eq_loop (input : Str) (hhd : seqHeaderOk input) :
    parse input =
      (match seqLoop (seqBodyLines input) 0 (⟨[], [], false⟩, []) with
        | Except.error e => Except.error e
        | Except.ok (d, _) =>
          if d.participants = [] then Except.error "no participants found".data
          else Except.ok d) := by
  obtain ⟨h1, h2⟩ := hhd
  have h0 : ¬(trimStr input = []) := fun hc => h1 (cleanLines_of_trim_nil input hc)
  unfold seqCleanLines at h1 h2
  unfold seqBodyLines seqCleanLines
  unfold parse
  rw [if_neg h0, if_neg h1, if_neg (not_not_intro h2)]

theorem parse_header_fail (input : Str) (h : ¬seqHeaderOk input) :
    parse input = Except.error "empty input".data ∨
    parse input = Except.error "no content found".data ∨
    parse input = Except.error "expected \"sequenceDiagram\" keyword".data := by
  unfold parse
  by_cases h0 : trimStr input = []
  · rw [if_pos h0]; exact Or.inl rfl
  rw [if_neg h0]
  by_cases h1 : remove_comments (split_lines (trimStr input)) = []
  · rw [if_pos h1]; exact Or.inr (Or.inl rfl)
  rw [if_neg h1]
  by_cases h2 : "sequenceDiagram".data.isPrefixOf
      (trimStr ((remove_comments (split_lines (trimStr input))).headD [])) = true
  · exact absurd ⟨h1, h2⟩ h
  · rw [if_pos h2]; exact Or.inr (Or.inr rfl)

theorem parse_ok_inv (input : Str) (d : SequenceDiagram)
    (h : parse input = Except.ok d) :
    seqHeaderOk input ∧
    ∃ p, seqLoop (seqBodyLines input) 0 (⟨[], [], false⟩, []) = Except.ok (d, p) ∧
      d.participants ≠ [] := by
  have hhd : seqHeaderOk input := by
    by_contra hcon
    rcases parse_header_fail input hcon with hp | hp | hp <;>
      (rw [hp] at h; exact Except.noConfusion h)
  refine ⟨hhd, ?_⟩
  rw [parse_eq_loop input hhd] at h
  cases hloop : seqLoop (seqBodyLines input) 0 (⟨[], [], false⟩, []) with
  | error e => rw [hloop] at h; exact Except.noConfusion h
  | ok pr =>
    obtain ⟨d0, p⟩ := pr
    rw [hloop] at h
    dsimp only at h
    by_cases hemp : d0.participants = []
    · rw [if_pos hemp] at h; exact Except.noConfusion h
    · rw [if_neg hemp] at h
      injection h with h'
      subst h'
      exact ⟨p, rfl, hemp⟩

theorem init_keys : ∀ id, acontains
    (((⟨[], [], false⟩ : SequenceDiagram), ([] : AList Str Nat)) :
      SequenceDiagram × AList Str Nat).2 id = true ↔ id ∈ ([] : List Str) := by
  intro id
  simp [acontains, alookup]

/-- C5 counterexample: for the input
`sequenceDiagram\nA->>B: x\nautonumber\nA->>B: y` parsing succeeds with the
autonumber flag set, yet the declared messages carry numbers 0 and 2 — not
the dense sequence 1, 2 — because the message before the `autonumber` line
is numbered 0 and numbering of later messages uses the global ordinal. -/
theorem c5_autonumber_counterexample :
    parse "sequenceDiagram\nA->>B: x\nautonumber\nA->>B: y".data =
      Except.ok c5cexDiagram ∧
    c5cexDiagram.autonumber = true ∧
    c5cexDiagram.messages.map Message.number = [0, 2] ∧
    ¬msgsDense c5cexDiagram.messages := by
  refine ⟨by rfl, rfl, rfl, ?_⟩
  intro hd
  exact absurd (hd 0 (by decide)) (by decide)

/-- C5 (amended): if parsing succeeds and, in the cleaned body lines, every
message line is preceded by an autonumber line, then the message numbers
form the dense sequence 1..N in declaration order.  (When a message line
precedes the autonumber line, it keeps number 0 and later numbers need not
restart at 1.) -/
theorem c5_autonumber_dense (input : Str) (d : SequenceDiagram)
    (h : parse input = Except.ok d)
    (hord : noMsgBeforeAuto (seqBodyLines input)) :
    msgsDense d.messages := by
  obtain ⟨_, p, hloop, _⟩ := parse_ok_inv input d h
  exact seqLoop_no_msg_dense (seqBodyLines input) 0 (⟨[], [], false⟩, []) (d, p)
    rfl hord hloop

/-- Witness for C5 on `sequenceDiagram\nautonumber\nA->>B: hi\nB-->>A: yo`:
the two messages are numbered 1 and 2. -/
theorem c5_autonumber_dense_witness : msgsDense c5diagram.messages :=
  c5_autonumber_dense "sequenceDiagram\nautonumber\nA->>B: hi\nB-->>A: yo".data
    c5diagram (by rfl) (by decide)

/-- C7 counterexample: in `sequenceDiagram\nA->>B: x\nparticipant A` the
identifier A is first mentioned only by a message, yet its first (and only)
`participant` declaration fails with a duplicate-participant error —
contradicting the claim that such a declaration does not fail. -/
theorem c7_duplicate_counterexample :
    parse "sequenceDiagram\nA->>B: x\nparticipant A".data =
      Except.error (dupMsg 3 "A".data) ∧
    ((seqBodyLines "sequenceDiagram\nA->>B: x\nparticipant A".data).filter
      (fun l => (participantMatch (trimStr l)).isSome)).length = 1 := by
  constructor
  · rfl
  · rfl

/-- C7 (amended): sequence parsing fails with a duplicate-participant error
if and only if the preliminary checks pass and some body line is a
participant declaration whose identifier was already declared or mentioned
(also as a message endpoint) by an earlier body line, all earlier body
lines being themselves well formed.  In particular a `participant`
declaration for an identifier previously mentioned only in messages DOES
fail. -/
theorem c7_duplicate_iff (input : Str) :
    (∃ n id, parse input = Except.error (dupMsg n id)) ↔
    (seqHeaderOk input ∧ ∃ j, dupAt [] (seqBodyLines input) j) := by
  by_cases hhd : seqHeaderOk input
  case neg =>
    constructor
    · rintro ⟨n, id, h⟩
      exfalso
      rcases parse_header_fail input hhd with hp | hp | hp <;>
        (rw [hp] at h; injection h with h';
         exact ne_of_headD (by rw [dupMsg_headD]; decide) h'.symm)
    · rintro ⟨hh, _⟩
      exact absurd hh hhd
  case pos =>
    rw [parse_eq_loop input hhd]
    cases hloop : seqLoop (seqBodyLines input) 0 (⟨[], [], false⟩, []) with
    | error e =>
      have hiff := seqLoop_dup_iff (seqBodyLines input) 0 (⟨[], [], false⟩, []) []
        init_keys
      rw [hloop] at hiff
      constructor
      · rintro ⟨n, id, h⟩
        injection h with h'
        exact ⟨hhd, hiff.mp ⟨n, id, by rw [h']⟩⟩
      · rintro ⟨_, hj⟩
        obtain ⟨n, id, hdup⟩ := hiff.mpr hj
        injection hdup with h'
        exact ⟨n, id, by rw [h']⟩
    | ok pr =>
      obtain ⟨d0, p⟩ := pr
      have hiff := seqLoop_dup_iff (seqBodyLines input) 0 (⟨[], [], false⟩, []) []
        init_keys
      rw [hloop] at hiff
      constructor
      · rintro ⟨n, id, h⟩
        exfalso
        dsimp only at h
        by_cases hemp : d0.participants = []
        · rw [if_pos hemp] at h
          injection h with h'
          exact ne_of_headD (by rw [dupMsg_headD]; decide) h'.symm
        · rw [if_neg hemp] at h
          exact Except.noConfusion h
      · rintro ⟨_, hj⟩
        obtain ⟨n, id, hdup⟩ := hiff.mpr hj
        exact Except.noConfusion hdup

/-- Witness for C7 at `sequenceDiagram\nparticipant A\nparticipant A`: the
second declaration of A is a duplicate. -/
theorem c7_duplicate_iff_witness :
    ∃ n id, parse "sequenceDiagram\nparticipant A\nparticipant A".data =
      Except.error (dupMsg n id) :=
  (c7_duplicate_iff "sequenceDiagram\nparticipant A\nparticipant A".data).mpr
    ⟨by decide, 1, by decide, by decide, by decide, "A".data, [], by decide, by decide⟩

/-- C8 counterexample: in `sequenceDiagram\n%% note\n???` the offending
line `???` is the third line of the input, but the reported error is
`line 2: invalid syntax: "???"` because the comment line was removed before
numbering. -/
theorem c8_line_number_counterexample :
    parse "sequenceDiagram\n%% note\n???".data =
      Except.error (synMsg 2 "???".data) ∧
    (split_lines (trimStr "sequenceDiagram\n%% note\n???".data)).getD 2 [] =
      "???".data ∧
    synMsg 2 "???".data ≠ synMsg 3 "???".data := by
  refine ⟨by rfl, by rfl, ?_⟩
  intro h
  unfold synMsg at h
  simp only [List.append_assoc, List.cons_append, List.nil_append, List.cons.injEq,
    true_and] at h
  obtain ⟨hd, _⟩ := colon_split (natToStr_ne_colon 2) (natToStr_ne_colon 3) h
  exact absurd hd (by decide)

/-- C8 (amended): when the preliminary checks pass, every earlier body line
is well formed, and body line `j` (0-based, in the comment- and
blank-stripped line list) matches none of the recognized forms, the parser
reports `line j+2: invalid syntax` — i.e. the 1-based position of the line
among the cleaned lines, counting the keyword line as line 1.  This equals
the input position only when no blank or comment lines intervene. -/
theorem c8_syntax_line_number (input : Str) (j : Nat)
    (hhd : seqHeaderOk input)
    (hok : ∀ k, k < j → okLineB (mentioned [] (seqBodyLines input) k)
      ((seqBodyLines input).getD k []) = true)
    (hj : j < (seqBodyLines input).length)
    (hbad : badLine ((seqBodyLines input).getD j [])) :
    parse input =
      Except.error (synMsg (j + 2) (trimStr ((seqBodyLines input).getD j []))) := by
  rw [parse_eq_loop input hhd]
  have hres := seqLoop_syntax (seqBodyLines input) 0 (⟨[], [], false⟩, []) [] j
    init_keys hok hj hbad
  rw [Nat.zero_add] at hres
  rw [hres]

/-- Witness for C8 at `sequenceDiagram\nparticipant A\n???`: the bad line
is body line 1 and the reported number is 3. -/
theorem c8_syntax_line_number_witness :
    parse "sequenceDiagram\nparticipant A\n???".data =
      Except.error (synMsg 3 (trimStr
        ((seqBodyLines "sequenceDiagram\nparticipant A\n???".data).getD 1 []))) :=
  c8_syntax_line_number "sequenceDiagram\nparticipant A\n???".data 1
    (by decide)
    (by decide)
    (by decide)
    (by decide)

/-- C2 counterexample: in non-ASCII mode, merging the glyph `─` (signature
left∣right) with the four-way cross `┼` (signature all-four) leaves `─` in
the cell, whose signature 3 differs from the bitwise OR 15 of the two
signatures — so the merge is not the signature-OR glyph, and it is not
commutative in signature either. -/
theorem c2_merge_or_counterexample :
    merge_drawings [["─".data]] ⟨0, 0⟩ [[["┼".data]]] false = [["─".data]] ∧
    merge_junctions "─".data "┼".data = "─".data ∧
    charSig "─".data ≠ Nat.lor (charSig "─".data) (charSig "┼".data) ∧
    charSig (merge_junctions "─".data "┼".data) ≠
      charSig (merge_junctions "┼".data "─".data) := by decide

/-- C2 (amended): for every pair of two- or three-armed junction glyphs
(the junction set without the four-way cross `┼` and the single-arm stubs),
`merge_junctions` returns the glyph whose 4-bit (up, down, left, right)
connection signature is the bitwise OR of the two glyphs' signatures, and
the merge is commutative in signature on that set.  When the resident or
incoming glyph is `┼` or a stub, the resident glyph is returned unchanged
instead. -/
theorem c2_junction_merge_or_law :
    ∀ c1 ∈ junctionGlyphs10, ∀ c2 ∈ junctionGlyphs10,
      charSig (merge_junctions c1 c2) = Nat.lor (charSig c1) (charSig c2) ∧
      charSig (merge_junctions c1 c2) = charSig (merge_junctions c2 c1) := by decide

/-- Witness for C2 at the concrete pair `─`, `│`. -/
theorem c2_junction_merge_or_law_witness :
    charSig (merge_junctions "─".data "│".data) =
      Nat.lor (charSig "─".data) (charSig "│".data) ∧
    charSig (merge_junctions "─".data "│".data) =
      charSig (merge_junctions "│".data "─".data) :=
  c2_junction_merge_or_law "─".data (by decide) "│".data (by decide)

theorem calcWidths_length (W : Str → Nat) (d : SequenceDiagram) (c : Config) :
    (calculate_layout W d c).participant_widths.length = d.participants.length := by
  simp [calculate_layout]

theorem calcWidths_ge (W : Str → Nat) (d : SequenceDiagram) (c : Config)
    (i : Nat) (h : i < d.participants.length) :
    3 ≤ (calculate_layout W d c).participant_widths.getD i 0 := by
  have hlen : i < (calculate_layout W d c).participant_widths.length := by
    rw [calcWidths_length]; exact h
  rw [List.getD_eq_getElem _ _ hlen]
  simp only [calculate_layout, List.getElem_map]
  split
  · simp [MIN_BOX_WIDTH]
  · rename_i hlt
    simp only [MIN_BOX_WIDTH] at hlt ⊢
    omega

/-- **C6** (corrected).  For every display-width function, every parsed
sequence diagram with at least one participant, and every configuration, the
total canvas width computed by `calculate_layout` equals
`center[last] + floor(box_width[last]/2)` (truncating division), and it
equals the claimed `center[last] + ceil(box_width[last]/2)` exactly when the
last participant's box width is even. -/
theorem c6_total_width_floor (W : Str → Nat) (d : SequenceDiagram) (c : Config)
    (h : d.participants ≠ []) :
    (calculate_layout W d c).total_width =
      (calculate_layout W d c).participant_centers.getD (d.participants.length - 1) 0 +
        Int.tdiv ((calculate_layout W d c).participant_widths.getD
          (d.participants.length - 1) 0 + BOX_BORDER_WIDTH) 2 ∧
    ((calculate_layout W d c).total_width =
      (calculate_layout W d c).participant_centers.getD (d.participants.length - 1) 0 +
        specCeilHalf ((calculate_layout W d c).participant_widths.getD
          (d.participants.length - 1) 0 + BOX_BORDER_WIDTH) ↔
      ((calculate_layout W d c).participant_widths.getD
        (d.participants.length - 1) 0 + BOX_BORDER_WIDTH) % 2 = 0) := by
  have hne : 0 < d.participants.length := List.length_pos.mpr h
  have hw : 3 ≤ (calculate_layout W d c).participant_widths.getD
      (d.participants.length - 1) 0 :=
    calcWidths_ge W d c _ (by omega)
  constructor
  · rfl
  · set wl := (calculate_layout W d c).participant_widths.getD
      (d.participants.length - 1) 0 with hwl
    set cl := (calculate_layout W d c).participant_centers.getD
      (d.participants.length - 1) 0 with hcl
    have htot : (calculate_layout W d c).total_width =
        cl + Int.tdiv (wl + BOX_BORDER_WIDTH) 2 := rfl
    rw [htot, specCeilHalf, BOX_BORDER_WIDTH,
      Int.tdiv_eq_ediv (by omega) (by omega), Int.tdiv_eq_ediv (by omega) (by omega)]
    omega

/-- Witness for C6 at `W = List.length`, the one-participant diagram parsed
from `sequenceDiagram\nparticipant A`, and the default configuration. -/
theorem c6_total_width_floor_witness :
    (⟨[⟨"A".data, "A".data, 0⟩], [], false⟩ : SequenceDiagram).participants ≠ [] ∧
    (calculate_layout (fun s => s.length)
        ⟨[⟨"A".data, "A".data, 0⟩], [], false⟩ default_config).total_width =
      (calculate_layout (fun s => s.length)
          ⟨[⟨"A".data, "A".data, 0⟩], [], false⟩ default_config).participant_centers.getD 0 0 +
        Int.tdiv ((calculate_layout (fun s => s.length)
          ⟨[⟨"A".data, "A".data, 0⟩], [], false⟩ default_config).participant_widths.getD 0 0 +
          BOX_BORDER_WIDTH) 2 :=
  ⟨by decide,
    (c6_total_width_floor (fun s => s.length)
      ⟨[⟨"A".data, "A".data, 0⟩], [], false⟩ default_config (by decide)).1⟩

/-- Counterexample to C6 as stated: for the input
`sequenceDiagram\nparticipant A` (label display width 1, so box width 5)
the computed total width is 4, while the claimed formula
`center[last] + ceil(box_width[last]/2)` gives 5. -/
theorem c6_total_width_counterexample :
    parse "sequenceDiagram\nparticipant A".data =
      Except.ok ⟨[⟨"A".data, "A".data, 0⟩], [], false⟩ ∧
    (calculate_layout (fun s => s.length)
      ⟨[⟨"A".data, "A".data, 0⟩], [], false⟩ default_config).total_width = 4 ∧
    (calculate_layout (fun s => s.length)
        ⟨[⟨"A".data, "A".data, 0⟩], [], false⟩ default_config).participant_centers.getD 0 0 +
      specCeilHalf ((calculate_layout (fun s => s.length)
        ⟨[⟨"A".data, "A".data, 0⟩], [], false⟩ default_config).participant_widths.getD 0 0 +
        BOX_BORDER_WIDTH) = 5 :=
  ⟨by rfl, by decide, by decide⟩

theorem seqLoop_error_shape (ls : List Str) : ∀ (idx : Nat)
    (st : SequenceDiagram × AList Str Nat) (e : Str),
    seqLoop ls idx st = Except.error e → ∃ n t, e = dupMsg n t ∨ e = synMsg n t := by
  induction ls with
  | nil =>
    intro idx st e h
    rw [seqLoop] at h
    exact Except.noConfusion h
  | cons l ls ih =>
    intro idx st e h
    rw [seqLoop] at h
    cases hs : seqStep st idx l with
    | ok st' =>
      rw [hs] at h
      exact ih _ _ _ h
    | error e' =>
      rw [hs] at h
      injection h with he
      subst he
      rcases seqStep_cases st idx l with ⟨_, hok⟩ | ⟨_, _, hok⟩ |
        ⟨id, lbl, _, _, _, ⟨_, herr⟩ | ⟨_, hok⟩⟩ | ⟨fid, ar, tid, lbl, _, _, _, _, hok⟩ |
        ⟨_, herr⟩
      · rw [hok] at hs; exact Except.noConfusion hs
      · rw [hok] at hs; exact Except.noConfusion hs
      · rw [herr] at hs
        injection hs with he'
        exact ⟨idx + 2, id, Or.inl he'.symm⟩
      · rw [hok] at hs; exact Except.noConfusion hs
      · rw [hok] at hs; exact Except.noConfusion hs
      · rw [herr] at hs
        injection hs with he'
        exact ⟨idx + 2, trimStr l, Or.inr he'.symm⟩

theorem seqLoop_blank_auto_ok (ls : List Str) : ∀ (idx : Nat)
    (st : SequenceDiagram × AList Str Nat),
    (∀ l ∈ ls, trimStr l = [] ∨ autonumberMatch (trimStr l) = true) →
    ∃ fin, seqLoop ls idx st = Except.ok fin ∧
      fin.1.participants = st.1.participants := by
  induction ls with
  | nil => intro idx st _; exact ⟨st, rfl, rfl⟩
  | cons l ls ih =>
    intro idx st hall
    rcases hall l (List.mem_cons_self l ls) with hb | ha
    · have hs : seqStep st idx l = Except.ok st := by
        rw [seqStep]
        simp only [hb]
        rfl
      obtain ⟨fin, hfin, hp⟩ := ih (idx + 1) st (fun l' hl' => hall l' (List.mem_cons_of_mem l hl'))
      exact ⟨fin, by rw [seqLoop, hs]; exact hfin, hp⟩
    · by_cases hb : trimStr l = []
      · have hs : seqStep st idx l = Except.ok st := by
          rw [seqStep]
          simp only [hb]
          rfl
        obtain ⟨fin, hfin, hp⟩ := ih (idx + 1) st (fun l' hl' => hall l' (List.mem_cons_of_mem l hl'))
        exact ⟨fin, by rw [seqLoop, hs]; exact hfin, hp⟩
      · have hs : seqStep st idx l = Except.ok ({ st.1 with autonumber := true }, st.2) := by
          rw [seqStep]
          simp only [hb, ha]
          rfl
        obtain ⟨fin, hfin, hp⟩ := ih (idx + 1) ({ st.1 with autonumber := true }, st.2)
          (fun l' hl' => hall l' (List.mem_cons_of_mem l hl'))
        exact ⟨fin, by rw [seqLoop, hs]; exact hfin, hp⟩

/-- **C10** (corrected).  `parse` returns the error `no participants found`
exactly when the preliminary checks pass (some cleaned line exists and the
first one starts with the `sequenceDiagram` keyword) and every body line is
blank or an `autonumber` line — a body with an unrecognized non-blank line
gives a syntax error instead, not `no participants found`.  Moreover a
successful parse always has at least one participant, and the sequence
renderer rejects a model with no participants, so rendering only ever
happens on a model with at least one participant. -/
theorem c10_no_participants_iff (input : Str) :
    (parse input = Except.error "no participants found".data ↔
      (seqHeaderOk input ∧
        ∀ l ∈ seqBodyLines input,
          trimStr l = [] ∨ autonumberMatch (trimStr l) = true)) ∧
    (∀ d, parse input = Except.ok d → d.participants ≠ []) ∧
    (∀ (W : Str → Nat) (config : Config) (d : SequenceDiagram),
      d.participants = [] →
      render W d config = Except.error "no participants".data) := by
  refine ⟨⟨?_, ?_⟩, ?_, ?_⟩
  · intro h
    have hhd : seqHeaderOk input := by
      by_contra hcon
      rcases parse_header_fail input hcon with hp | hp | hp <;>
        (rw [hp] at h; injection h with he; exact absurd he (by decide))
    refine ⟨hhd, ?_⟩
    rw [parse_eq_loop input hhd] at h
    cases hloop : seqLoop (seqBodyLines input) 0 (⟨[], [], false⟩, []) with
    | error e =>
      rw [hloop] at h
      injection h with he
      obtain ⟨n, t, ht | ht⟩ := seqLoop_error_shape _ _ _ _ hloop
      · rw [ht] at he
        have hh := congrArg (fun s => List.headD s ' ') he
        simp only at hh
        rw [dupMsg_headD] at hh
        exact absurd hh (by decide)
      · rw [ht] at he
        have hh := congrArg (fun s => List.headD s ' ') he
        simp only at hh
        rw [synMsg_headD] at hh
        exact absurd hh (by decide)
    | ok fin =>
      obtain ⟨d, p⟩ := fin
      rw [hloop] at h
      by_cases hd : d.participants = []
      · exact seqLoop_empty_all_auto _ _ _ _ hloop hd (by simp [asize])
      · have h' : (if d.participants = [] then
            Except.error "no participants found".data else Except.ok d) =
            Except.error "no participants found".data := h
        rw [if_neg hd] at h'
        exact Except.noConfusion h'
  · rintro ⟨hhd, hall⟩
    rw [parse_eq_loop input hhd]
    obtain ⟨fin, hfin, hp⟩ :=
      seqLoop_blank_auto_ok (seqBodyLines input) 0 (⟨[], [], false⟩, []) hall
    obtain ⟨d, p⟩ := fin
    rw [hfin]
    simp only at hp
    show (if d.participants = [] then
      Except.error "no participants found".data else Except.ok d) =
      Except.error "no participants found".data
    rw [if_pos hp]
  · intro d h
    exact (parse_ok_inv input d h).2.choose_spec.2
  · intro W config d hd
    rw [render, if_pos hd]

/-- Witness for C10 at the concrete input `sequenceDiagram\nautonumber`
(header present, only an autonumber body line): parsing yields the
`no participants found` error. -/
theorem c10_no_participants_iff_witness :
    parse "sequenceDiagram\nautonumber".data =
      Except.error "no participants found".data :=
  (c10_no_participants_iff "sequenceDiagram\nautonumber".data).1.mpr
    ⟨by decide, by decide⟩

/-- Counterexample to C10 as stated: the body of `sequenceDiagram\n???`
declares no participants and contains no messages, yet `parse` returns the
syntax error `line 2: invalid syntax: "???"`, not `no participants
found`. -/
theorem c10_counterexample :
    (∀ l ∈ seqBodyLines "sequenceDiagram\n???".data,
      participantMatch (trimStr l) = none ∧ messageMatch (trimStr l) = none) ∧
    parse "sequenceDiagram\n???".data = Except.error (synMsg 2 "???".data) ∧
    synMsg 2 "???".data ≠ "no participants found".data :=
  ⟨by decide, by rfl, by decide⟩

theorem foldl_add_shift (l : AList Int Int) : ∀ b : Int,
    l.foldl (fun acc e => acc + e.2) b = b + l.foldl (fun acc e => acc + e.2) 0 := by
  induction l with
  | nil => intro b; simp
  | cons e rest ih =>
    intro b
    simp only [List.foldl_cons]
    rw [ih (b + e.2), ih (0 + e.2)]
    ring

theorem avalsum_perm {l1 l2 : AList Int Int} (h : l1.Perm l2) :
    avalsum l1 = avalsum l2 := by
  unfold avalsum
  induction h with
  | nil => rfl
  | cons x _ ih =>
    simp only [List.foldl_cons]
    rw [foldl_add_shift, ih, ← foldl_add_shift]
  | swap x y l =>
    simp only [List.foldl_cons]
    congr 1
    ring
  | trans _ _ ih1 ih2 => exact ih1.trans ih2

theorem sds_ord_irrelevant (ord1 ord2 : List (Int × Int) → List (Int × Int))
    (h1 : ∀ l, (ord1 l).Perm l) (h2 : ∀ l, (ord2 l).Perm l) :
    set_drawing_size_to_grid_constraints ord1 =
      set_drawing_size_to_grid_constraints ord2 := by
  funext g
  unfold set_drawing_size_to_grid_constraints
  rw [avalsum_perm (h1 g.column_width), avalsum_perm (h1 g.row_height),
    avalsum_perm (h2 g.column_width), avalsum_perm (h2 g.row_height)]

/-- **C1** (confirmed).  `render_diagram` is deterministic: the only step of
the pipeline whose value is computed by iterating a `HashMap` in its
runtime-chosen order is the pair of `values().sum()` calls sizing the graph
canvas, and integer sums are invariant under the iteration order, so two
runs that present the map entries in any two orders return identical
results — the same error string or byte-identical output — for every input
and every valid configuration. -/
theorem c1_render_diagram_deterministic (W : Str → Nat) (fuel : Nat)
    (ord1 ord2 : List (Int × Int) → List (Int × Int))
    (h1 : ∀ l, (ord1 l).Perm l) (h2 : ∀ l, (ord2 l).Perm l)
    (input : Str) (config : Config) (hv : validate config = Except.ok ()) :
    render_diagram W ord1 fuel input config =
      render_diagram W ord2 fuel input config := by
  have hsds := sds_ord_irrelevant ord1 ord2 h1 h2
  simp only [render_diagram, graph_render, draw_map, create_mapping, hsds]

/-- Witness for C1: the identity iteration order against the reversed one,
on `graph LR\nA --> B` with the default configuration. -/
theorem c1_render_diagram_deterministic_witness :
    validate default_config = Except.ok () ∧
    render_diagram (fun s => s.length) id 2000 "graph LR\nA --> B".data
        default_config =
      render_diagram (fun s => s.length) (fun l => l.reverse) 2000
        "graph LR\nA --> B".data default_config :=
  ⟨by rfl,
    c1_render_diagram_deterministic (fun s => s.length) 2000 id
      (fun l => l.reverse) (fun l => List.Perm.refl l)
      (fun l => List.reverse_perm l) "graph LR\nA --> B".data default_config
      (by rfl)⟩

/-! #### Cell invariants for the graph canvas (toward C9) -/

/-- A string with no newline character. -/
def noNl (s : Str) : Prop := '\n' ∉ s

/-- A well-formed canvas cell: non-empty and newline-free. -/
def cellOK (c : Str) : Prop := c ≠ [] ∧ '\n' ∉ c

/-- Every cell of a canvas is well formed. -/
def cellsOK (d : Drawing) : Prop := ∀ col ∈ d, ∀ cell ∈ col, cellOK cell

instance (s : Str) : Decidable (noNl s) := by unfold noNl; infer_instance

instance (c : Str) : Decidable (cellOK c) := by unfold cellOK; infer_instance

theorem foldl_preserve {α β : Type} (P : α → Prop) (f : α → β → α) (l : List β) :
    ∀ acc, P acc → (∀ acc x, P acc → x ∈ l → P (f acc x)) → P (l.foldl f acc) := by
  induction l with
  | nil => intro acc h _; exact h
  | cons x xs ih =>
    intro acc h hstep
    exact ih (f acc x) (hstep acc x h (List.mem_cons_self x xs))
      (fun a y ha hy => hstep a y ha (List.mem_cons_of_mem x hy))

theorem foldlM_option_preserve {α β : Type} (P : α → Prop) (f : α → β → Option α)
    (l : List β) : ∀ acc res, P acc →
    (∀ acc x r, P acc → f acc x = some r → P r) →
    l.foldlM f acc = some res → P res := by
  induction l with
  | nil =>
    intro acc res h _ hres
    injection hres with hres
    exact hres ▸ h
  | cons x xs ih =>
    intro acc res h hstep hres
    simp only [List.foldlM_cons] at hres
    cases hf : f acc x with
    | none => rw [hf] at hres; exact Option.noConfusion hres
    | some a' =>
      rw [hf] at hres
      exact ih a' res (hstep acc x a' h hf) hstep hres

theorem getD_mem_or {α : Type} (l : List α) (i : Nat) (d : α) :
    l.getD i d ∈ l ∨ l.getD i d = d := by
  rcases Nat.lt_or_ge i l.length with hl | hl
  · left; rw [List.getD_eq_getElem _ _ hl]; exact List.getElem_mem hl
  · right; exact List.getD_eq_default _ _ hl

theorem forall_mem_set {α : Type} {P : α → Prop} {l : List α} {i : Nat} {v : α}
    (hl : ∀ a ∈ l, P a) (hv : P v) : ∀ a ∈ l.set i v, P a := by
  intro a ha
  rcases List.mem_or_eq_of_mem_set ha with h | h
  · exact hl a h
  · exact h ▸ hv

theorem cellOK_space : cellOK " ".data := by
  constructor
  · decide
  · decide

theorem dGet_ok {d : Drawing} (h : cellsOK d) (x y : Nat) : cellOK (dGet d x y) := by
  unfold dGet
  rcases getD_mem_or d x [] with hc | hc
  · rcases getD_mem_or (d.getD x []) y " ".data with he | he
    · exact h _ hc _ he
    · rw [he]; exact cellOK_space
  · rw [hc]
    rcases getD_mem_or ([] : List Str) y " ".data with he | he
    · cases he
    · rw [he]; exact cellOK_space

theorem cellsOK_mk_drawing (x y : Int) : cellsOK (mk_drawing x y) := by
  intro col hcol cell hcell
  unfold mk_drawing at hcol
  rw [List.eq_of_mem_replicate hcol] at hcell
  rw [List.eq_of_mem_replicate hcell]
  exact cellOK_space

theorem cellsOK_dSet {d : Drawing} (h : cellsOK d) {v : Str} (hv : cellOK v)
    (x y : Nat) : cellsOK (dSet d x y v) := by
  unfold dSet
  intro col hcol
  rcases List.mem_or_eq_of_mem_set hcol with hc | hc
  · exact h col hc
  · subst hc
    intro cell hcell
    rcases List.mem_or_eq_of_mem_set hcell with he | he
    · rcases getD_mem_or d x [] with hm | hm
      · exact h _ hm _ he
      · rw [hm] at he; cases he
    · exact he ▸ hv

theorem cellsOK_increase_size {d : Drawing} (h : cellsOK d) (x y : Int) :
    cellsOK (increase_size d x y) := by
  unfold increase_size
  intro col hcol cell hcell
  simp only [List.mem_map] at hcol
  obtain ⟨cx, _, hcx⟩ := hcol
  subst hcx
  simp only [List.mem_map] at hcell
  obtain ⟨cy, _, hcy⟩ := hcell
  subst hcy
  split
  · exact dGet_ok h cx cy
  · exact cellOK_space

theorem cellsOK_copy_canvas {d : Drawing} : cellsOK (copy_canvas d) :=
  cellsOK_mk_drawing _ _

theorem cellsOK_set_cell {d : Drawing} (h : cellsOK d) {v : Str} (hv : cellOK v)
    (x y : Int) : cellsOK (set_cell d x y v) := by
  unfold set_cell
  dsimp only
  split
  · exact h
  · split
    · exact cellsOK_dSet (cellsOK_increase_size h x y) hv _ _
    · exact cellsOK_dSet h hv _ _

theorem cellsOK_ite_set_cell {d : Drawing} (h : cellsOK d) {v : Str}
    (hv : cellOK v) (c : Prop) [Decidable c] (x y : Int) :
    cellsOK (if c then set_cell d x y v else d) := by
  split
  · exact cellsOK_set_cell h hv _ _
  · exact h

theorem merge_junctions_ok {c1 : Str} (h : cellOK c1) (c2 : Str) :
    cellOK (merge_junctions c1 c2) := by
  unfold merge_junctions
  dsimp only
  split
  · rename_i entries hfind
    split
    · rename_i pr hfind2
      have hmem := List.mem_of_find?_eq_some hfind2
      have hmem1 := List.mem_of_find?_eq_some hfind
      have : ∀ e ∈ ([
          ("─".data, [("│".data, "┼".data), ("┌".data, "┬".data), ("┐".data, "┬".data),
            ("└".data, "┴".data), ("┘".data, "┴".data), ("├".data, "┼".data),
            ("┤".data, "┼".data), ("┬".data, "┬".data), ("┴".data, "┴".data)]),
          ("│".data, [("─".data, "┼".data), ("┌".data, "├".data), ("┐".data, "┤".data),
            ("└".data, "├".data), ("┘".data, "┤".data), ("├".data, "├".data),
            ("┤".data, "┤".data), ("┬".data, "┼".data), ("┴".data, "┼".data)]),
          ("┌".data, [("─".data, "┬".data), ("│".data, "├".data), ("┐".data, "┬".data),
            ("└".data, "├".data), ("┘".data, "┼".data), ("├".data, "├".data),
            ("┤".data, "┼".data), ("┬".data, "┬".data), ("┴".data, "┼".data)]),
          ("┐".data, [("─".data, "┬".data), ("│".data, "┤".data), ("┌".data, "┬".data),
            ("└".data, "┼".data), ("┘".data, "┤".data), ("├".data, "┼".data),
            ("┤".data, "┤".data), ("┬".data, "┬".data), ("┴".data, "┼".data)]),
          ("└".data, [("─".data, "┴".data), ("│".data, "├".data), ("┌".data, "├".data),
            ("┐".data, "┼".data), ("┘".data, "┴".data), ("├".data, "├".data),
            ("┤".data, "┼".data), ("┬".data, "┼".data), ("┴".data, "┴".data)]),
          ("┘".data, [("─".data, "┴".data), ("│".data, "┤".data), ("┌".data, "┼".data),
            ("┐".data, "┤".data), ("└".data, "┴".data), ("├".data, "┼".data),
            ("┤".data, "┤".data), ("┬".data, "┼".data), ("┴".data, "┴".data)]),
          ("├".data, [("─".data, "┼".data), ("│".data, "├".data), ("┌".data, "├".data),
            ("┐".data, "┼".data), ("└".data, "├".data), ("┘".data, "┼".data),
            ("┤".data, "┼".data), ("┬".data, "┼".data), ("┴".data, "┼".data)]),
          ("┤".data, [("─".data, "┼".data), ("│".data, "┤".data), ("┌".data, "┼".data),
            ("┐".data, "┤".data), ("└".data, "┼".data), ("┘".data, "┤".data),
            ("├".data, "┼".data), ("┬".data, "┼".data), ("┴".data, "┼".data)]),
          ("┬".data, [("─".data, "┬".data), ("│".data, "┼".data), ("┌".data, "┬".data),
            ("┐".data, "┬".data), ("└".data, "┼".data), ("┘".data, "┼".data),
            ("├".data, "┼".data), ("┤".data, "┼".data), ("┴".data, "┼".data)]),
          ("┴".data, [("─".data, "┴".data), ("│".data, "┼".data), ("┌".data, "┼".data),
            ("┐".data, "┼".data), ("└".data, "┴".data), ("┘".data, "┴".data),
            ("├".data, "┼".data), ("┤".data, "┼".data), ("┬".data, "┼".data)])] :
          List (Str × List (Str × Str))), ∀ p ∈ e.2, cellOK p.2 := by
        decide
      exact this _ hmem1 _ hmem
    · exact h
  · exact h

theorem cellsOK_merge_drawings {base : Drawing} (hb : cellsOK base)
    {drawings : List Drawing} (hd : ∀ dr ∈ drawings, cellsOK dr)
    (offset : DrawingCoord) (ua : Bool) :
    cellsOK (merge_drawings base offset drawings ua) := by
  unfold merge_drawings
  dsimp only
  refine foldl_preserve cellsOK _ _ _ ?_ ?_
  · intro col hcol cell hcell
    simp only [List.mem_map] at hcol
    obtain ⟨cx, _, rfl⟩ := hcol
    simp only [List.mem_map] at hcell
    obtain ⟨cy, _, rfl⟩ := hcell
    split
    · exact dGet_ok hb cx cy
    · exact cellOK_space
  · intro acc dr hacc hdr
    refine foldl_preserve cellsOK _ _ _ hacc ?_
    intro acc2 x hacc2 _
    refine foldl_preserve cellsOK _ _ _ hacc2 ?_
    intro acc3 y hacc3 _
    dsimp only
    split
    · split
      · exact cellsOK_dSet hacc3 (merge_junctions_ok (dGet_ok hacc3 _ _) _) _ _
      · exact cellsOK_dSet hacc3 (dGet_ok (hd dr hdr) _ _) _ _
    · exact hacc3

theorem char_digit_ne_nl (m : Nat) (h : m < 10) : Char.ofNat (48 + m) ≠ '\n' := by
  interval_cases m <;> decide

theorem natToStrAux_chars : ∀ (fuel n : Nat), ∀ c ∈ natToStrAux fuel n, c ≠ '\n' := by
  intro fuel
  induction fuel with
  | zero => intro n c hc; cases hc
  | succ fuel ih =>
    intro n c hc
    rw [natToStrAux] at hc
    split at hc
    · rename_i hlt
      rw [List.mem_singleton] at hc
      exact hc ▸ char_digit_ne_nl n hlt
    · rcases List.mem_append.mp hc with hc | hc
      · exact ih _ c hc
      · rw [List.mem_singleton] at hc
        exact hc ▸ char_digit_ne_nl (n % 10) (Nat.mod_lt _ (by norm_num))

theorem natToStr_cellOK (n : Nat) : cellOK (natToStr n) := by
  constructor
  · unfold natToStr natToStrAux
    split
    · simp
    · simp
  · intro hc
    exact natToStrAux_chars _ _ _ hc rfl

theorem intToStr_cellOK (n : Int) : cellOK (intToStr n) := by
  unfold intToStr
  split
  · refine ⟨by simp, ?_⟩
    intro hc
    rcases List.mem_cons.mp hc with hc | hc
    · cases hc
    · exact natToStrAux_chars _ _ _ hc rfl
  · exact natToStr_cellOK _

theorem fmtW2_cellOK (n : Int) : cellOK (fmtW2 n) := by
  unfold fmtW2
  dsimp only
  split
  · refine ⟨by simp, ?_⟩
    intro hc
    rcases List.mem_cons.mp hc with hc | hc
    · cases hc
    · exact (intToStr_cellOK n).2 hc
  · exact intToStr_cellOK n

theorem cellOK_ite {b : Bool} {x y : Str} (hx : cellOK x) (hy : cellOK y) :
    cellOK (if b = true then x else y) := by
  split
  · exact hx
  · exact hy

theorem alookup_val_mem {α β : Type} [DecidableEq α] (m : AList α β) (k : α) (v : β)
    (h : alookup m k = some v) : ∃ e ∈ m, e.2 = v := by
  induction m with
  | nil => cases h
  | cons e rest ih =>
    rw [alookup] at h
    split at h
    · injection h with h
      exact ⟨e, List.mem_cons_self e rest, h⟩
    · obtain ⟨e', he', hv⟩ := ih h
      exact ⟨e', List.mem_cons_of_mem e he', hv⟩

theorem wrap_text_in_color_cellOK {text : Str} (ht : text ≠ []) (hn : noNl text)
    {color : Option Str} (hc : ∀ c, color = some c → noNl c) (style_type : Str) :
    cellOK (wrap_text_in_color text color style_type) := by
  unfold wrap_text_in_color
  match color with
  | none => exact ⟨ht, hn⟩
  | some c =>
    dsimp only
    split
    · refine ⟨by simp, ?_⟩
      intro hmem
      simp only [List.mem_append] at hmem
      rcases hmem with ((((( h1 | h2) | h3) | h4) | h5) | h6) | h7
      · revert h1; decide
      · revert h2; decide
      · revert h3; decide
      · exact hc c rfl h4
      · revert h5; decide
      · exact hn h6
      · revert h7; decide
    · exact ⟨ht, hn⟩

theorem noNl_singleton {c : Char} (h : c ≠ '\n') : noNl [c] := by
  intro hm
  rw [List.mem_singleton] at hm
  exact h hm.symm

theorem cellsOK_draw_box {node : Node} {g : Graph} (hname : noNl node.name)
    (hstyles : ∀ kv ∈ node.style_class.styles, noNl kv.2) :
    cellsOK (draw_box node g) := by
  unfold draw_box
  dsimp only
  have hglyph : ∀ (x y : Str), cellOK x → cellOK y →
      cellOK (if g.use_ascii = true then x else y) := by
    intro x y hx hy
    exact cellOK_ite hx hy
  refine foldl_preserve cellsOK _ _ _ ?_ ?_
  · refine cellsOK_set_cell (cellsOK_set_cell (cellsOK_set_cell (cellsOK_set_cell
      ?_ (hglyph _ _ (by decide) (by decide)) _ _)
      (hglyph _ _ (by decide) (by decide)) _ _)
      (hglyph _ _ (by decide) (by decide)) _ _)
      (hglyph _ _ (by decide) (by decide)) _ _
    refine foldl_preserve cellsOK _ _ _ ?_ ?_
    · refine foldl_preserve cellsOK _ _ _ (cellsOK_mk_drawing _ _) ?_
      intro acc x hacc _
      exact cellsOK_set_cell (cellsOK_set_cell hacc
        (hglyph _ _ (by decide) (by decide)) _ _)
        (hglyph _ _ (by decide) (by decide)) _ _
    · intro acc y hacc _
      exact cellsOK_set_cell (cellsOK_set_cell hacc
        (hglyph _ _ (by decide) (by decide)) _ _)
        (hglyph _ _ (by decide) (by decide)) _ _
  · intro acc p hacc hp
    refine cellsOK_set_cell hacc ?_ _ _
    refine wrap_text_in_color_cellOK (by simp) ?_ ?_ _
    · exact noNl_singleton (fun hc => hname (hc ▸ List.snd_mem_of_mem_enum hp))
    · intro c hc
      obtain ⟨e, he, hv⟩ := alookup_val_mem _ _ _ hc
      exact hv ▸ hstyles e he

theorem cellsOK_draw_subgraph (sg : Subgraph) (g : Graph) :
    cellsOK (draw_subgraph sg g) := by
  unfold draw_subgraph
  have hglyph : ∀ (x y : Str), cellOK x → cellOK y →
      cellOK (if g.use_ascii = true then x else y) := by
    intro x y hx hy
    exact cellOK_ite hx hy
  dsimp only
  split
  · exact cellsOK_mk_drawing _ _
  · refine cellsOK_set_cell (cellsOK_set_cell (cellsOK_set_cell (cellsOK_set_cell
      ?_ (hglyph _ _ (by decide) (by decide)) _ _)
      (hglyph _ _ (by decide) (by decide)) _ _)
      (hglyph _ _ (by decide) (by decide)) _ _)
      (hglyph _ _ (by decide) (by decide)) _ _
    refine foldl_preserve cellsOK _ _ _ ?_ ?_
    · refine foldl_preserve cellsOK _ _ _ (cellsOK_mk_drawing _ _) ?_
      intro acc x hacc _
      exact cellsOK_set_cell (cellsOK_set_cell hacc
        (hglyph _ _ (by decide) (by decide)) _ _)
        (hglyph _ _ (by decide) (by decide)) _ _
    · intro acc y hacc _
      exact cellsOK_set_cell (cellsOK_set_cell hacc
        (hglyph _ _ (by decide) (by decide)) _ _)
        (hglyph _ _ (by decide) (by decide)) _ _

theorem cellsOK_draw_subgraph_label {sg : Subgraph} (hname : noNl sg.name) :
    cellsOK (draw_subgraph_label sg).1 := by
  unfold draw_subgraph_label
  dsimp only
  split
  · exact cellsOK_mk_drawing _ _
  · dsimp only
    refine foldl_preserve cellsOK _ _ _ (cellsOK_mk_drawing _ _) ?_
    intro acc p hacc hp
    have hcell : cellOK [p.2] :=
      ⟨by simp, noNl_singleton (fun hc => hname (hc ▸ List.snd_mem_of_mem_enum hp))⟩
    exact cellsOK_ite_set_cell hacc hcell _ _ _

theorem cellsOK_draw_line {g : Graph} {d : Drawing} (hd : cellsOK d)
    (fr to2 : DrawingCoord) (o1 o2 : Int) :
    cellsOK (draw_line g d fr to2 o1 o2).1 := by
  unfold draw_line
  have hglyph : ∀ (x y : Str), cellOK x → cellOK y →
      cellOK (if g.use_ascii = true then x else y) := by
    intro x y hx hy
    exact cellOK_ite hx hy
  dsimp only
  split
  · exact foldl_preserve cellsOK _ _ _ hd
      (fun acc x hacc _ => cellsOK_set_cell hacc (hglyph _ _ (by decide) (by decide)) _ _)
  · split
    · exact foldl_preserve cellsOK _ _ _ hd
        (fun acc x hacc _ => cellsOK_set_cell hacc (hglyph _ _ (by decide) (by decide)) _ _)
    · split
      · exact foldl_preserve cellsOK _ _ _ hd
          (fun acc x hacc _ => cellsOK_set_cell hacc (hglyph _ _ (by decide) (by decide)) _ _)
      · split
        · exact foldl_preserve cellsOK _ _ _ hd
            (fun acc x hacc _ => cellsOK_set_cell hacc (hglyph _ _ (by decide) (by decide)) _ _)
        · split
          · exact foldl_preserve cellsOK _ _ _ hd
              (fun acc c hacc _ => cellsOK_set_cell hacc (hglyph _ _ (by decide) (by decide)) _ _)
          · split
            · exact foldl_preserve cellsOK _ _ _ hd
                (fun acc c hacc _ => cellsOK_set_cell hacc (hglyph _ _ (by decide) (by decide)) _ _)
            · split
              · exact foldl_preserve cellsOK _ _ _ hd
                  (fun acc c hacc _ => cellsOK_set_cell hacc (hglyph _ _ (by decide) (by decide)) _ _)
              · split
                · exact foldl_preserve cellsOK _ _ _ hd
                    (fun acc c hacc _ => cellsOK_set_cell hacc (hglyph _ _ (by decide) (by decide)) _ _)
                · exact hd

theorem cellsOK_draw_path (g : Graph) (hg : cellsOK g.drawing) (path : List GridCoord) :
    cellsOK (draw_path g path).1 := by
  unfold draw_path
  dsimp only
  refine foldl_preserve
    (fun (st : (Drawing × List (List DrawingCoord) × List Direction) × GridCoord) =>
      cellsOK st.1.1) _ _ _ cellsOK_copy_canvas ?_
  intro acc next hacc _
  dsimp only
  split
  · exact hacc
  · exact cellsOK_draw_line hacc _ _ _ _

theorem cellsOK_draw_box_start (g : Graph) (hg : cellsOK g.drawing)
    (path : List GridCoord) (fl : List DrawingCoord) :
    cellsOK (draw_box_start g path fl) := by
  unfold draw_box_start
  dsimp only
  split
  · exact cellsOK_copy_canvas
  · split
    · exact cellsOK_set_cell cellsOK_copy_canvas (by decide) _ _
    · split
      · exact cellsOK_set_cell cellsOK_copy_canvas (by decide) _ _
      · split
        · exact cellsOK_set_cell cellsOK_copy_canvas (by decide) _ _
        · split
          · exact cellsOK_set_cell cellsOK_copy_canvas (by decide) _ _
          · exact cellsOK_copy_canvas

theorem cellOK_arrow_head_glyph (ua : Bool) (dir fallback : Direction) :
    cellOK (arrow_head_glyph ua dir fallback) := by
  unfold arrow_head_glyph
  by_cases h0 : ¬ua = true
  · rw [if_pos h0]
    by_cases h4_0 : dir = UP
    · rw [if_pos h4_0]; decide
    rw [if_neg h4_0]
    by_cases h4_1 : dir = DOWN
    · rw [if_pos h4_1]; decide
    rw [if_neg h4_1]
    by_cases h4_2 : dir = LEFT
    · rw [if_pos h4_2]; decide
    rw [if_neg h4_2]
    by_cases h4_3 : dir = RIGHT
    · rw [if_pos h4_3]; decide
    rw [if_neg h4_3]
    by_cases h4_4 : dir = UPPER_RIGHT
    · rw [if_pos h4_4]; decide
    rw [if_neg h4_4]
    by_cases h4_5 : dir = UPPER_LEFT
    · rw [if_pos h4_5]; decide
    rw [if_neg h4_5]
    by_cases h4_6 : dir = LOWER_RIGHT
    · rw [if_pos h4_6]; decide
    rw [if_neg h4_6]
    by_cases h4_7 : dir = LOWER_LEFT
    · rw [if_pos h4_7]; decide
    rw [if_neg h4_7]
    by_cases h4_8 : fallback = UP
    · rw [if_pos h4_8]; decide
    rw [if_neg h4_8]
    by_cases h4_9 : fallback = DOWN
    · rw [if_pos h4_9]; decide
    rw [if_neg h4_9]
    by_cases h4_10 : fallback = LEFT
    · rw [if_pos h4_10]; decide
    rw [if_neg h4_10]
    by_cases h4_11 : fallback = RIGHT
    · rw [if_pos h4_11]; decide
    rw [if_neg h4_11]
    by_cases h4_12 : fallback = UPPER_RIGHT
    · rw [if_pos h4_12]; decide
    rw [if_neg h4_12]
    by_cases h4_13 : fallback = UPPER_LEFT
    · rw [if_pos h4_13]; decide
    rw [if_neg h4_13]
    by_cases h4_14 : fallback = LOWER_RIGHT
    · rw [if_pos h4_14]; decide
    rw [if_neg h4_14]
    by_cases h4_15 : fallback = LOWER_LEFT
    · rw [if_pos h4_15]; decide
    rw [if_neg h4_15]
    decide
  · rw [if_neg h0]
    by_cases h4_0 : dir = UP
    · rw [if_pos h4_0]; decide
    rw [if_neg h4_0]
    by_cases h4_1 : dir = DOWN
    · rw [if_pos h4_1]; decide
    rw [if_neg h4_1]
    by_cases h4_2 : dir = LEFT
    · rw [if_pos h4_2]; decide
    rw [if_neg h4_2]
    by_cases h4_3 : dir = RIGHT
    · rw [if_pos h4_3]; decide
    rw [if_neg h4_3]
    by_cases h4_4 : fallback = UP
    · rw [if_pos h4_4]; decide
    rw [if_neg h4_4]
    by_cases h4_5 : fallback = DOWN
    · rw [if_pos h4_5]; decide
    rw [if_neg h4_5]
    by_cases h4_6 : fallback = LEFT
    · rw [if_pos h4_6]; decide
    rw [if_neg h4_6]
    by_cases h4_7 : fallback = RIGHT
    · rw [if_pos h4_7]; decide
    rw [if_neg h4_7]
    decide

theorem cellOK_corner_glyph (ua : Bool) (prev_dir next_dir : Direction) :
    cellOK (corner_glyph ua prev_dir next_dir) := by
  unfold corner_glyph
  by_cases h0 : ¬ua = true
  · rw [if_pos h0]
    by_cases h4_0 : ((prev_dir = RIGHT ∧ next_dir = DOWN) ∨ (prev_dir = UP ∧ next_dir = LEFT))
    · rw [if_pos h4_0]; decide
    rw [if_neg h4_0]
    by_cases h4_1 : ((prev_dir = RIGHT ∧ next_dir = UP) ∨ (prev_dir = DOWN ∧ next_dir = LEFT))
    · rw [if_pos h4_1]; decide
    rw [if_neg h4_1]
    by_cases h4_2 : ((prev_dir = LEFT ∧ next_dir = DOWN) ∨ (prev_dir = UP ∧ next_dir = RIGHT))
    · rw [if_pos h4_2]; decide
    rw [if_neg h4_2]
    by_cases h4_3 : ((prev_dir = LEFT ∧ next_dir = UP) ∨ (prev_dir = DOWN ∧ next_dir = RIGHT))
    · rw [if_pos h4_3]; decide
    rw [if_neg h4_3]
    decide
  · rw [if_neg h0]
    decide

theorem cellsOK_draw_arrow_head (g : Graph) (hg : cellsOK g.drawing)
    (line : List DrawingCoord) (fallback : Direction) :
    cellsOK (draw_arrow_head g line fallback) := by
  unfold draw_arrow_head
  dsimp only
  split
  · exact cellsOK_copy_canvas
  · exact cellsOK_set_cell cellsOK_copy_canvas (cellOK_arrow_head_glyph _ _ _) _ _

theorem cellsOK_draw_corners (g : Graph) (hg : cellsOK g.drawing)
    (path : List GridCoord) : cellsOK (draw_corners g path) := by
  unfold draw_corners
  refine foldl_preserve cellsOK _ _ _ cellsOK_copy_canvas ?_
  intro acc idx hacc _
  dsimp only
  exact cellsOK_set_cell hacc (cellOK_corner_glyph _ _ _) _ _

theorem cellsOK_draw_text {d : Drawing} (hd : cellsOK d) (start : DrawingCoord)
    {text : Str} (ht : noNl text) : cellsOK (draw_text d start text) := by
  unfold draw_text
  dsimp only
  refine foldl_preserve cellsOK _ _ _ (cellsOK_increase_size hd _ _) ?_
  intro acc p hacc hp
  refine cellsOK_set_cell hacc ?_ _ _
  exact ⟨by simp, noNl_singleton (fun hc => ht (hc ▸ List.snd_mem_of_mem_enum hp))⟩

theorem cellsOK_draw_text_on_line {d : Drawing} (hd : cellsOK d)
    (line : List DrawingCoord) {label : Str} (hl : noNl label) :
    cellsOK (draw_text_on_line d line label) := by
  unfold draw_text_on_line
  split
  · exact hd
  · exact cellsOK_draw_text hd _ hl

theorem cellsOK_draw_arrow_label (g : Graph) (hg : cellsOK g.drawing)
    {edge : Edge} (he : noNl edge.text) : cellsOK (draw_arrow_label g edge) := by
  unfold draw_arrow_label
  dsimp only
  split
  · exact cellsOK_copy_canvas
  · exact cellsOK_draw_text_on_line cellsOK_copy_canvas _ he

theorem cellsOK_draw_edge (g : Graph) (hg : cellsOK g.drawing) (ei : Nat)
    (he : ∀ e ∈ g.edges, noNl e.text) :
    cellsOK (draw_edge g ei).1 ∧ cellsOK (draw_edge g ei).2.1 ∧
    cellsOK (draw_edge g ei).2.2.1 ∧ cellsOK (draw_edge g ei).2.2.2.1 ∧
    cellsOK (draw_edge g ei).2.2.2.2 := by
  have hetext : noNl (g.edges.getD ei defaultEdge).text := by
    rcases getD_mem_or g.edges ei defaultEdge with hm | hm
    · exact he _ hm
    · rw [hm]; intro hc; cases hc
  unfold draw_edge
  dsimp only
  split
  · refine ⟨cellsOK_mk_drawing _ _, cellsOK_mk_drawing _ _, cellsOK_mk_drawing _ _,
      cellsOK_mk_drawing _ _, cellsOK_mk_drawing _ _⟩
  · unfold draw_arrow
    split
    · exact ⟨cellsOK_mk_drawing _ _, cellsOK_mk_drawing _ _, cellsOK_mk_drawing _ _,
        cellsOK_mk_drawing _ _, cellsOK_mk_drawing _ _⟩
    · dsimp only
      exact ⟨cellsOK_draw_path g hg _, cellsOK_draw_box_start g hg _ _,
        cellsOK_draw_arrow_head g hg _ _, cellsOK_draw_corners g hg _,
        cellsOK_draw_arrow_label g hg hetext⟩

theorem cellsOK_debug_drawing_wrapper {d : Drawing} (hd : cellsOK d) :
    cellsOK (debug_drawing_wrapper d) := by
  unfold debug_drawing_wrapper
  dsimp only
  refine foldl_preserve cellsOK _ _ _ ?_ ?_
  · refine foldl_preserve cellsOK _ _ _ ?_ ?_
    · refine foldl_preserve cellsOK _ _ _ (cellsOK_mk_drawing _ _) ?_
      intro acc x hacc _
      exact cellsOK_set_cell hacc (intToStr_cellOK _) _ _
    · intro acc y hacc _
      exact cellsOK_set_cell hacc (fmtW2_cellOK _) _ _
  · intro acc x hacc _
    refine foldl_preserve cellsOK _ _ _ hacc ?_
    intro acc2 y hacc2 _
    dsimp only
    split
    · exact cellsOK_dSet hacc2 (dGet_ok hd _ _) _ _
    · exact hacc2

theorem cellsOK_dcwCols (g : Graph) (maxX : Int) : ∀ (n : Nat) (x cx : Int)
    {dbg : Drawing}, cellsOK dbg → cellsOK (dcwCols g maxX n x cx dbg) := by
  intro n
  induction n with
  | zero => intro x cx dbg h; exact h
  | succ n ih =>
    intro x cx dbg h
    rw [dcwCols]
    split
    · exact h
    · exact ih _ _ (cellsOK_set_cell h (intToStr_cellOK _) _ _)

theorem cellsOK_dcwRows (g : Graph) (maxY : Int) : ∀ (n : Nat) (y cy : Int)
    {dbg : Drawing}, cellsOK dbg → cellsOK (dcwRows g maxY n y cy dbg) := by
  intro n
  induction n with
  | zero => intro y cy dbg h; exact h
  | succ n ih =>
    intro y cy dbg h
    rw [dcwRows]
    split
    · exact h
    · exact ih _ _ (cellsOK_set_cell h (intToStr_cellOK _) _ _)

theorem cellsOK_debug_coord_wrapper {d : Drawing} (g : Graph) (hd : cellsOK d) :
    cellsOK (debug_coord_wrapper d g) := by
  unfold debug_coord_wrapper
  dsimp only
  refine cellsOK_merge_drawings ?_ ?_ _ _
  · exact cellsOK_dcwRows g _ _ _ _ (cellsOK_dcwCols g _ _ _ _ (cellsOK_mk_drawing _ _))
  · intro dr hdr
    rw [List.mem_singleton] at hdr
    exact hdr ▸ hd

theorem foldl_append_ok : ∀ (pieces : List Str) (acc : Str),
    (∀ p ∈ pieces, p ≠ [] ∧ '\n' ∉ p) → '\n' ∉ acc → (pieces ≠ [] ∨ acc ≠ []) →
    pieces.foldl (· ++ ·) acc ≠ [] ∧ '\n' ∉ pieces.foldl (· ++ ·) acc := by
  intro pieces
  induction pieces with
  | nil =>
    intro acc _ hacc hne
    refine ⟨?_, hacc⟩
    rcases hne with h | h
    · exact absurd rfl h
    · exact h
  | cons p ps ih =>
    intro acc hp hacc _
    have hp0 := hp p (List.mem_cons_self p ps)
    refine ih (acc ++ p) (fun q hq => hp q (List.mem_cons_of_mem p hq)) ?_ ?_
    · intro hc
      rcases List.mem_append.mp hc with hc | hc
      · exact hacc hc
      · exact hp0.2 hc
    · right
      intro hc
      rcases List.append_eq_nil.mp hc with ⟨_, hc2⟩
      exact hp0.1 hc2

theorem get_drawing_size_fst_nonneg (d : Drawing) : 0 ≤ (get_drawing_size d).1 := by
  unfold get_drawing_size
  split
  · exact le_refl 0
  · rename_i hne
    have : d.length ≠ 0 := fun hc => hne (List.isEmpty_iff_length_eq_zero.mpr hc)
    dsimp only
    omega

theorem joinRows_last : ∀ (rs : List Str) (acc : Str), acc ≠ [] →
    acc.getLast? ≠ some '\n' → (∀ row ∈ rs, row ≠ [] ∧ '\n' ∉ row) →
    (rs.foldl (fun acc row => acc ++ '\n' :: row) acc) ≠ [] ∧
    (rs.foldl (fun acc row => acc ++ '\n' :: row) acc).getLast? ≠ some '\n' := by
  intro rs
  induction rs with
  | nil => intro acc h1 h2 _; exact ⟨h1, h2⟩
  | cons row rows ih =>
    intro acc h1 h2 hrows
    have hrow := hrows row (List.mem_cons_self row rows)
    simp only [List.foldl_cons]
    refine ih (acc ++ '\n' :: row) (by simp) ?_
      (fun r hr => hrows r (List.mem_cons_of_mem row hr))
    rw [List.getLast?_append_of_ne_nil acc (by simp)]
    intro hc
    have hmem := List.mem_of_mem_getLast? hc
    rcases List.mem_cons.mp hmem with hm | hm
    · have : ('\n' :: row).getLast? = row.getLast? := by
        cases hrow' : row with
        | nil => exact absurd hrow' hrow.1
        | cons a as => simp
      rw [this] at hc
      exact hrow.2 (List.mem_of_mem_getLast? hc)
    · exact hrow.2 hm

theorem drawing_to_string_no_trailing_nl {d : Drawing} (h : cellsOK d) :
    (drawing_to_string d).getLast? ≠ some '\n' := by
  unfold drawing_to_string
  dsimp only
  have hrowOK : ∀ row ∈ (List.range ((get_drawing_size d).2 + 1).toNat).map (fun y =>
      ((List.range ((get_drawing_size d).1 + 1).toNat).map (fun x => dGet d x y)).foldl
        (· ++ ·) []),
      row ≠ [] ∧ '\n' ∉ row := by
    intro row hrow
    simp only [List.mem_map] at hrow
    obtain ⟨y, _, rfl⟩ := hrow
    refine foldl_append_ok _ [] ?_ (by simp) ?_
    · intro p hp
      simp only [List.mem_map] at hp
      obtain ⟨x, _, rfl⟩ := hp
      exact dGet_ok h x y
    · left
      have h1 : 0 ≤ (get_drawing_size d).1 := get_drawing_size_fst_nonneg d
      have : ((get_drawing_size d).1 + 1).toNat ≠ 0 := by omega
      simp [List.range_eq_nil, this]
  split
  · simp
  · rename_i r rs hrows
    have hr : r ∈ (List.range ((get_drawing_size d).2 + 1).toNat).map (fun y =>
        ((List.range ((get_drawing_size d).1 + 1).toNat).map (fun x => dGet d x y)).foldl
          (· ++ ·) []) := by
      rw [hrows]; exact List.mem_cons_self r rs
    have hrs : ∀ row ∈ rs, row ≠ [] ∧ '\n' ∉ row := by
      intro row hrow
      refine hrowOK row ?_
      rw [hrows]
      exact List.mem_cons_of_mem r hrow
    have hrOK := hrowOK r hr
    refine (joinRows_last rs r hrOK.1 ?_ hrs).2
    intro hc
    exact hrOK.2 (List.mem_of_mem_getLast? hc)

/-! #### Newline-freeness of parsed graph strings (toward C9) -/

def subChars (a b : Str) : Prop := ∀ c ∈ a, c ∈ b

theorem subChars_refl (a : Str) : subChars a a := fun _ h => h

theorem subChars_trans {a b c : Str} (h1 : subChars a b) (h2 : subChars b c) :
    subChars a c := fun x hx => h2 x (h1 x hx)

theorem subChars_take (s : Str) (n : Nat) : subChars (s.take n) s :=
  fun _ h => List.mem_of_mem_take h

theorem subChars_drop (s : Str) (n : Nat) : subChars (s.drop n) s :=
  fun _ h => List.mem_of_mem_drop h

theorem subChars_dropWhile (p : Char → Bool) (s : Str) :
    subChars (s.dropWhile p) s := fun _ h => List.dropWhile_subset p h

theorem subChars_trim (s : Str) : subChars (trimStr s) s := by
  intro c hc
  unfold trimStr at hc
  rw [List.mem_reverse] at hc
  have h1 := List.dropWhile_subset isWS hc
  rw [List.mem_reverse] at h1
  exact List.dropWhile_subset isWS h1

theorem noNl_of_sub {a b : Str} (h : subChars a b) (hb : noNl b) : noNl a :=
  fun hc => hb (h _ hc)

theorem subChars_cons (c : Char) (s : Str) : subChars s (c :: s) :=
  fun _ h => List.mem_cons_of_mem c h

theorem givebackMatch_some {α : Type} (s : Str) (cont : Str → Option α) :
    ∀ (len : Nat) (tok : Str) (res : α),
    givebackMatch s cont len = some (tok, res) →
    ∃ l, tok = s.take l ∧ cont (s.drop l) = some res := by
  intro len
  induction len with
  | zero => intro tok res h; cases h
  | succ len ih =>
    intro tok res h
    rw [givebackMatch] at h
    split at h
    · rename_i hcont
      injection h with h
      injection h with h1 h2
      exact ⟨len + 1, h1.symm, by rw [hcont, h2]⟩
    · exact ih tok res h

theorem wsPlus_some {α : Type} (r : Str) (cont : Str → Option α) (a : α)
    (h : wsPlus r cont = some a) : ∃ l, cont (r.drop l) = some a := by
  unfold wsPlus at h
  rw [Option.map_eq_some'] at h
  obtain ⟨⟨tok, res⟩, hg, hres⟩ := h
  obtain ⟨l, _, hc⟩ := givebackMatch_some r cont _ tok res hg
  exact ⟨l, by rw [hc]; exact congrArg some hres⟩

theorem tailCont_sub {r t : Str} (h : tailCont r = some t) : subChars t r := by
  obtain ⟨l, hc⟩ := wsPlus_some _ _ _ h
  split at hc
  · cases hc
  · injection hc with hc
    exact hc ▸ subChars_drop r l

theorem arrowRestCont_sub {r rhs : Str} (h : arrowRestCont r = some rhs) :
    subChars rhs r := by
  obtain ⟨l, hc⟩ := wsPlus_some _ _ _ h
  dsimp only at hc
  split at hc
  · exact subChars_trans (subChars_trans (tailCont_sub hc) (subChars_drop _ 3))
      (subChars_drop r l)
  · cases hc

theorem arrowMatch_sub {line lhs rhs : Str} (h : arrowMatch line = some (lhs, rhs)) :
    subChars lhs line ∧ subChars rhs line := by
  obtain ⟨l, htok, hc⟩ := givebackMatch_some _ _ _ _ _ h
  exact ⟨htok ▸ subChars_take line l,
    subChars_trans (arrowRestCont_sub hc) (subChars_drop line l)⟩

theorem labelRestCont_sub {r lbl rhs : Str}
    (h : labelRestCont r = some (lbl, rhs)) : subChars lbl r ∧ subChars rhs r := by
  obtain ⟨l, hc⟩ := wsPlus_some _ _ _ h
  dsimp only at hc
  split at hc
  · obtain ⟨l2, htok, hc2⟩ := givebackMatch_some _ _ _ _ _ hc
    have hsub1 : subChars lbl r :=
      htok ▸ subChars_trans (subChars_trans (subChars_take _ l2) (subChars_drop _ 4))
        (subChars_drop r l)
    refine ⟨hsub1, ?_⟩
    split at hc2
    next r3 heq =>
      refine subChars_trans (tailCont_sub hc2) ?_
      intro ch hch
      have hm : ch ∈ '|' :: r3 := List.mem_cons_of_mem _ hch
      rw [← heq] at hm
      exact (subChars_trans (subChars_trans (subChars_drop _ l2) (subChars_drop _ 4))
        (subChars_drop r l)) ch hm
    next =>
      cases hc2
  · cases hc

theorem labelArrowMatch_sub {line lhs lbl rhs : Str}
    (h : labelArrowMatch line = some (lhs, lbl, rhs)) :
    subChars lhs line ∧ subChars lbl line ∧ subChars rhs line := by
  unfold labelArrowMatch at h
  rw [Option.map_eq_some'] at h
  obtain ⟨⟨tok, res⟩, hg, hres⟩ := h
  obtain ⟨r1, r2⟩ := res
  obtain ⟨l, htok, hc⟩ := givebackMatch_some _ _ _ _ _ hg
  have hs := labelRestCont_sub hc
  injection hres with h1 h2
  injection h2 with h2 h3
  subst h1 h2 h3
  exact ⟨htok ▸ subChars_take line l,
    subChars_trans hs.1 (subChars_drop line l),
    subChars_trans hs.2 (subChars_drop line l)⟩

theorem classDefMatch_sub {line cname styles : Str}
    (h : classDefMatch line = some (cname, styles)) :
    subChars cname line ∧ subChars styles line := by
  unfold classDefMatch at h
  split at h
  · obtain ⟨l, hc⟩ := wsPlus_some _ _ _ h
    obtain ⟨l2, htok, hc2⟩ := givebackMatch_some _ _ _ _ _ hc
    constructor
    · exact htok ▸ subChars_trans (subChars_trans (subChars_take _ l2)
        (subChars_drop _ l)) (subChars_drop line 8)
    · exact subChars_trans (subChars_trans (subChars_trans (tailCont_sub hc2)
        (subChars_drop _ l2)) (subChars_drop _ l)) (subChars_drop line 8)
  · cases h

theorem ampMatch_sub {line lhs rhs : Str} (h : ampMatch line = some (lhs, rhs)) :
    subChars lhs line ∧ subChars rhs line := by
  obtain ⟨l, htok, hc⟩ := givebackMatch_some _ _ _ _ _ h
  dsimp only at hc
  split at hc
  · split at hc
    · cases hc
    · injection hc with hc
      exact ⟨htok ▸ subChars_take line l,
        hc ▸ subChars_trans (subChars_drop _ 3) (subChars_drop line l)⟩
  · cases hc

theorem parse_node_sub (line : Str) :
    subChars (parse_node line).name line ∧ subChars (parse_node line).style_class line := by
  unfold parse_node
  dsimp only
  split
  next nm st hg =>
    obtain ⟨l, htok, hc⟩ := givebackMatch_some _ _ _ _ _ hg
    dsimp only [nodeSuffixCont] at hc
    split at hc
    · split at hc
      · cases hc
      · injection hc with hc
        constructor
        · exact subChars_trans (subChars_trim nm)
            (htok ▸ subChars_trans (subChars_take _ l) (subChars_trim line))
        · exact subChars_trans (subChars_trim st)
            (hc ▸ subChars_trans (subChars_trans (subChars_drop _ 3)
              (subChars_drop _ l)) (subChars_trim line))
    · cases hc
  next hg =>
    exact ⟨subChars_trim line, fun c hc => absurd hc (List.not_mem_nil c)⟩

theorem subgraphMatch_sub {t nm : Str} (h : subgraphMatch t = some nm) :
    subChars nm t := by
  unfold subgraphMatch at h
  dsimp only at h
  split at h
  · exact subChars_trans (subChars_trans (tailCont_sub h) (subChars_drop _ 8))
      (subChars_dropWhile isWS t)
  · cases h

theorem splitChar_mem (sep : Char) : ∀ (s acc p : Str),
    p ∈ splitChar sep s acc → ∀ c ∈ p, c ∈ acc ∨ c ∈ s := by
  intro s
  induction s with
  | nil =>
    intro acc p hp c hc
    rw [splitChar, List.mem_singleton] at hp
    subst hp
    rw [List.mem_reverse] at hc
    exact Or.inl hc
  | cons a rest ih =>
    intro acc p hp c hc
    rw [splitChar] at hp
    split at hp
    · rcases List.mem_cons.mp hp with hp | hp
      · subst hp
        rw [List.mem_reverse] at hc
        exact Or.inl hc
      · rcases ih [] p hp c hc with h | h
        · cases h
        · exact Or.inr (List.mem_cons_of_mem a h)
    · rcases ih (a :: acc) p hp c hc with h | h
      · rcases List.mem_cons.mp h with h | h
        · exact Or.inr (h ▸ List.mem_cons_self a rest)
        · exact Or.inl h
      · exact Or.inr (List.mem_cons_of_mem a h)

theorem aupsert_mem {α β : Type} [DecidableEq α] {m : AList α β} {k : α} {v : β}
    {e : α × β} (h : e ∈ aupsert m k v) : e ∈ m ∨ e = (k, v) := by
  induction m with
  | nil =>
    rw [aupsert, List.mem_singleton] at h
    exact Or.inr h
  | cons e' rest ih =>
    rw [aupsert] at h
    split at h
    · rcases List.mem_cons.mp h with h | h
      · exact Or.inr h
      · exact Or.inl (List.mem_cons_of_mem e' h)
    · rcases List.mem_cons.mp h with h | h
      · exact Or.inl (h ▸ List.mem_cons_self e' rest)
      · rcases ih h with h2 | h2
        · exact Or.inl (List.mem_cons_of_mem e' h2)
        · exact Or.inr h2

theorem splitN2_snd_sub (sep : Char) (s : Str) : subChars (splitN2 sep s).2 s := by
  unfold splitN2
  split
  · exact fun c hc => List.mem_of_mem_drop hc
  · exact fun c hc => absurd hc (List.not_mem_nil c)

theorem parse_style_class_values {name styles : Str} {kv : Str × Str}
    (h : kv ∈ (parse_style_class name styles).styles) : subChars kv.2 styles := by
  unfold parse_style_class at h
  dsimp only at h
  have hmain : ∀ kv2 ∈ (splitChar ',' styles []).foldl
      (fun m style => aupsert m (splitN2 ':' style).1 (splitN2 ':' style).2)
      ([] : AList Str Str), subChars kv2.2 styles := by
    refine foldl_preserve
      (fun (m : AList Str Str) => ∀ kv2 ∈ m, subChars kv2.2 styles) _ _ _ ?_ ?_
    · intro kv2 hkv2
      cases hkv2
    · intro acc piece hacc hpiece kv2 hkv2
      rcases aupsert_mem hkv2 with h2 | h2
      · exact hacc kv2 h2
      · subst h2
        refine subChars_trans (splitN2_snd_sub ':' piece) ?_
        intro c hc
        rcases splitChar_mem ',' styles [] piece hpiece c hc with h3 | h3
        · cases h3
        · exact h3
  exact hmain kv h


/-! #### Newline-freeness of the parsed graph model (toward C9) -/

theorem split_lines_aux_noNl : ∀ (n : Nat) (s acc : Str), s.length ≤ n → noNl acc →
    ∀ p ∈ split_lines_aux s acc, noNl p := by
  intro n
  induction n with
  | zero =>
    intro s acc hlen hacc p hp
    have hs : s = [] := List.eq_nil_of_length_eq_zero (Nat.le_zero.mp hlen)
    subst hs
    rw [split_lines_aux, List.mem_singleton] at hp
    subst hp
    intro hc
    exact hacc (List.mem_reverse.mp hc)
  | succ n ih =>
    intro s acc hlen hacc p hp
    rw [split_lines_aux.eq_def] at hp
    split at hp
    · rw [List.mem_singleton] at hp
      subst hp
      intro hc
      exact hacc (List.mem_reverse.mp hc)
    · rename_i rest
      rcases List.mem_cons.mp hp with hp | hp
      · subst hp
        intro hc
        exact hacc (List.mem_reverse.mp hc)
      · refine ih rest [] ?_ (fun hc => absurd hc (List.not_mem_nil _)) p hp
        have := hlen
        simp only [List.length_cons] at this
        omega
    · rename_i rest
      rcases List.mem_cons.mp hp with hp | hp
      · subst hp
        intro hc
        exact hacc (List.mem_reverse.mp hc)
      · refine ih rest [] ?_ (fun hc => absurd hc (List.not_mem_nil _)) p hp
        have := hlen
        simp only [List.length_cons] at this
        omega
    · rename_i c rest h1 h2
      refine ih rest (c :: acc) ?_ ?_ p hp
      · have := hlen
        simp only [List.length_cons] at this
        omega
      · intro hc
        rcases List.mem_cons.mp hc with hc | hc
        · exact h1 hc.symm
        · exact hacc hc


/-- Invariant of the parsed edge map: all node names and edge labels are
newline-free. -/
def dataOK (data : AList Str (List TextEdge)) : Prop :=
  ∀ e ∈ data, noNl e.1 ∧ ∀ te ∈ e.2,
    noNl te.parent.name ∧ noNl te.child.name ∧ noNl te.label

/-- Invariant of the style-class map: all style values are newline-free. -/
def classesOK (classes : AList Str StyleClass) : Prop :=
  ∀ c ∈ classes, ∀ kv ∈ c.2.styles, noNl kv.2

/-- All node names in a list are newline-free. -/
def nodesOK (ns : List TextNode) : Prop := ∀ n ∈ ns, noNl n.name

theorem add_node_ok {node : TextNode} {data : AList Str (List TextEdge)}
    (hd : dataOK data) (hn : noNl node.name) : dataOK (add_node node data) := by
  unfold add_node
  split
  · intro e he
    rcases List.mem_append.mp he with h | h
    · exact hd e h
    · rw [List.mem_singleton] at h
      subst h
      exact ⟨hn, fun te hte => absurd hte (List.not_mem_nil _)⟩
  · exact hd

theorem amodify_mem {α β : Type} [DecidableEq α] {m : AList α β} {k : α} {f : β → β}
    {e : α × β} (h : e ∈ amodify m k f) :
    ∃ e0 ∈ m, e.1 = e0.1 ∧ (e.2 = e0.2 ∨ e.2 = f e0.2) := by
  unfold amodify at h
  rcases List.mem_map.mp h with ⟨e0, he0, heq⟩
  by_cases hk : e0.1 = k
  · rw [if_pos hk] at heq
    exact ⟨e0, he0, by rw [← heq], Or.inr (by rw [← heq])⟩
  · rw [if_neg hk] at heq
    exact ⟨e0, he0, by rw [← heq], Or.inl (by rw [← heq])⟩

theorem set_data_ok {parent : TextNode} {edge : TextEdge}
    {data : AList Str (List TextEdge)} (hd : dataOK data)
    (hp : noNl parent.name) (hep : noNl edge.parent.name)
    (hec : noNl edge.child.name) (hel : noNl edge.label) :
    dataOK (set_data parent edge data) := by
  unfold set_data
  dsimp only
  have h1 : dataOK (if acontains data parent.name = true
      then amodify data parent.name (fun ch => ch ++ [edge])
      else data ++ [(parent.name, [edge])]) := by
    split
    · intro e he
      obtain ⟨e0, he0, h1, h2⟩ := amodify_mem he
      refine ⟨h1 ▸ (hd e0 he0).1, ?_⟩
      rcases h2 with h2 | h2
      · rw [h2]
        exact (hd e0 he0).2
      · rw [h2]
        intro te hte
        rcases List.mem_append.mp hte with h3 | h3
        · exact (hd e0 he0).2 te h3
        · rw [List.mem_singleton] at h3
          subst h3
          exact ⟨hep, hec, hel⟩
    · intro e he
      rcases List.mem_append.mp he with h | h
      · exact hd e h
      · rw [List.mem_singleton] at h
        subst h
        refine ⟨hp, ?_⟩
        intro te hte
        rw [List.mem_singleton] at hte
        subst hte
        exact ⟨hep, hec, hel⟩
  have key : ∀ (d : AList Str (List TextEdge)), dataOK d →
      dataOK (if ¬acontains d edge.child.name then d ++ [(edge.child.name, [])]
        else d) := by
    intro d hd2
    split
    · intro e he
      rcases List.mem_append.mp he with h | h
      · exact hd2 e h
      · rw [List.mem_singleton] at h
        subst h
        exact ⟨hec, fun te hte => absurd hte (List.not_mem_nil _)⟩
    · exact hd2
  exact key _ h1

theorem set_arrow_with_label_ok {lhs rhs : List TextNode} {label : Str}
    {data : AList Str (List TextEdge)} (hd : dataOK data)
    (hl : nodesOK lhs) (hr : nodesOK rhs) (hlab : noNl label) :
    dataOK (set_arrow_with_label lhs rhs label data).1 := by
  unfold set_arrow_with_label
  dsimp only
  refine foldl_preserve dataOK _ _ _ hd ?_
  intro acc l hacc hlmem
  refine foldl_preserve dataOK _ _ _ hacc ?_
  intro acc2 r hacc2 hrmem
  exact set_data_ok hacc2 (hl l hlmem) (hl l hlmem) (hr r hrmem) hlab

theorem parse_node_name_noNl {line : Str} (h : noNl line) :
    noNl (parse_node line).name := noNl_of_sub (parse_node_sub line).1 h

theorem nodesOK_getD {o : Option (List TextNode)} {line : Str}
    (h : ∀ ns, o = some ns → nodesOK ns) (hline : noNl line) :
    nodesOK (o.getD [parse_node line]) := by
  cases o with
  | none =>
    intro n hn
    rw [Option.getD_none, List.mem_singleton] at hn
    subst hn
    exact parse_node_name_noNl hline
  | some ns => exact h ns rfl

theorem parse_two_sides_ok {fuel : Nat} {data : AList Str (List TextEdge)}
    {classes : AList Str StyleClass} {lhs rhs : Str}
    (ih : ∀ (data : AList Str (List TextEdge)) (classes : AList Str StyleClass)
      (line : Str), dataOK data → classesOK classes → noNl line →
      dataOK (parse_string fuel data classes line).1 ∧
      classesOK (parse_string fuel data classes line).2.1 ∧
      ∀ ns, (parse_string fuel data classes line).2.2 = some ns → nodesOK ns)
    (hd : dataOK data) (hc : classesOK classes) (hlhs : noNl lhs) (hrhs : noNl rhs) :
    dataOK (parse_string fuel (parse_string fuel data classes lhs).1
      (parse_string fuel data classes lhs).2.1 rhs).1 ∧
    classesOK (parse_string fuel (parse_string fuel data classes lhs).1
      (parse_string fuel data classes lhs).2.1 rhs).2.1 ∧
    nodesOK ((parse_string fuel data classes lhs).2.2.getD [parse_node lhs]) ∧
    nodesOK ((parse_string fuel (parse_string fuel data classes lhs).1
      (parse_string fuel data classes lhs).2.1 rhs).2.2.getD [parse_node rhs]) := by
  obtain ⟨hd1, hc1, hn1⟩ := ih data classes lhs hd hc hlhs
  obtain ⟨hd2, hc2, hn2⟩ := ih _ _ rhs hd1 hc1 hrhs
  exact ⟨hd2, hc2, nodesOK_getD hn1 hlhs, nodesOK_getD hn2 hrhs⟩

theorem parse_string_ok : ∀ (fuel : Nat) (data : AList Str (List TextEdge))
    (classes : AList Str StyleClass) (line : Str), dataOK data → classesOK classes →
    noNl line →
    dataOK (parse_string fuel data classes line).1 ∧
    classesOK (parse_string fuel data classes line).2.1 ∧
    ∀ ns, (parse_string fuel data classes line).2.2 = some ns → nodesOK ns := by
  intro fuel
  induction fuel with
  | zero =>
    intro data classes line hd hc _
    exact ⟨hd, hc, fun ns h => by cases h⟩
  | succ fuel ih =>
    intro data classes line hd hc hline
    have hline2 : noNl (trimStr line) := noNl_of_sub (subChars_trim line) hline
    rw [parse_string]
    dsimp only
    split
    · refine ⟨hd, hc, ?_⟩
      intro ns h
      injection h with h
      subst h
      exact fun n hn => absurd hn (List.not_mem_nil _)
    · rcases harr : arrowMatch (trimStr line) with _ | ⟨lhs, rhs⟩ <;> dsimp only
      · rcases hlab : labelArrowMatch (trimStr line) with _ | ⟨lhs, label, rhs⟩ <;>
          dsimp only
        · rcases hcls : classDefMatch (trimStr line) with _ | ⟨cname, styles⟩ <;>
            dsimp only
          · rcases hamp : ampMatch (trimStr line) with _ | ⟨lhs, rhs⟩ <;> dsimp only
            · exact ⟨hd, hc, fun ns h => by cases h⟩
            · obtain ⟨hlhs, hrhs⟩ := ampMatch_sub hamp
              obtain ⟨hd2, hc2, hL, hR⟩ := parse_two_sides_ok ih hd hc
                (noNl_of_sub hlhs hline2) (noNl_of_sub hrhs hline2)
              refine ⟨hd2, hc2, ?_⟩
              intro ns hns
              injection hns with hns
              subst hns
              intro n hn
              rcases List.mem_append.mp hn with h | h
              · exact hL n h
              · exact hR n h
          · obtain ⟨hcn, hst⟩ := classDefMatch_sub hcls
            refine ⟨hd, ?_, ?_⟩
            · intro c0 hc0
              rcases aupsert_mem hc0 with h | h
              · exact hc c0 h
              · subst h
                intro kv hkv
                exact noNl_of_sub (subChars_trans (parse_style_class_values hkv) hst)
                  hline2
            · intro ns h
              injection h with h
              subst h
              exact fun n hn => absurd hn (List.not_mem_nil _)
        · obtain ⟨hlhs, hlabel, hrhs⟩ := labelArrowMatch_sub hlab
          obtain ⟨hd2, hc2, hL, hR⟩ := parse_two_sides_ok ih hd hc
            (noNl_of_sub hlhs hline2) (noNl_of_sub hrhs hline2)
          refine ⟨set_arrow_with_label_ok hd2 hL hR (noNl_of_sub hlabel hline2),
            hc2, ?_⟩
          intro ns hns
          injection hns with hns
          subst hns
          exact hR
      · obtain ⟨hlhs, hrhs⟩ := arrowMatch_sub harr
        obtain ⟨hd2, hc2, hL, hR⟩ := parse_two_sides_ok ih hd hc
          (noNl_of_sub hlhs hline2) (noNl_of_sub hrhs hline2)
        refine ⟨set_arrow_with_label_ok hd2 hL hR
          (fun hcx => absurd hcx (List.not_mem_nil _)), hc2, ?_⟩
        intro ns hns
        injection hns with hns
        subst hns
        exact hR


theorem graphCleanLines_noNl : ∀ (lines : List Str), (∀ l ∈ lines, noNl l) →
    ∀ p ∈ graphCleanLines lines, noNl p := by
  intro lines
  induction lines with
  | nil =>
    intro _ p hp
    cases hp
  | cons line rest ih =>
    intro hall p hp
    have hline : noNl line := hall line (List.mem_cons_self _ _)
    have hrest : ∀ l ∈ rest, noNl l := fun l hl => hall l (List.mem_cons_of_mem _ hl)
    rw [graphCleanLines] at hp
    split at hp
    · cases hp
    · dsimp only at hp
      split at hp
      · exact ih hrest p hp
      · rcases hfind : findSub line "%%".data with _ | idx <;>
          rw [hfind] at hp <;> dsimp only at hp
        · split at hp
          · exact ih hrest p hp
          · rcases List.mem_cons.mp hp with h | h
            · exact h ▸ hline
            · exact ih hrest p h
        · split at hp
          · exact ih hrest p hp
          · rcases List.mem_cons.mp hp with h | h
            · exact h ▸ noNl_of_sub (subChars_trans (subChars_trim _)
                (subChars_take line idx)) hline
            · exact ih hrest p h

/-- Invariant of the parsed graph model: every drawn string (node names,
edge labels, style values, subgraph names) is newline-free. -/
def propsOK (p : GraphProperties) : Prop :=
  dataOK p.data ∧ classesOK p.style_classes ∧ ∀ sg ∈ p.subgraphs, noNl sg.name

theorem graphLineStep_ok {st : GraphProperties × List Nat} {line : Str}
    (h : propsOK st.1) (hline : noNl line) : propsOK (graphLineStep st line).1 := by
  obtain ⟨hd, hc, hsg⟩ := h
  unfold graphLineStep
  dsimp only
  rcases hsub : subgraphMatch (trimStr line) with _ | nm <;> dsimp only
  · split
    · exact ⟨hd, hc, hsg⟩
    · obtain ⟨hd2, hc2, hn2⟩ := parse_string_ok (line.length + 1) st.1.data
        st.1.style_classes line hd hc hline
      have hdata : dataOK (match (parse_string (line.length + 1) st.1.data
          st.1.style_classes line).2.2 with
        | some nodes => nodes.foldl (fun d n => add_node n d)
            (parse_string (line.length + 1) st.1.data st.1.style_classes line).1
        | none => add_node (parse_node line)
            (parse_string (line.length + 1) st.1.data st.1.style_classes line).1) := by
        rcases hr : (parse_string (line.length + 1) st.1.data
            st.1.style_classes line).2.2 with _ | nodes <;> dsimp only
        · exact add_node_ok hd2 (parse_node_name_noNl hline)
        · refine foldl_preserve dataOK _ _ _ hd2 ?_
          intro acc n hacc hnmem
          exact add_node_ok hacc (hn2 nodes hr n hnmem)
      have hnames : ∀ (sgs0 : List TextSubgraph), (∀ sg ∈ sgs0, noNl sg.name) →
          ∀ (ks : List Str) (stk : List Nat),
          ∀ sg ∈ ks.foldl (fun sgs k =>
            stk.foldl (fun sgs idx =>
              let sg := sgs.getD idx ⟨[], [], none, []⟩
              if k ∈ sg.nodes then sgs
              else sgs.set idx { sg with nodes := sg.nodes ++ [k] }) sgs) sgs0,
            noNl sg.name := by
        intro sgs0 h0 ks stk
        refine foldl_preserve
          (fun (sgs : List TextSubgraph) => ∀ sg ∈ sgs, noNl sg.name) _ _ _ h0 ?_
        intro acc k hacc _
        refine foldl_preserve
          (fun (sgs : List TextSubgraph) => ∀ sg ∈ sgs, noNl sg.name) _ _ _ hacc ?_
        intro acc2 idx hacc2 _
        dsimp only
        split
        · exact hacc2
        · refine forall_mem_set hacc2 ?_
          rcases getD_mem_or acc2 idx ⟨[], [], none, []⟩ with h | h
          · exact hacc2 (acc2.getD idx ⟨[], [], none, []⟩) h
          · rw [h]
            intro hcx
            exact absurd hcx (List.not_mem_nil _)
      split
      · exact ⟨hdata, hc2, hnames _ hsg _ _⟩
      · exact ⟨hdata, hc2, hsg⟩
  · have hnm : noNl (trimStr nm) :=
      noNl_of_sub (subChars_trans (subChars_trim nm) (subgraphMatch_sub hsub))
        (noNl_of_sub (subChars_trim line) hline)
    have hsgs1 : ∀ (par : Option Nat), ∀ sg ∈ st.1.subgraphs ++
        [(⟨trimStr nm, [], par, []⟩ : TextSubgraph)], noNl sg.name := by
      intro par sg hmem
      rcases List.mem_append.mp hmem with h | h
      · exact hsg sg h
      · rw [List.mem_singleton] at h
        subst h
        exact hnm
    rcases hpar : st.2.getLast? with _ | pidx <;> dsimp only
    · exact ⟨hd, hc, hsgs1 _⟩
    · refine ⟨hd, hc, forall_mem_set (hsgs1 _) ?_⟩
      rcases getD_mem_or (st.1.subgraphs ++
          [(⟨trimStr nm, [], some pidx, []⟩ : TextSubgraph)]) pidx
          ⟨[], [], none, []⟩ with h | h
      · exact hsgs1 (some pidx) ((st.1.subgraphs ++
          [(⟨trimStr nm, [], some pidx, []⟩ : TextSubgraph)]).getD pidx
          ⟨[], [], none, []⟩) h
      · rw [h]
        intro hcx
        exact absurd hcx (List.not_mem_nil _)

theorem consumePadding_ok : ∀ (lines : List Str) (props : GraphProperties)
    (lp : List Str × GraphProperties),
    consumePadding lines props = Except.ok lp → propsOK props → propsOK lp.2 := by
  intro lines
  induction lines with
  | nil =>
    intro props lp h hp
    rw [consumePadding] at h
    injection h with h
    subst h
    exact hp
  | cons l rest ih =>
    intro props lp h hp
    rw [consumePadding] at h
    dsimp only at h
    split at h
    · exact ih _ _ h hp
    · rcases hpm : paddingMatch (trimStr l) with _ | av <;>
        rw [hpm] at h <;> dsimp only at h
      · injection h with h
        subst h
        exact hp
      · split at h
        · refine ih _ _ h ?_
          split
          · exact hp
          · exact hp
        · cases h

theorem consumePadding_mem : ∀ (lines : List Str) (props : GraphProperties)
    (lp : List Str × GraphProperties),
    consumePadding lines props = Except.ok lp → ∀ l ∈ lp.1, l ∈ lines := by
  intro lines
  induction lines with
  | nil =>
    intro props lp h l hl
    rw [consumePadding] at h
    injection h with h
    subst h
    exact absurd hl (List.not_mem_nil _)
  | cons l0 rest ih =>
    intro props lp h l hl
    rw [consumePadding] at h
    dsimp only at h
    split at h
    · exact List.mem_cons_of_mem _ (ih _ _ h l hl)
    · rcases hpm : paddingMatch (trimStr l0) with _ | av <;>
        rw [hpm] at h <;> dsimp only at h
      · injection h with h
        subst h
        exact hl
      · split at h
        · exact List.mem_cons_of_mem _ (ih _ _ h l hl)
        · cases h

theorem mermaid_to_graph_properties_ok {mermaid style_type : Str} {config : Config}
    {props : GraphProperties}
    (h : mermaid_to_graph_properties mermaid style_type config = Except.ok props) :
    propsOK props := by
  unfold mermaid_to_graph_properties at h
  dsimp only at h
  have hraw : ∀ p ∈ split_lines mermaid, noNl p :=
    split_lines_aux_noNl mermaid.length mermaid [] (Nat.le_refl _)
      (fun hc => absurd hc (List.not_mem_nil _))
  have hlines : ∀ p ∈ graphCleanLines (split_lines mermaid), noNl p :=
    graphCleanLines_noNl _ hraw
  rcases hcp : consumePadding (graphCleanLines (split_lines mermaid))
      ⟨[], [], [], style_type, config.padding_between_x, config.padding_between_y,
        config.box_border_padding, [], config.use_ascii⟩ with e | lp <;>
    rw [hcp] at h <;> dsimp only at h
  · cases h
  · have hlp : propsOK lp.2 := by
      refine consumePadding_ok _ _ _ hcp ?_
      refine ⟨?_, ?_, ?_⟩
      · intro e he
        exact absurd he (List.not_mem_nil _)
      · intro c hc
        exact absurd hc (List.not_mem_nil _)
      · intro sg hsg
        exact absurd hsg (List.not_mem_nil _)
    have hmem := consumePadding_mem _ _ _ hcp
    rcases hl1 : lp.1 with _ | ⟨hd, rest⟩ <;> rw [hl1] at h <;> dsimp only at h
    · cases h
    · have hrestlines : ∀ l ∈ rest, noNl l := by
        intro l hl
        refine hlines l (hmem l ?_)
        rw [hl1]
        exact List.mem_cons_of_mem _ hl
      have hfold : ∀ (gd : Str), propsOK (rest.foldl graphLineStep
          ({ lp.2 with graph_direction := gd }, ([] : List Nat))).1 := by
        intro gd
        refine foldl_preserve
          (fun (st : GraphProperties × List Nat) => propsOK st.1) _ _ _ ?_ ?_
        · exact hlp
        · intro acc x hacc hx
          exact graphLineStep_ok hacc (hrestlines x hx)
      split at h
      · injection h with h
        subst h
        exact hfold _
      · split at h
        · injection h with h
          subst h
          exact hfold _
        · cases h

/-! #### The `graphOK` invariant of the layout pipeline (toward C9) -/

/-- Invariant of one laid-out node: its name and style values are
newline-free and its canvas, when present, has well-formed cells. -/
def nodeInv (n : Node) : Prop :=
  noNl n.name ∧ (∀ kv ∈ n.style_class.styles, noNl kv.2) ∧
    ∀ dr, n.drawing = some dr → cellsOK dr

/-- Invariant of the layout state: canvas cells are well-formed and every
string that can reach the canvas is newline-free. -/
def graphOK (g : Graph) : Prop :=
  cellsOK g.drawing ∧ (∀ n ∈ g.nodes, nodeInv n) ∧
    (∀ e ∈ g.edges, noNl e.text) ∧ ∀ sg ∈ g.subgraphs, noNl sg.name

theorem nodeInv_default : nodeInv defaultNode :=
  ⟨fun hc => absurd hc (List.not_mem_nil _),
   fun _ hkv => absurd hkv (List.not_mem_nil _),
   fun _ hdr => by cases hdr⟩

theorem option_bind_some {α β : Type} {x : Option α} {f : α → Option β} {b : β}
    (h : x >>= f = some b) : ∃ a, x = some a ∧ f a = some b := by
  cases x with
  | none =>
    rw [show ((none : Option α) >>= f) = (none : Option β) from rfl] at h
    cases h
  | some a => exact ⟨a, rfl, h⟩

theorem graphOK_get_or_insert_node {g : Graph} (h : graphOK g) (name sc : Str)
    (hname : noNl name) : graphOK (get_or_insert_node g name sc).1 := by
  obtain ⟨h1, h2, h3, h4⟩ := h
  unfold get_or_insert_node
  rcases alookup g.node_index_by_name name with _ | idx <;> dsimp only
  · refine ⟨h1, ?_, h3, h4⟩
    intro n hn
    rcases List.mem_append.mp hn with hm | hm
    · exact h2 n hm
    · rw [List.mem_singleton] at hm
      subst hm
      exact ⟨hname, fun _ hkv => absurd hkv (List.not_mem_nil _),
        fun _ hdr => by cases hdr⟩
  · exact ⟨h1, h2, h3, h4⟩

theorem nodeInv_getD {g : Graph} (h2 : ∀ n ∈ g.nodes, nodeInv n) (i : Nat) :
    nodeInv (g.nodes.getD i defaultNode) := by
  rcases getD_mem_or g.nodes i defaultNode with hm | hm
  · exact h2 _ hm
  · rw [hm]
    exact nodeInv_default

theorem edge_getD_text {g : Graph} (h3 : ∀ e ∈ g.edges, noNl e.text) (i : Nat) :
    noNl (g.edges.getD i defaultEdge).text := by
  rcases getD_mem_or g.edges i defaultEdge with hm | hm
  · exact h3 _ hm
  · rw [hm]
    intro hc
    exact absurd hc (List.not_mem_nil _)

theorem subgraph_getD_name {g : Graph} (h4 : ∀ sg ∈ g.subgraphs, noNl sg.name)
    (i : Nat) : noNl (g.subgraphs.getD i defaultSubgraph).name := by
  rcases getD_mem_or g.subgraphs i defaultSubgraph with hm | hm
  · exact h4 _ hm
  · rw [hm]
    intro hc
    exact absurd hc (List.not_mem_nil _)

theorem graphOK_set_node {g : Graph} (h : graphOK g) (i : Nat) {n : Node}
    (hn : nodeInv n) : graphOK { g with nodes := g.nodes.set i n } := by
  obtain ⟨h1, h2, h3, h4⟩ := h
  exact ⟨h1, forall_mem_set h2 hn, h3, h4⟩

theorem graphOK_set_edge {g : Graph} (h : graphOK g) (i : Nat) {e : Edge}
    (he : noNl e.text) : graphOK { g with edges := g.edges.set i e } := by
  obtain ⟨h1, h2, h3, h4⟩ := h
  exact ⟨h1, h2, forall_mem_set h3 he, h4⟩

theorem graphOK_add_edge {g : Graph} (h : graphOK g) {e : Edge} (he : noNl e.text) :
    graphOK { g with edges := g.edges ++ [e] } := by
  obtain ⟨h1, h2, h3, h4⟩ := h
  refine ⟨h1, h2, ?_, h4⟩
  intro e2 he2
  rcases List.mem_append.mp he2 with hm | hm
  · exact h3 e2 hm
  · rw [List.mem_singleton] at hm
    subst hm
    exact he

theorem graphOK_mk_graph {props : GraphProperties} (hd : dataOK props.data) :
    graphOK (mk_graph props) := by
  unfold mk_graph
  dsimp only
  refine foldl_preserve graphOK _ _ _ ?_ ?_
  · refine ⟨cellsOK_mk_drawing 0 0, ?_, ?_, ?_⟩
    · intro n hn
      exact absurd hn (List.not_mem_nil _)
    · intro e he
      exact absurd he (List.not_mem_nil _)
    · intro sg hsg
      exact absurd hsg (List.not_mem_nil _)
  · intro g entry hg hentry
    obtain ⟨hkey, hedges⟩ := hd entry hentry
    refine foldl_preserve graphOK _ _ _
      (graphOK_get_or_insert_node hg _ _ hkey) ?_
    intro g2 edge hg2 hedge
    obtain ⟨hpn, hcn, hlab⟩ := hedges edge hedge
    have hrc := graphOK_get_or_insert_node hg2 edge.child.name edge.child.style_class hcn
    refine graphOK_add_edge ?_ hlab
    split
    · exact graphOK_set_node hrc _ (nodeInv_getD hrc.2.1 _)
    · exact hrc

theorem graphOK_set_style_classes {g : Graph} {props : GraphProperties}
    (h : graphOK g) (hc : classesOK props.style_classes) :
    graphOK (set_style_classes g props) := by
  obtain ⟨h1, h2, h3, h4⟩ := h
  unfold set_style_classes
  dsimp only
  refine ⟨h1, ?_, h3, h4⟩
  intro n hn
  rcases List.mem_map.mp hn with ⟨n0, hn0, heq⟩
  subst heq
  split
  · rcases hlk : alookup props.style_classes n0.style_class_name with _ | cls <;>
      dsimp only
    · exact h2 n0 hn0
    · refine ⟨(h2 n0 hn0).1, ?_, (h2 n0 hn0).2.2⟩
      intro kv hkv
      obtain ⟨e, he, hv⟩ := alookup_val_mem _ _ _ hlk
      exact hc e he kv (hv ▸ hkv)
  · exact h2 n0 hn0

theorem graphOK_set_subgraphs {g : Graph} {tsgs : List TextSubgraph}
    (h : graphOK g) (ht : ∀ t ∈ tsgs, noNl t.name) :
    graphOK (set_subgraphs g tsgs) := by
  obtain ⟨h1, h2, h3, h4⟩ := h
  unfold set_subgraphs
  dsimp only
  refine ⟨h1, h2, h3, ?_⟩
  intro sg hsg
  rcases List.mem_map.mp hsg with ⟨t, htm, heq⟩
  subst heq
  exact ht t htm

theorem graphOK_place_node {g : Graph} (h : graphOK g) (fuel : Nat)
    (hppl : List Int) (idx : Nat) (level : Int) {st : Graph × List Int}
    (hres : place_node g fuel hppl idx level = some st) : graphOK st.1 := by
  obtain ⟨h1, h2, h3, h4⟩ := h
  unfold place_node at hres
  dsimp only at hres
  split at hres
  · cases hres
  · injection hres with hres
    subst hres
    exact ⟨h1, forall_mem_set h2 (nodeInv_getD h2 idx), h3, h4⟩

theorem graphOK_place_all {g : Graph} (h : graphOK g) (fuel : Nat)
    {st : Graph × List Int} (hres : place_all g fuel = some st) : graphOK st.1 := by
  unfold place_all at hres
  dsimp only at hres
  obtain ⟨st1, hst1, hres⟩ := option_bind_some hres
  have hP1 : graphOK st1.1 := by
    refine foldlM_option_preserve (fun (st : Graph × List Int) => graphOK st.1)
      _ _ _ _ h ?_ hst1
    intro acc x r hacc hf
    exact graphOK_place_node hacc fuel _ x 0 hf
  have stage3 : ∀ (st0 res : Graph × List Int), graphOK st0.1 →
      (List.range st0.1.nodes.length).foldlM (fun (st : Graph × List Int) idx =>
        (get_children st.1 idx).foldlM (fun (st2 : Graph × List Int) child_idx =>
          if ((st2.1.nodes.getD child_idx defaultNode).grid_coord).isSome then some st2
          else place_node st2.1 fuel st2.2 child_idx
            (if st.1.graph_direction = "LR".data
             then ((st.1.nodes.getD idx defaultNode).grid_coord.getD ⟨0, 0⟩).x + 4
             else ((st.1.nodes.getD idx defaultNode).grid_coord.getD ⟨0, 0⟩).y + 4))
          st) st0 = some res → graphOK res.1 := by
    intro st0 res h0 hf
    refine foldlM_option_preserve (fun (st : Graph × List Int) => graphOK st.1)
      _ _ _ _ h0 ?_ hf
    intro acc x r hacc hfx
    refine foldlM_option_preserve (fun (st : Graph × List Int) => graphOK st.1)
      _ _ _ _ hacc ?_ hfx
    intro acc2 y r2 hacc2 hfy
    split at hfy
    · injection hfy with hfy
      subst hfy
      exact hacc2
    · exact graphOK_place_node hacc2 fuel _ y _ hfy
  split at hres
  all_goals split at hres
  all_goals
    obtain ⟨st2, hst2, hres⟩ := option_bind_some hres
  all_goals refine stage3 st2 st ?_ hres
  all_goals
    first
      | (injection hst2 with hst2
         subst hst2
         exact hP1)
      | (refine foldlM_option_preserve (fun (st : Graph × List Int) => graphOK st.1)
           _ _ _ _ hP1 ?_ hst2
         intro acc x r hacc hf
         exact graphOK_place_node hacc fuel _ x 4 hf)

theorem graphOK_set_column_width {g : Graph} (h : graphOK g) (idx : Nat) :
    graphOK (set_column_width g idx) := by
  obtain ⟨h1, h2, h3, h4⟩ := h
  exact ⟨h1, h2, h3, h4⟩

theorem graphOK_determine_path {g : Graph} (h : graphOK g) (fuel ei : Nat) :
    graphOK (determine_path g fuel ei) := by
  obtain ⟨h1, h2, h3, h4⟩ := h
  have hset : ∀ (e : Edge), noNl e.text →
      graphOK { g with edges := g.edges.set ei e } :=
    fun e he => graphOK_set_edge ⟨h1, h2, h3, h4⟩ ei he
  have htext : noNl (g.edges.getD ei defaultEdge).text := edge_getD_text h3 ei
  unfold determine_path
  dsimp only
  split
  · exact hset _ htext
  · split
    · exact hset _ htext
    · split
      · exact hset _ htext
      · exact hset _ htext

theorem graphOK_increase_grid_size {g : Graph} (h : graphOK g)
    (path : List GridCoord) : graphOK (increase_grid_size_for_path g path) := by
  unfold increase_grid_size_for_path
  refine foldl_preserve graphOK _ _ _ h ?_
  intro acc c hacc _
  obtain ⟨h1, h2, h3, h4⟩ := hacc
  exact ⟨h1, h2, h3, h4⟩

theorem graphOK_determine_label_line {g : Graph} (h : graphOK g) (ei : Nat) :
    graphOK (determine_label_line g ei) := by
  obtain ⟨h1, h2, h3, h4⟩ := h
  unfold determine_label_line
  dsimp only
  split
  · exact ⟨h1, h2, h3, h4⟩
  · split
    · exact ⟨h1, h2, h3, h4⟩
    · exact ⟨h1, h2, forall_mem_set h3 (edge_getD_text h3 ei), h4⟩

theorem graphOK_sds {g : Graph} (h : graphOK g)
    (ord : List (Int × Int) → List (Int × Int)) :
    graphOK (set_drawing_size_to_grid_constraints ord g) := by
  obtain ⟨h1, h2, h3, h4⟩ := h
  exact ⟨cellsOK_increase_size h1 _ _, h2, h3, h4⟩

theorem graphOK_csbb : ∀ (fuel : Nat) (g : Graph) (idx : Nat) (g2 : Graph),
    graphOK g → calculate_subgraph_bounding_box g fuel idx = some g2 →
    graphOK g2 := by
  intro fuel
  induction fuel with
  | zero =>
    intro g idx g2 _ h
    cases h
  | succ fuel ih =>
    intro g idx g2 hg hres
    rw [calculate_subgraph_bounding_box] at hres
    dsimp only at hres
    split at hres
    · injection hres with hres
      subst hres
      exact hg
    · obtain ⟨st, hst, hres⟩ := option_bind_some hres
      have hst1 : graphOK st.1 := by
        refine foldlM_option_preserve
          (fun (st : Graph × Int × Int × Int × Int) => graphOK st.1)
          _ _ _ _ hg ?_ hst
        intro acc x r hacc hf
        obtain ⟨g3, hg3, hrest⟩ := option_bind_some hf
        have hg3OK := ih acc.1 x g3 hacc hg3
        split at hrest
        · injection hrest with hrest
          subst hrest
          exact hg3OK
        · injection hrest with hrest
          subst hrest
          exact hg3OK
      injection hres with hres
      subst hres
      have hR : graphOK ((g.subgraphs.getD idx defaultSubgraph).nodes.foldl
          (fun (st : Graph × Int × Int × Int × Int) node_idx =>
            let node := st.1.nodes.getD node_idx defaultNode
            match node.drawing_coord, node.drawing with
            | some coord, some dr =>
              (st.1, min st.2.1 coord.x, min st.2.2.1 coord.y,
                max st.2.2.2.1 (coord.x + (dr.length : Int) - 1),
                max st.2.2.2.2 (coord.y + ((dr.headD []).length : Int) - 1))
            | _, _ => st) st).1 := by
        refine foldl_preserve
          (fun (st : Graph × Int × Int × Int × Int) => graphOK st.1) _ _ _ hst1 ?_
        intro acc x hacc _
        dsimp only
        split
        · exact hacc
        · exact hacc
      obtain ⟨r1, r2, r3, r4⟩ := hR
      exact ⟨r1, r2, r3, forall_mem_set r4 (subgraph_getD_name r4 idx)⟩

theorem spacingStep_names {sgs : List Subgraph} (h : ∀ sg ∈ sgs, noNl sg.name)
    (i j : Nat) : ∀ sg ∈ spacingStep sgs i j, noNl sg.name := by
  have h1 : noNl (sgs.getD i defaultSubgraph).name := by
    rcases getD_mem_or sgs i defaultSubgraph with hm | hm
    · exact h _ hm
    · rw [hm]
      intro hc
      exact absurd hc (List.not_mem_nil _)
  have h2 : noNl (sgs.getD j defaultSubgraph).name := by
    rcases getD_mem_or sgs j defaultSubgraph with hm | hm
    · exact h _ hm
    · rw [hm]
      intro hc
      exact absurd hc (List.not_mem_nil _)
  unfold spacingStep
  dsimp only
  intro sg hm
  rcases List.mem_or_eq_of_mem_set hm with hm2 | hm2
  · rcases List.mem_or_eq_of_mem_set hm2 with hm3 | hm3
    · exact h sg hm3
    · subst hm3
      split_ifs <;> first
        | exact h1
        | exact h2
  · subst hm2
    split_ifs <;> first
      | exact h1
      | exact h2

theorem graphOK_ensure_spacing {g : Graph} (h : graphOK g) :
    graphOK (ensure_subgraph_spacing g) := by
  obtain ⟨h1, h2, h3, h4⟩ := h
  unfold ensure_subgraph_spacing
  dsimp only
  refine ⟨h1, h2, h3, ?_⟩
  refine foldl_preserve
    (fun (sgs : List Subgraph) => ∀ sg ∈ sgs, noNl sg.name) _ _ _ h4 ?_
  intro acc i hacc _
  refine foldl_preserve
    (fun (sgs : List Subgraph) => ∀ sg ∈ sgs, noNl sg.name) _ _ _ hacc ?_
  intro acc2 j hacc2 _
  exact spacingStep_names hacc2 _ _

theorem graphOK_csbbs {g g2 : Graph} (h : graphOK g)
    (hres : calculate_subgraph_bounding_boxes g = some g2) : graphOK g2 := by
  unfold calculate_subgraph_bounding_boxes at hres
  obtain ⟨g3, hg3, hres⟩ := option_bind_some hres
  injection hres with hres
  subst hres
  refine graphOK_ensure_spacing ?_
  refine foldlM_option_preserve graphOK _ _ _ _ h ?_ hg3
  intro acc x r hacc hf
  exact graphOK_csbb _ acc x r hacc hf

theorem graphOK_offset {g : Graph} (h : graphOK g) :
    graphOK (offset_drawing_for_subgraphs g) := by
  obtain ⟨h1, h2, h3, h4⟩ := h
  unfold offset_drawing_for_subgraphs
  dsimp only
  split
  · exact ⟨h1, h2, h3, h4⟩
  · split
    · exact ⟨h1, h2, h3, h4⟩
    · refine ⟨h1, ?_, h3, ?_⟩
      · intro n hn
        rcases List.mem_map.mp hn with ⟨n0, hn0, heq⟩
        subst heq
        rcases n0.drawing_coord with _ | c <;> dsimp only
        · exact h2 n0 hn0
        · exact h2 n0 hn0
      · intro sg hsg
        rcases List.mem_map.mp hsg with ⟨s0, hs0, heq⟩
        subst heq
        exact h4 s0 hs0

theorem graphOK_create_mapping {g g2 : Graph} (h : graphOK g)
    (ord : List (Int × Int) → List (Int × Int)) (fuel : Nat)
    (hres : create_mapping ord fuel g = some g2) : graphOK g2 := by
  unfold create_mapping at hres
  obtain ⟨st, hst, hres⟩ := option_bind_some hres
  dsimp only at hres
  obtain ⟨g3, hg3, hres⟩ := option_bind_some hres
  injection hres with hres
  subst hres
  refine graphOK_offset (graphOK_csbbs ?_ hg3)
  refine graphOK_sds ?_ ord
  refine foldl_preserve graphOK _ _ _ ?_ ?_
  · refine foldl_preserve graphOK _ _ _ ?_ ?_
    · exact foldl_preserve graphOK _ _ _ (graphOK_place_all h fuel hst)
        (fun a x ha _ => graphOK_set_column_width ha x)
    · intro a ei ha _
      exact graphOK_determine_label_line
        (graphOK_increase_grid_size (graphOK_determine_path ha fuel ei) _) ei
  · intro a idx ha _
    obtain ⟨h1, h2, h3, h4⟩ := ha
    refine ⟨h1, ?_, h3, h4⟩
    refine forall_mem_set h2 ?_
    have hninv : nodeInv (a.nodes.getD idx defaultNode) := by
      rcases getD_mem_or a.nodes idx defaultNode with hm | hm
      · exact h2 _ hm
      · rw [hm]
        exact nodeInv_default
    refine ⟨hninv.1, hninv.2.1, ?_⟩
    intro dr hdr
    injection hdr with hdr
    subst hdr
    exact cellsOK_draw_box hninv.1 hninv.2.1

theorem graphOK_draw_subgraphs {g : Graph} (h : graphOK g) :
    graphOK (draw_subgraphs g) := by
  unfold draw_subgraphs
  refine foldl_preserve graphOK _ _ _ h ?_
  intro a idx ha _
  obtain ⟨h1, h2, h3, h4⟩ := ha
  dsimp only
  split
  · exact ⟨h1, h2, h3, h4⟩
  · refine ⟨cellsOK_merge_drawings h1 ?_ _ _, h2, h3, h4⟩
    intro dr hdr
    rw [List.mem_singleton] at hdr
    subst hdr
    exact cellsOK_draw_subgraph _ _

theorem graphOK_draw_node {g : Graph} (h : graphOK g) (idx : Nat) :
    graphOK (draw_node g idx) := by
  obtain ⟨h1, h2, h3, h4⟩ := h
  have hninv : nodeInv (g.nodes.getD idx defaultNode) := by
    rcases getD_mem_or g.nodes idx defaultNode with hm | hm
    · exact h2 _ hm
    · rw [hm]
      exact nodeInv_default
  unfold draw_node
  dsimp only
  split
  · rename_i coord dr heq1 heq2
    refine ⟨cellsOK_merge_drawings h1 ?_ _ _, ?_, h3, h4⟩
    · intro d2 hd2
      rw [List.mem_singleton] at hd2
      subst hd2
      exact hninv.2.2 _ heq2
    · refine forall_mem_set h2 ?_
      exact ⟨hninv.1, hninv.2.1, fun d2 hd2 => hninv.2.2 d2 hd2⟩
  · exact ⟨h1, h2, h3, h4⟩

theorem graphOK_draw_subgraph_labels {g : Graph} (h : graphOK g) :
    graphOK (draw_subgraph_labels g) := by
  have h4 : ∀ sg ∈ g.subgraphs, noNl sg.name := h.2.2.2
  unfold draw_subgraph_labels
  refine foldl_preserve graphOK _ _ _ h ?_
  intro a sg ha hsgm
  obtain ⟨k1, k2, k3, k4⟩ := ha
  dsimp only
  split
  · exact ⟨k1, k2, k3, k4⟩
  · refine ⟨cellsOK_merge_drawings k1 ?_ _ _, k2, k3, k4⟩
    intro dr hdr
    rw [List.mem_singleton] at hdr
    subst hdr
    exact cellsOK_draw_subgraph_label (h4 sg hsgm)

theorem graphOK_graph_draw {g : Graph} (h : graphOK g) :
    graphOK (graph_draw g) := by
  unfold graph_draw
  dsimp only
  refine graphOK_draw_subgraph_labels ?_
  have hB : graphOK ((List.range (draw_subgraphs g).nodes.length).foldl
      (fun g idx => if ¬(g.nodes.getD idx defaultNode).drawn then draw_node g idx
        else g) (draw_subgraphs g)) := by
    refine foldl_preserve graphOK _ _ _ (graphOK_draw_subgraphs h) ?_
    intro a idx ha _
    dsimp only
    split
    · exact graphOK_draw_node ha idx
    · exact ha
  obtain ⟨b1, b2, b3, b4⟩ := hB
  refine ⟨?_, b2, b3, b4⟩
  refine cellsOK_merge_drawings (cellsOK_merge_drawings (cellsOK_merge_drawings
    (cellsOK_merge_drawings (cellsOK_merge_drawings b1 ?_ _ _) ?_ _ _) ?_ _ _)
    ?_ _ _) ?_ _ _
  · intro dr hdr
    rcases List.mem_map.mp hdr with ⟨r, hr, heq⟩
    rcases List.mem_map.mp hr with ⟨ei, _, heq2⟩
    subst heq heq2
    exact (cellsOK_draw_edge _ b1 ei b3).1
  · intro dr hdr
    rcases List.mem_map.mp hdr with ⟨r, hr, heq⟩
    rcases List.mem_map.mp hr with ⟨ei, _, heq2⟩
    subst heq heq2
    exact (cellsOK_draw_edge _ b1 ei b3).2.2.2.1
  · intro dr hdr
    rcases List.mem_map.mp hdr with ⟨r, hr, heq⟩
    rcases List.mem_map.mp hr with ⟨ei, _, heq2⟩
    subst heq heq2
    exact (cellsOK_draw_edge _ b1 ei b3).2.2.1
  · intro dr hdr
    rcases List.mem_map.mp hdr with ⟨r, hr, heq⟩
    rcases List.mem_map.mp hr with ⟨ei, _, heq2⟩
    subst heq heq2
    exact (cellsOK_draw_edge _ b1 ei b3).2.1
  · intro dr hdr
    rcases List.mem_map.mp hdr with ⟨r, hr, heq⟩
    rcases List.mem_map.mp hr with ⟨ei, _, heq2⟩
    subst heq heq2
    exact (cellsOK_draw_edge _ b1 ei b3).2.2.2.2

theorem draw_map_ok {ord : List (Int × Int) → List (Int × Int)} {fuel : Nat}
    {props : GraphProperties} {show_coords : Bool} {out : Str}
    (hp : propsOK props) (hres : draw_map ord fuel props show_coords = Except.ok out) :
    out.getLast? ≠ some '\n' := by
  have hg : graphOK (set_subgraphs
      ({ set_style_classes (mk_graph props) props with
         padding_x := props.padding_x,
         padding_y := props.padding_y,
         box_border_padding := props.box_border_padding,
         use_ascii := props.use_ascii,
         graph_direction := props.graph_direction }) props.subgraphs) := by
    refine graphOK_set_subgraphs ?_ hp.2.2
    exact graphOK_set_style_classes (graphOK_mk_graph hp.1) hp.2.1
  unfold draw_map at hres
  dsimp only at hres
  split at hres
  · cases hres
  · rename_i gm hcm
    injection hres with hres
    subst hres
    have hgd := graphOK_graph_draw (graphOK_create_mapping hg ord fuel hcm)
    refine drawing_to_string_no_trailing_nl ?_
    split
    · exact cellsOK_debug_coord_wrapper _ (cellsOK_debug_drawing_wrapper hgd.1)
    · exact hgd.1


/-! #### The sequence renderer's trailing newline (toward C9) -/

theorem mem_set_self {α : Type} : ∀ (l : List α) (n : Nat) (v : α),
    v ∈ l → v ∈ l.set n v := by
  intro l
  induction l with
  | nil =>
    intro n v hv
    cases hv
  | cons a as ih =>
    intro n v hv
    cases n with
    | zero => exact List.mem_cons_self _ _
    | succ n =>
      rcases List.mem_cons.mp hv with hv | hv
      · subst hv
        exact List.mem_cons_self _ _
      · exact List.mem_cons_of_mem a (ih n v hv)

theorem set_mem_self {α : Type} : ∀ (l : List α) (n : Nat) (v : α),
    n < l.length → v ∈ l.set n v := by
  intro l
  induction l with
  | nil =>
    intro n v hn
    cases hn
  | cons a as ih =>
    intro n v hn
    cases n with
    | zero => exact List.mem_cons_self _ _
    | succ n =>
      refine List.mem_cons_of_mem a (ih n v ?_)
      simp only [List.length_cons] at hn
      omega

theorem lifelineFold_length (chars : BoxChars) : ∀ (cs : List Int) (l : List Char),
    (cs.foldl (fun line center =>
      if 0 ≤ center ∧ center.toNat < line.length
      then line.set center.toNat chars.vertical else line) l).length = l.length := by
  intro cs
  induction cs with
  | nil =>
    intro l
    rfl
  | cons x xs ih =>
    intro l
    rw [List.foldl_cons, ih]
    split
    · exact List.length_set l _ _
    · rfl

theorem lifelineFold_mem (chars : BoxChars) : ∀ (cs : List Int) (l : List Char),
    chars.vertical ∈ l →
    chars.vertical ∈ cs.foldl (fun line center =>
      if 0 ≤ center ∧ center.toNat < line.length
      then line.set center.toNat chars.vertical else line) l := by
  intro cs
  induction cs with
  | nil =>
    intro l hl
    exact hl
  | cons x xs ih =>
    intro l hl
    rw [List.foldl_cons]
    refine ih _ ?_
    split
    · exact mem_set_self l _ _ hl
    · exact hl

theorem lifelineFold_chars (chars : BoxChars) : ∀ (cs : List Int) (l : List Char),
    (∀ ch ∈ l, ch = ' ' ∨ ch = chars.vertical) →
    ∀ ch ∈ cs.foldl (fun line center =>
      if 0 ≤ center ∧ center.toNat < line.length
      then line.set center.toNat chars.vertical else line) l,
      ch = ' ' ∨ ch = chars.vertical := by
  intro cs
  induction cs with
  | nil =>
    intro l hl
    exact hl
  | cons x xs ih =>
    intro l hl
    rw [List.foldl_cons]
    refine ih _ ?_
    split
    · intro ch hch
      rcases List.mem_or_eq_of_mem_set hch with hm | hm
      · exact hl ch hm
      · exact Or.inr hm
    · exact hl

theorem build_lifeline_ok (layout : DiagramLayout) (chars : BoxChars)
    (hvs : chars.vertical ≠ ' ') (hvn : chars.vertical ≠ '\n')
    (hex : ∃ c ∈ layout.participant_centers, 0 ≤ c ∧ c < layout.total_width + 1) :
    build_lifeline layout chars ≠ [] ∧ noNl (build_lifeline layout chars) := by
  obtain ⟨c, hcmem, hc0, hclt⟩ := hex
  unfold build_lifeline
  dsimp only
  obtain ⟨s, t, hst⟩ := List.append_of_mem hcmem
  have hbase : ∀ ch ∈ List.replicate (layout.total_width + 1).toNat ' ',
      ch = ' ' ∨ ch = chars.vertical :=
    fun ch hch => Or.inl (List.eq_of_mem_replicate hch)
  have hchars := lifelineFold_chars chars layout.participant_centers _ hbase
  have hmem : chars.vertical ∈ layout.participant_centers.foldl
      (fun line center => if 0 ≤ center ∧ center.toNat < line.length
        then line.set center.toNat chars.vertical else line)
      (List.replicate (layout.total_width + 1).toNat ' ') := by
    rw [hst, List.foldl_append, List.foldl_cons]
    refine lifelineFold_mem chars t _ ?_
    have hlen := lifelineFold_length chars s
      (List.replicate (layout.total_width + 1).toNat ' ')
    have hcnat : c.toNat < (List.replicate (layout.total_width + 1).toNat ' ').length := by
      rw [List.length_replicate]
      omega
    rw [if_pos ⟨hc0, by rw [hlen]; exact hcnat⟩]
    exact set_mem_self _ _ _ (by rw [hlen]; exact hcnat)
  constructor
  · intro hemp
    unfold rtrim at hemp
    rw [List.reverse_eq_nil_iff] at hemp
    rw [List.dropWhile_eq_nil_iff] at hemp
    have := hemp chars.vertical (List.mem_reverse.mpr hmem)
    exact hvs (by
      have h2 : (chars.vertical == ' ') = true := this
      exact eq_of_beq h2)
  · intro hnl
    unfold rtrim at hnl
    rw [List.mem_reverse] at hnl
    have h2 := List.dropWhile_subset _ hnl
    rw [List.mem_reverse] at h2
    rcases hchars '\n' h2 with h3 | h3
    · exact absurd h3 (by decide)
    · exact hvn h3.symm

theorem joinLines_cons2 (f a : Str) (as : List Str) :
    joinLines (f :: a :: as) = f ++ '\n' :: joinLines (a :: as) := rfl

theorem joinLines_getLast : ∀ (ls : List Str) (l : Str), l ≠ [] →
    (joinLines (ls ++ [l])).getLast? = l.getLast? := by
  intro ls
  induction ls with
  | nil =>
    intro l _
    rfl
  | cons f fs ih =>
    intro l hl
    have hne : joinLines (fs ++ [l]) ≠ [] := by
      intro hemp
      have h2 := List.getLast?_isSome.mpr hl
      rw [← ih l hl, hemp] at h2
      simp at h2
    rcases hfs : fs ++ [l] with _ | ⟨a, as⟩
    · exact absurd hfs (by simp)
    · rw [List.cons_append, hfs, joinLines_cons2, ← hfs]
      rw [List.getLast?_append_of_ne_nil f (by simp : '\n' :: joinLines (fs ++ [l]) ≠ [])]
      rw [show ('\n' :: joinLines (fs ++ [l])) = ['\n'] ++ joinLines (fs ++ [l]) from rfl]
      rw [List.getLast?_append_of_ne_nil _ hne]
      exact ih l hl

theorem centersFold_facts (sp : Int) (hsp : 0 ≤ sp) :
    ∀ (ws : List Int), (∀ w ∈ ws, 0 ≤ w) →
    ∀ (acc : List Int × Int), (∀ x ∈ acc.1, 0 ≤ x) → 0 ≤ acc.2 →
    (∀ x ∈ (ws.foldl (centersStep sp) acc).1, 0 ≤ x) ∧
      0 ≤ (ws.foldl (centersStep sp) acc).2 ∧
      (ws.foldl (centersStep sp) acc).1.length = acc.1.length + ws.length := by
  intro ws
  induction ws with
  | nil =>
    intro _ acc h1 h2
    exact ⟨h1, h2, by simp⟩
  | cons w rest ih =>
    intro hws acc h1 h2
    have hw : 0 ≤ w := hws w (List.mem_cons_self _ _)
    have hrest : ∀ x ∈ rest, 0 ≤ x := fun x hx => hws x (List.mem_cons_of_mem _ hx)
    rw [List.foldl_cons]
    have hbw : (0 : Int) ≤ w + BOX_BORDER_WIDTH := by
      simp only [BOX_BORDER_WIDTH]
      omega
    have htd : 0 ≤ Int.tdiv (w + BOX_BORDER_WIDTH) 2 := by
      rw [Int.tdiv_eq_ediv hbw (by norm_num)]
      simp only [BOX_BORDER_WIDTH]
      omega
    have hstep1 : ∀ x ∈ (centersStep sp acc w).1, 0 ≤ x := by
      unfold centersStep
      dsimp only
      split
      · intro x hx
        rcases List.mem_append.mp hx with hm | hm
        · exact h1 x hm
        · rw [List.mem_singleton] at hm
          subst hm
          exact htd
      · intro x hx
        rcases List.mem_append.mp hx with hm | hm
        · exact h1 x hm
        · rw [List.mem_singleton] at hm
          subst hm
          omega
    have hstep2 : 0 ≤ (centersStep sp acc w).2 := by
      unfold centersStep
      dsimp only
      split
      · simp only [BOX_BORDER_WIDTH]
        omega
      · simp only [BOX_BORDER_WIDTH]
        omega
    have hstep3 : (centersStep sp acc w).1.length = acc.1.length + 1 := by
      unfold centersStep
      dsimp only
      split <;> simp
    obtain ⟨a, b, c⟩ := ih hrest _ hstep1 hstep2
    refine ⟨a, b, ?_⟩
    rw [c, hstep3]
    simp only [List.length_cons]
    omega

theorem widths_mem_ge3 {W : Str → Nat} {d : SequenceDiagram} {c : Config} :
    ∀ w ∈ (calculate_layout W d c).participant_widths, 3 ≤ w := by
  intro w hw
  simp only [calculate_layout, List.mem_map] at hw
  obtain ⟨p, _, rfl⟩ := hw
  split
  · simp [MIN_BOX_WIDTH]
  · rename_i hlt
    simp only [MIN_BOX_WIDTH] at hlt ⊢
    omega

theorem calcCenters_facts {W : Str → Nat} {d : SequenceDiagram} {c : Config} :
    (∀ x ∈ (calculate_layout W d c).participant_centers, 0 ≤ x) ∧
    (calculate_layout W d c).participant_centers.length = d.participants.length := by
  have hsp : 0 ≤ (if c.sequence_participant_spacing > 0
      then c.sequence_participant_spacing else DEFAULT_PARTICIPANT_SPACING) := by
    split
    · omega
    · simp only [DEFAULT_PARTICIPANT_SPACING]
      omega
  have key := centersFold_facts
    (if c.sequence_participant_spacing > 0 then c.sequence_participant_spacing
     else DEFAULT_PARTICIPANT_SPACING) hsp
    (calculate_layout W d c).participant_widths
    (fun w hw => le_trans (by norm_num) (widths_mem_ge3 w hw))
    ([], 0) (fun x hx => absurd hx (List.not_mem_nil _)) le_rfl
  constructor
  · intro x hx
    exact key.1 x hx
  · have h3 : (calculate_layout W d c).participant_centers.length =
        ([] : List Int).length + (calculate_layout W d c).participant_widths.length :=
      key.2.2
    rw [calcWidths_length] at h3
    simpa using h3

theorem layout_center_exists {W : Str → Nat} {d : SequenceDiagram} {config : Config}
    (hne : d.participants ≠ []) :
    ∃ c ∈ (calculate_layout W d config).participant_centers,
      0 ≤ c ∧ c < (calculate_layout W d config).total_width + 1 := by
  have hlen : 0 < d.participants.length := List.length_pos.mpr hne
  obtain ⟨hpos, hclen⟩ := calcCenters_facts (W := W) (d := d) (c := config)
  have hidx : d.participants.length - 1 <
      (calculate_layout W d config).participant_centers.length := by
    rw [hclen]
    omega
  have hmem : (calculate_layout W d config).participant_centers.getD
      (d.participants.length - 1) 0 ∈
      (calculate_layout W d config).participant_centers := by
    rw [List.getD_eq_getElem _ _ hidx]
    exact List.getElem_mem hidx
  refine ⟨_, hmem, hpos _ hmem, ?_⟩
  have htw : (calculate_layout W d config).total_width =
      (calculate_layout W d config).participant_centers.getD
        (d.participants.length - 1) 0 +
      Int.tdiv ((calculate_layout W d config).participant_widths.getD
        (d.participants.length - 1) 0 + BOX_BORDER_WIDTH) 2 := rfl
  have hwge := calcWidths_ge W d config (d.participants.length - 1) (by omega)
  have htd : 2 ≤ Int.tdiv ((calculate_layout W d config).participant_widths.getD
      (d.participants.length - 1) 0 + BOX_BORDER_WIDTH) 2 := by
    rw [Int.tdiv_eq_ediv (by simp only [BOX_BORDER_WIDTH]; omega)
      (by norm_num)]
    simp only [BOX_BORDER_WIDTH]
    omega
  rw [htw]
  omega

theorem render_ok_shape {W : Str → Nat} {d : SequenceDiagram} {config : Config}
    {out : Str} (h : render W d config = Except.ok out) :
    ∃ body, out = body ++ ['\n'] ∧ body ≠ [] ∧ body.getLast? ≠ some '\n' := by
  unfold render at h
  split at h
  · cases h
  · rename_i hne
    dsimp only at h
    injection h with h
    subst h
    have hvs : (if config.use_ascii then ASCII else UNICODE).vertical ≠ ' ' := by
      rcases config.use_ascii <;> decide
    have hvn : (if config.use_ascii then ASCII else UNICODE).vertical ≠ '\n' := by
      rcases config.use_ascii <;> decide
    obtain ⟨hlne, hlnn⟩ := build_lifeline_ok (calculate_layout W d config)
      (if config.use_ascii then ASCII else UNICODE) hvs hvn
      (layout_center_exists hne)
    refine ⟨_, rfl, ?_, ?_⟩
    · intro hemp
      have h3 := congrArg List.getLast? hemp
      rw [joinLines_getLast _ _ hlne] at h3
      have h2 := List.getLast?_isSome.mpr hlne
      rw [h3] at h2
      simp at h2
    · rw [joinLines_getLast _ _ hlne]
      intro hcon
      exact hlnn (List.mem_of_mem_getLast? hcon)


/-- **C9** (confirmed).  For every input on which `render_diagram` succeeds:
when the input is classified as a sequence diagram, the output is a
non-empty body that does not end in a newline, followed by exactly one
trailing newline character; when it is classified as a graph diagram, the
output does not end with a newline character. -/
theorem c9_trailing_newline (W : Str → Nat)
    (ord : List (Int × Int) → List (Int × Int)) (fuel : Nat) (input : Str)
    (config : Config) (out : Str)
    (h : render_diagram W ord fuel input config = Except.ok out) :
    (is_sequence_diagram (trimStr input) = true →
      ∃ body, out = body ++ ['\n'] ∧ body ≠ [] ∧ body.getLast? ≠ some '\n') ∧
    (is_sequence_diagram (trimStr input) = false → out.getLast? ≠ some '\n') := by
  unfold render_diagram at h
  split at h
  · rename_i hseq
    constructor
    · intro _
      split at h
      · cases h
      · exact render_ok_shape h
    · intro hfalse
      rw [hseq] at hfalse
      cases hfalse
  · rename_i hseq
    constructor
    · intro htrue
      exact absurd htrue hseq
    · intro _
      split at h
      · cases h
      · rename_i props hp
        unfold graph_render at h
        dsimp only at h
        refine draw_map_ok ?_ h
        have hprops := mermaid_to_graph_properties_ok hp
        exact ⟨hprops.1, hprops.2.1, hprops.2.2⟩

/-- Witness for C9: rendering the two-line sequence diagram
`sequenceDiagram` / `participant A` succeeds and its output is a non-empty
newline-free body followed by exactly one trailing newline. -/
theorem c9_trailing_newline_witness :
    ∃ body, "┌───┐\n│ A │\n└─┬─┘\n  │\n".data = body ++ ['\n'] ∧ body ≠ [] ∧
      body.getLast? ≠ some '\n' :=
  (c9_trailing_newline (fun s => s.length) (fun l => l) 0
    "sequenceDiagram\nparticipant A".data default_config
    "┌───┐\n│ A │\n└─┬─┘\n  │\n".data (by rfl)).1 (by rfl)

end ConsoleMermaid
